import Mathlib

/-! dirgui: RFB wire codecs, pixel-format images and the server session

A shallow embedding of the Go packages `rfb` (`src/rfb/rfb.go`, `src/rfb/image.go`), of
the server sessions `rfbServe` of `src/cmd/dirgui/main.go` and `src/cmd/dirgui-gif/main.go`,
and of the widgets, the painter `updateUI` and the nested-GUI client of
`src/cmd/dirgui/ui.go`, with the parts of the Go packages `image` and `image/draw` they call.

Conventions of the embedding.

* A byte is a natural number; every read of a byte from a buffer reduces it modulo 256, so
  the decoders are total and produce values of the Go field types.
* Values of the types `uint8`, `uint16`, `uint32` are natural numbers; every Go operation
  that can leave the range is followed by an explicit reduction modulo `2 ^ w`.
* Values of the Go type `int` are integers; every arithmetic operation on them is followed
  by `wrapInt`, the reduction to the 64-bit two's-complement range.
* A Go slice `buf[k:]` handed to a function is passed as the backing list together with the
  offset `k`; an assignment `b[i] = v` is `List.set`.
* A panic is the `Except.error` of a `Panic` value.
-/

set_option autoImplicit false

/-! ## encoding/binary -/

namespace Binary

/-- The two byte orders of `encoding/binary`. -/
inductive ByteOrder where
  | BigEndian
  | LittleEndian
  deriving DecidableEq, Repr

/-- The byte `b[i]` as a `uint8` value (0 beyond the end, where Go would panic). -/
def byteAt (b : List Nat) (i : Nat) : Nat :=
  b.getD i 0 % 256

/-- Method `ByteOrder.Uint16` applied to the slice `b[off:]`. -/
def ByteOrder.Uint16 (bo : ByteOrder) (b : List Nat) (off : Nat) : Nat :=
  match bo with
  | .BigEndian => byteAt b (off + 1) + byteAt b off * 256
  | .LittleEndian => byteAt b off + byteAt b (off + 1) * 256

/-- Method `ByteOrder.Uint32` applied to the slice `b[off:]`. -/
def ByteOrder.Uint32 (bo : ByteOrder) (b : List Nat) (off : Nat) : Nat :=
  match bo with
  | .BigEndian =>
      byteAt b (off + 3) + byteAt b (off + 2) * 256 + byteAt b (off + 1) * 65536
        + byteAt b off * 16777216
  | .LittleEndian =>
      byteAt b off + byteAt b (off + 1) * 256 + byteAt b (off + 2) * 65536
        + byteAt b (off + 3) * 16777216

/-- Method `ByteOrder.PutUint16` applied to the slice `b[off:]` and the `uint16` value `v`. -/
def ByteOrder.PutUint16 (bo : ByteOrder) (b : List Nat) (off : Nat) (v : Nat) : List Nat :=
  match bo with
  | .BigEndian => (b.set off (v / 256 % 256)).set (off + 1) (v % 256)
  | .LittleEndian => (b.set off (v % 256)).set (off + 1) (v / 256 % 256)

/-- Method `ByteOrder.PutUint32` applied to the slice `b[off:]` and the `uint32` value `v`. -/
def ByteOrder.PutUint32 (bo : ByteOrder) (b : List Nat) (off : Nat) (v : Nat) : List Nat :=
  match bo with
  | .BigEndian =>
      (((b.set off (v / 16777216 % 256)).set (off + 1) (v / 65536 % 256)).set (off + 2)
        (v / 256 % 256)).set (off + 3) (v % 256)
  | .LittleEndian =>
      (((b.set off (v % 256)).set (off + 1) (v / 256 % 256)).set (off + 2)
        (v / 65536 % 256)).set (off + 3) (v / 16777216 % 256)

/-- The bytes `binary.Write(w, bo, uint16(v))` appends to the writer. -/
def ByteOrder.bytes16 (bo : ByteOrder) (v : Nat) : List Nat :=
  bo.PutUint16 [0, 0] 0 v

end Binary

/-! ## Go `int` and package `image` -/

/-- Reduction of an integer to the range of the 64-bit Go type `int`. -/
def wrapInt (n : Int) : Int :=
  (n + 9223372036854775808) % 18446744073709551616 - 9223372036854775808

/-- Go `a + b` on `int`. -/
def iadd (a b : Int) : Int := wrapInt (a + b)

/-- Go `a - b` on `int`. -/
def isub (a b : Int) : Int := wrapInt (a - b)

/-- Go `a * b` on `int`. -/
def imul (a b : Int) : Int := wrapInt (a * b)

namespace Image

/-- Type `image.Point`. -/
structure Point where
  X : Int
  Y : Int
  deriving DecidableEq, Repr

/-- Type `image.Rectangle`. -/
structure Rectangle where
  Min : Point
  Max : Point
  deriving DecidableEq, Repr

/-- Function `image.Rect`: the rectangle with the coordinates put in order. -/
def Rect (x0 y0 x1 y1 : Int) : Rectangle :=
  let xa := if x0 > x1 then x1 else x0
  let xb := if x0 > x1 then x0 else x1
  let ya := if y0 > y1 then y1 else y0
  let yb := if y0 > y1 then y0 else y1
  { Min := { X := xa, Y := ya }, Max := { X := xb, Y := yb } }

/-- Method `Rectangle.Dx`. -/
def Rectangle.Dx (r : Rectangle) : Int := isub r.Max.X r.Min.X

/-- Method `Rectangle.Dy`. -/
def Rectangle.Dy (r : Rectangle) : Int := isub r.Max.Y r.Min.Y

/-- Method `Point.In`. -/
def Point.In (p : Point) (r : Rectangle) : Prop :=
  r.Min.X ≤ p.X ∧ p.X < r.Max.X ∧ r.Min.Y ≤ p.Y ∧ p.Y < r.Max.Y

instance (p : Point) (r : Rectangle) : Decidable (p.In r) := by
  unfold Point.In
  exact inferInstance

/-- Type `color.NRGBA`: a non-premultiplied colour with `uint8` channels. -/
structure NRGBA where
  R : Nat
  G : Nat
  B : Nat
  A : Nat
  deriving DecidableEq, Repr

end Image

/-! ## Package rfb: records and wire codecs (`src/rfb/rfb.go`) -/

namespace Rfb

open Binary Image

/-- Type `rfb.PixelFormat`. -/
structure PixelFormat where
  BitsPerPixel : Nat
  BitDepth : Nat
  BigEndian : Bool
  TrueColor : Bool
  RedMax : Nat
  GreenMax : Nat
  BlueMax : Nat
  RedShift : Nat
  GreenShift : Nat
  BlueShift : Nat
  deriving DecidableEq, Repr

/-- The fields of a `PixelFormat` are values of their Go types (`uint8`, `uint16`). -/
def PixelFormat.InRange (pf : PixelFormat) : Prop :=
  pf.BitsPerPixel < 256 ∧ pf.BitDepth < 256 ∧
  pf.RedMax < 65536 ∧ pf.GreenMax < 65536 ∧ pf.BlueMax < 65536 ∧
  pf.RedShift < 256 ∧ pf.GreenShift < 256 ∧ pf.BlueShift < 256

instance (pf : PixelFormat) : Decidable pf.InRange := by
  unfold PixelFormat.InRange
  exact inferInstance

/-- Type `rfb.FramebufferUpdateRequest`. -/
structure FramebufferUpdateRequest where
  Incremental : Bool
  X : Nat
  Y : Nat
  Width : Nat
  Height : Nat
  deriving DecidableEq, Repr

/-- The fields of a `FramebufferUpdateRequest` are `uint16` values. -/
def FramebufferUpdateRequest.InRange (r : FramebufferUpdateRequest) : Prop :=
  r.X < 65536 ∧ r.Y < 65536 ∧ r.Width < 65536 ∧ r.Height < 65536

instance (r : FramebufferUpdateRequest) : Decidable r.InRange := by
  unfold FramebufferUpdateRequest.InRange
  exact inferInstance

/-- Type `rfb.KeyEvent`. -/
structure KeyEvent where
  Pressed : Bool
  KeySym : Nat
  deriving DecidableEq, Repr

/-- Type `rfb.PointerEvent`. -/
structure PointerEvent where
  ButtonMask : Nat
  X : Nat
  Y : Nat
  deriving DecidableEq, Repr

/-- Type `rfb.FramebufferUpdateRect`. -/
structure FramebufferUpdateRect where
  X : Nat
  Y : Nat
  Width : Nat
  Height : Nat
  EncodingType : Nat
  PixelData : List Nat
  deriving DecidableEq, Repr

/-- The numeric fields of a `FramebufferUpdateRect` are values of their Go types. -/
def FramebufferUpdateRect.InRange (r : FramebufferUpdateRect) : Prop :=
  r.X < 65536 ∧ r.Y < 65536 ∧ r.Width < 65536 ∧ r.Height < 65536 ∧
  r.EncodingType < 4294967296

instance (r : FramebufferUpdateRect) : Decidable r.InRange := by
  unfold FramebufferUpdateRect.InRange
  exact inferInstance

/-- Type `rfb.FramebufferUpdate`. -/
structure FramebufferUpdate where
  Rectangles : List FramebufferUpdateRect
  deriving DecidableEq, Repr

/-- Constant `PixelFormatEncodingLength`. -/
def PixelFormatEncodingLength : Nat := 16

/-- Constant `FramebufferUpdateRequestEncodingLength`. -/
def FramebufferUpdateRequestEncodingLength : Nat := 9

/-- Constant `KeyEventEncodingLength`. -/
def KeyEventEncodingLength : Nat := 7

/-- Constant `PointerEventEncodingLength`. -/
def PointerEventEncodingLength : Nat := 5

/-- Method `PixelFormat.Read` on the slice `buf[off:]`; it assigns every field of the
receiver, so the result is the receiver after the call. -/
def PixelFormat.Read (buf : List Nat) (off : Nat) (bo : ByteOrder) : PixelFormat :=
  { BitsPerPixel := byteAt buf off
    BitDepth := byteAt buf (off + 1)
    BigEndian := byteAt buf (off + 2) != 0
    TrueColor := byteAt buf (off + 3) != 0
    RedMax := bo.Uint16 buf (off + 4)
    GreenMax := bo.Uint16 buf (off + 6)
    BlueMax := bo.Uint16 buf (off + 8)
    RedShift := byteAt buf (off + 10)
    GreenShift := byteAt buf (off + 11)
    BlueShift := byteAt buf (off + 12) }

/-- Method `PixelFormat.Write` on the slice `buf[off:]`; the result is the buffer after the
call. -/
def PixelFormat.Write (pf : PixelFormat) (buf : List Nat) (off : Nat) (bo : ByteOrder) :
    List Nat :=
  let buf := buf.set off pf.BitsPerPixel
  let buf := buf.set (off + 1) pf.BitDepth
  let buf := if pf.BigEndian then buf.set (off + 2) 1 else buf.set (off + 2) 0
  let buf := if pf.TrueColor then buf.set (off + 3) 1 else buf.set (off + 3) 0
  let buf := bo.PutUint16 buf (off + 4) pf.RedMax
  let buf := bo.PutUint16 buf (off + 6) pf.GreenMax
  let buf := bo.PutUint16 buf (off + 8) pf.BlueMax
  let buf := buf.set (off + 10) pf.RedShift
  let buf := buf.set (off + 11) pf.GreenShift
  buf.set (off + 12) pf.BlueShift

/-- Method `FramebufferUpdateRequest.Read` on the slice `buf[off:]`. -/
def FramebufferUpdateRequest.Read (buf : List Nat) (off : Nat) (bo : ByteOrder) :
    FramebufferUpdateRequest :=
  { Incremental := byteAt buf off != 0
    X := bo.Uint16 buf (off + 1)
    Y := bo.Uint16 buf (off + 3)
    Width := bo.Uint16 buf (off + 5)
    Height := bo.Uint16 buf (off + 7) }

/-- Method `FramebufferUpdateRequest.Write` on the slice `buf[off:]`. -/
def FramebufferUpdateRequest.Write (r : FramebufferUpdateRequest) (buf : List Nat) (off : Nat)
    (bo : ByteOrder) : List Nat :=
  let buf := if r.Incremental then buf.set off 1 else buf.set off 0
  let buf := bo.PutUint16 buf (off + 1) r.X
  let buf := bo.PutUint16 buf (off + 3) r.Y
  let buf := bo.PutUint16 buf (off + 5) r.Width
  bo.PutUint16 buf (off + 7) r.Height

/-- Method `KeyEvent.Read` on the slice `buf[off:]`. -/
def KeyEvent.Read (buf : List Nat) (off : Nat) (bo : ByteOrder) : KeyEvent :=
  { Pressed := byteAt buf off != 0
    KeySym := bo.Uint32 buf (off + 3) }

/-- Method `PointerEvent.Read` on the slice `buf[off:]`. -/
def PointerEvent.Read (buf : List Nat) (off : Nat) (bo : ByteOrder) : PointerEvent :=
  { ButtonMask := byteAt buf off
    X := bo.Uint16 buf (off + 1)
    Y := bo.Uint16 buf (off + 3) }

/-- Function `io.ReadFull(r, p)` with `len(p) = n` on a reader that holds the bytes `r`:
the bytes read and the bytes left, or nothing when fewer than `n` bytes are left. -/
def readFull (r : List Nat) (n : Nat) : Option (List Nat × List Nat) :=
  if n ≤ r.length then some (r.take n, r.drop n) else none

/-- The errors `FramebufferUpdateRect.Read` returns. -/
inductive RectError where
  | readHeader
  | notRaw (encodingType : Nat)
  | readPixelData
  deriving DecidableEq, Repr

/-- Method `FramebufferUpdateRect.Read` on a reader holding the bytes `r`: the rectangle read
and the bytes left on the reader, or the error returned. -/
def FramebufferUpdateRect.Read (r : List Nat) (bo : ByteOrder) (pixelFormat : PixelFormat) :
    Except RectError (FramebufferUpdateRect × List Nat) :=
  match readFull r 12 with
  | none => .error .readHeader
  | some (buf, r) =>
    let x := bo.Uint16 buf 0
    let y := bo.Uint16 buf 2
    let width := bo.Uint16 buf 4
    let height := bo.Uint16 buf 6
    let encodingType := bo.Uint32 buf 8
    if encodingType ≠ 0 then .error (.notRaw encodingType)
    else
      match readFull r (pixelFormat.BitsPerPixel / 8 * width * height) with
      | none => .error .readPixelData
      | some (pixelData, r) =>
        .ok ({ X := x, Y := y, Width := width, Height := height,
               EncodingType := encodingType, PixelData := pixelData }, r)

/-- The bytes the loop body of `FramebufferUpdate.Write` writes for one rectangle. -/
def FramebufferUpdateRect.wireBytes (rect : FramebufferUpdateRect) (bo : ByteOrder) :
    List Nat :=
  let buf := List.replicate 12 0
  let buf := bo.PutUint16 buf 0 rect.X
  let buf := bo.PutUint16 buf 2 rect.Y
  let buf := bo.PutUint16 buf 4 rect.Width
  let buf := bo.PutUint16 buf 6 rect.Height
  let buf := bo.PutUint32 buf 8 (rect.EncodingType % 4294967296)
  buf ++ rect.PixelData

/-- Method `FramebufferUpdate.Write` on a writer that has received the bytes `w` and never
fails: the bytes the writer has received after the call. -/
def FramebufferUpdate.Write (u : FramebufferUpdate) (w : List Nat) (bo : ByteOrder) :
    List Nat :=
  let w := w ++ bo.bytes16 (u.Rectangles.length % 65536)
  u.Rectangles.foldl (fun w rect => w ++ rect.wireBytes bo) w

end Rfb

/-! ## Package rfb: pixel-format images (`src/rfb/image.go`) -/

namespace Rfb

open Binary Image

/-- The panics of `PixelFormatImage.At` and `PixelFormatImage.Set`. -/
inductive Panic where
  | badBitsPerPixel (bitsPerPixel : Nat)
  | badMax (redMax greenMax blueMax : Nat)
  | indexOutOfRange
  deriving DecidableEq, Repr

instance instDecidableEqExcept {ε α : Type} [DecidableEq ε] [DecidableEq α] :
    DecidableEq (Except ε α) := fun a b =>
  match a, b with
  | .ok x, .ok y => if h : x = y then isTrue (by rw [h]) else isFalse (by simpa using h)
  | .error x, .error y => if h : x = y then isTrue (by rw [h]) else isFalse (by simpa using h)
  | .ok _, .error _ => isFalse (by simp)
  | .error _, .ok _ => isFalse (by simp)

/-- Type `rfb.PixelFormatImage`. -/
structure PixelFormatImage where
  Pix : List Nat
  Rect : Rectangle
  PixelFormat : PixelFormat
  deriving DecidableEq, Repr

/-- Function `NewPixelFormatImage`; `make` is given the length as a Go `int` and gives a
buffer of zero bytes. (For a negative length `make` panics; here the buffer is then empty. The
servers call it with rectangles of `uint16` sizes, for which the length is not negative.) -/
def NewPixelFormatImage (pixelFormat : PixelFormat) (bounds : Rectangle) : PixelFormatImage :=
  let bytesPerPixel : Int := (pixelFormat.BitsPerPixel / 8 : Nat)
  { Pix := List.replicate (imul (imul bytesPerPixel bounds.Dx) bounds.Dy).toNat 0
    Rect := bounds
    PixelFormat := pixelFormat }

/-- Method `PixelFormatImage.Bounds`. -/
def PixelFormatImage.Bounds (img : PixelFormatImage) : Rectangle :=
  img.Rect

/-- Method `PixelFormatImage.bo`. -/
def PixelFormatImage.bo (img : PixelFormatImage) : ByteOrder :=
  if img.PixelFormat.BigEndian then .BigEndian else .LittleEndian

/-- Method `PixelFormatImage.idx`. -/
def PixelFormatImage.idx (img : PixelFormatImage) (x y : Int) : Int :=
  let bytesPerPixel : Int := (img.PixelFormat.BitsPerPixel / 8 : Nat)
  iadd (imul (imul bytesPerPixel img.Rect.Dx) (isub y img.Rect.Min.Y))
    (imul bytesPerPixel (isub x img.Rect.Min.X))

/-- The slice expression `img.Pix[idx:]` followed by an access to its first `n` bytes
succeeds: otherwise Go panics with an index or slice bounds error. -/
def PixelFormatImage.inPix (img : PixelFormatImage) (idx : Int) (n : Nat) : Prop :=
  0 ≤ idx ∧ idx + n ≤ img.Pix.length

instance (img : PixelFormatImage) (idx : Int) (n : Nat) : Decidable (img.inPix idx n) := by
  unfold PixelFormatImage.inPix
  exact inferInstance

/-- Method `PixelFormatImage.At`; the colour returned is a `color.NRGBA`. -/
def PixelFormatImage.At (img : PixelFormatImage) (x y : Int) : Except Panic NRGBA :=
  let idx := img.idx x y
  let bo := img.bo
  let pixel : Except Panic Nat :=
    if img.PixelFormat.BitsPerPixel = 8 then
      if img.inPix idx 1 then .ok (byteAt img.Pix idx.toNat) else .error .indexOutOfRange
    else if img.PixelFormat.BitsPerPixel = 16 then
      if img.inPix idx 2 then .ok (bo.Uint16 img.Pix idx.toNat) else .error .indexOutOfRange
    else if img.PixelFormat.BitsPerPixel = 32 then
      if img.inPix idx 4 then .ok (bo.Uint32 img.Pix idx.toNat) else .error .indexOutOfRange
    else .error (.badBitsPerPixel img.PixelFormat.BitsPerPixel)
  match pixel with
  | .error p => .error p
  | .ok pixel =>
    let r := (pixel >>> img.PixelFormat.RedShift) &&& img.PixelFormat.RedMax
    let g := (pixel >>> img.PixelFormat.GreenShift) &&& img.PixelFormat.GreenMax
    let b := (pixel >>> img.PixelFormat.BlueShift) &&& img.PixelFormat.BlueMax
    if img.PixelFormat.RedMax ≠ 255 ∨ img.PixelFormat.GreenMax ≠ 255
        ∨ img.PixelFormat.BlueMax ≠ 255 then
      .error (.badMax img.PixelFormat.RedMax img.PixelFormat.GreenMax img.PixelFormat.BlueMax)
    else .ok { R := r % 256, G := g % 256, B := b % 256, A := 255 }

/-- The `uint32` value `Set` packs from a colour: each channel masked by its maximum and
shifted left by its shift, the shifts being those of Go on `uint32`. -/
def PixelFormat.pack (pf : PixelFormat) (nrgba : NRGBA) : Nat :=
  let pixel := 0
  let pixel := pixel ||| ((nrgba.R &&& pf.RedMax) <<< pf.RedShift) % 4294967296
  let pixel := pixel ||| ((nrgba.G &&& pf.GreenMax) <<< pf.GreenShift) % 4294967296
  let pixel := pixel ||| ((nrgba.B &&& pf.BlueMax) <<< pf.BlueShift) % 4294967296
  pixel

/-- Method `PixelFormatImage.Set`; `nrgba` is the colour after
`color.NRGBAModel.Convert`. The result is the image after the call. -/
def PixelFormatImage.Set (img : PixelFormatImage) (x y : Int) (nrgba : NRGBA) :
    Except Panic PixelFormatImage :=
  if img.PixelFormat.RedMax ≠ 255 ∨ img.PixelFormat.GreenMax ≠ 255
      ∨ img.PixelFormat.BlueMax ≠ 255 then
    .error (.badMax img.PixelFormat.RedMax img.PixelFormat.GreenMax img.PixelFormat.BlueMax)
  else
    let pixel := img.PixelFormat.pack nrgba
    let idx := img.idx x y
    let bo := img.bo
    if img.PixelFormat.BitsPerPixel = 8 then
      if img.inPix idx 1 then .ok { img with Pix := img.Pix.set idx.toNat (pixel % 256) }
      else .error .indexOutOfRange
    else if img.PixelFormat.BitsPerPixel = 16 then
      if img.inPix idx 2 then
        .ok { img with Pix := bo.PutUint16 img.Pix idx.toNat (pixel % 65536) }
      else .error .indexOutOfRange
    else if img.PixelFormat.BitsPerPixel = 32 then
      if img.inPix idx 4 then .ok { img with Pix := bo.PutUint32 img.Pix idx.toNat pixel }
      else .error .indexOutOfRange
    else .error (.badBitsPerPixel img.PixelFormat.BitsPerPixel)

/-- The bytes of the buffer that hold the pixel (x, y): the `BitsPerPixel / 8` bytes from
`idx(x, y)` on. -/
def PixelFormatImage.pixelBytes (img : PixelFormatImage) (x y : Int) : List Nat :=
  (img.Pix.drop (img.idx x y).toNat).take (img.PixelFormat.BitsPerPixel / 8)

/-- The bytes `Set` writes for the packed value `pixel`: the value truncated to
`BitsPerPixel` bits, in the byte order of the format. -/
def PixelFormat.encode (pf : PixelFormat) (pixel : Nat) : List Nat :=
  let bo : ByteOrder := if pf.BigEndian then .BigEndian else .LittleEndian
  if pf.BitsPerPixel = 8 then [pixel % 256]
  else if pf.BitsPerPixel = 16 then bo.PutUint16 [0, 0] 0 (pixel % 65536)
  else if pf.BitsPerPixel = 32 then bo.PutUint32 [0, 0, 0, 0] 0 pixel
  else []

/-- The colour `img.At(x, y)` returns after `img.Set(x, y, nrgba)`, or the first panic. -/
def PixelFormatImage.setThenAt (img : PixelFormatImage) (x y : Int) (nrgba : NRGBA) :
    Except Panic NRGBA :=
  match img.Set x y nrgba with
  | .error p => .error p
  | .ok img => img.At x y

/-- The buffer of an image has the length `NewPixelFormatImage` gives it, which is a length
a Go slice can have. -/
def PixelFormatImage.WellFormed (img : PixelFormatImage) : Prop :=
  (img.Pix.length : Int) = ((img.PixelFormat.BitsPerPixel / 8 : Nat) : Int)
      * (img.Rect.Max.X - img.Rect.Min.X) * (img.Rect.Max.Y - img.Rect.Min.Y) ∧
  (img.Pix.length : Int) < 9223372036854775808

instance (img : PixelFormatImage) : Decidable img.WellFormed := by
  unfold PixelFormatImage.WellFormed
  exact inferInstance

end Rfb

/-! ## The server sessions (`src/cmd/dirgui/main.go`, `src/cmd/dirgui-gif/main.go`)

The connection is a reader that holds the bytes the client sends, in order, and a writer that
never fails; a read of more bytes than are left fails, as `io.ReadFull` does at the end of the
stream. Each part of `rfbServe` is a function of the bytes not yet read and returns the bytes
left together with the bytes it has written to the connection, in order.
-/

namespace Serve

open Binary Image Rfb

/-- The places where `rfbServe` returns an error. -/
inductive ServeError where
  | readProtocolVersion
  | parseProtocolVersion
  | readChallengeResponse
  | readSecurityType
  | badSecurityType (got : Nat)
  | unsupportedVersion (major minor : Int)
  | readClientInit
  | readMessageType
  | readSetPixelFormat
  | readSetEncodingsCount
  | tooManyEncodings (encodingCount : Nat)
  | readSetEncodingsList
  | readFramebufferUpdateRequest
  | readKeyEvent
  | readPointerEvent
  | readClientCutTextLength
  | clientCutTextTooLong (length : Nat)
  | readClientCutText
  | unrecognizedMessage (messageType : Nat)
  deriving DecidableEq, Repr

/-- The panics that can end `rfbServe`. -/
inductive Abort where
  | updateUI
  | windowOrigin (min : Point)
  | image (p : Panic)
  deriving DecidableEq, Repr

/-- How a session ends. -/
inductive Exit where
  | error (e : ServeError)
  | panic (p : Abort)
  deriving DecidableEq, Repr

/-- How a part of `rfbServe` ends: it goes on with a value and the bytes left to read, it
returns an error, or it panics; in each case with the bytes it wrote to the connection. -/
inductive Outcome (α : Type) where
  | ok (a : α) (rest : List Nat) (written : List Nat)
  | fail (e : ServeError) (written : List Nat)
  | abort (p : Abort) (written : List Nat)
  deriving DecidableEq, Repr

/-- The bytes a part of `rfbServe` wrote to the connection. -/
def Outcome.written {α : Type} : Outcome α → List Nat
  | .ok _ _ w => w
  | .fail _ w => w
  | .abort _ w => w

/-- One call `img.Set(x, y, c)` made while painting. -/
structure SetCall where
  x : Int
  y : Int
  c : NRGBA
  deriving DecidableEq, Repr

/-- The image after the calls of `Set` in order, or the first panic. -/
def paint (img : PixelFormatImage) : List SetCall → Except Panic PixelFormatImage
  | [] => .ok img
  | s :: rest =>
    match img.Set s.x s.y s.c with
    | .error p => .error p
    | .ok img => paint img rest

/-- The colour of the last call of `Set` on the pixel (x, y) among the calls, if there is
one. -/
def lastSet : List SetCall → Int → Int → Option NRGBA
  | [], _, _ => none
  | s :: rest, x, y =>
    match lastSet rest x y with
    | some c => some c
    | none => if s.x = x ∧ s.y = y then some s.c else none

/-- Every call of `Set` is on a point of the bounds of the image, as the clipping of
`draw.Draw` and `draw.DrawMask` makes sure. -/
def InBounds (img : PixelFormatImage) (sets : List SetCall) : Prop :=
  ∀ s ∈ sets, (Point.mk s.x s.y).In img.Rect

instance (img : PixelFormatImage) (sets : List SetCall) : Decidable (InBounds img sets) := by
  unfold InBounds
  exact inferInstance

/-- What one call of `updateUI` does: the new widget state, the rectangle returned and the
calls of `Set` it makes on its target image. -/
structure Painted (σ : Type) where
  state : σ
  windowRect : Rectangle
  sets : List SetCall

/-- The painter `updateUI` as the session sees it: a function of the widget state, the target
image (`none` for the throwaway `image.NewNRGBA(image.ZR)`), the last key event and the last
pointer event. The result is `none` when `updateUI` does not return: it panics outside `Set`
(as `edit` does on a backspace in an empty text) or ends the process (`log.Fatalf`). -/
abbrev UpdateUI (σ : Type) : Type :=
  σ → Option PixelFormatImage → KeyEvent → PointerEvent → Option (Painted σ)

/-- The result of `fmt.Sscanf(s, "RFB %03d.%03d\n", &major, &minor)` as the session sees it:
the two numbers, or nothing when Sscanf returns an error. -/
abbrev Sscanf : Type := List Nat → Option (Int × Int)

/-- The string "RFB 003.008\n". -/
def versionString : List Nat := [82, 70, 66, 32, 48, 48, 51, 46, 48, 48, 56, 10]

/-- The string "RFB 003.003\n". -/
def versionString33 : List Nat := [82, 70, 66, 32, 48, 48, 51, 46, 48, 48, 51, 10]

/-- The string "dirgui". -/
def nameDirgui : List Nat := [100, 105, 114, 103, 117, 105]

/-- The string "YO!". -/
def nameYo : List Nat := [89, 79, 33]

/-- The byte order `bo` of both servers. -/
def bo : ByteOrder := .BigEndian

/-- The initial value of `pixelFormat` in both servers. -/
def canonicalPixelFormat : PixelFormat :=
  { BitsPerPixel := 32
    BitDepth := 24
    BigEndian := true
    TrueColor := true
    RedMax := 255
    GreenMax := 255
    BlueMax := 255
    RedShift := 24
    GreenShift := 16
    BlueShift := 8 }

/-- The buffer after `copy(buf[off:], src)`, and after a successful
`io.ReadFull(conn, buf[off:off+len(src)])` that read `src`. -/
def copyAt (buf : List Nat) (off : Nat) (src : List Nat) : List Nat :=
  buf.take off ++ src.take (buf.length - off) ++ buf.drop (off + src.length)

/-- Conversion `uint16(n)` of a Go `int`. -/
def toUint16 (n : Int) : Nat := (n % 65536).toNat

/-- An example of a `Sscanf` for the examples: it reads a canonical ProtocolVersion string
"RFB ddd.ddd\n" of three-digit numbers as `fmt.Sscanf` does, and reports an error on every
other string. It is narrower than `fmt.Sscanf`, which also reads strings such as
"RFB   3.008\n"; the theorems on the handshake hold for every `Sscanf`. -/
def scanVersion : Sscanf := fun s =>
  match s with
  | [82, 70, 66, 32, a, b, c, 46, d, e, f, 10] =>
    if 48 ≤ a ∧ a ≤ 57 ∧ 48 ≤ b ∧ b ≤ 57 ∧ 48 ≤ c ∧ c ≤ 57 ∧
        48 ≤ d ∧ d ≤ 57 ∧ 48 ≤ e ∧ e ≤ 57 ∧ 48 ≤ f ∧ f ≤ 57 then
      some ((((a - 48) * 100 + (b - 48) * 10 + (c - 48) : Nat) : Int),
            (((d - 48) * 100 + (e - 48) * 10 + (f - 48) : Nat) : Int))
    else none
  | _ => none

/-- A painter for the examples: it reports the 320×8 window of an empty directory and makes
one call of `Set`, of the colour (1, 2, 3), on the top-left pixel of a target image that is
not empty. -/
def examplePainter : UpdateUI Unit := fun _ img _ _ =>
  some
  { state := ()
    windowRect := Rect 0 0 320 8
    sets :=
      match img with
      | none => []
      | some img =>
        if img.Rect.Min.X < img.Rect.Max.X ∧ img.Rect.Min.Y < img.Rect.Max.Y then
          [{ x := img.Rect.Min.X, y := img.Rect.Min.Y,
             c := { R := 1, G := 2, B := 3, A := 255 } }]
        else [] }

end Serve

namespace Dirgui

open Binary Image Rfb Serve

/-- The local variables of `rfbServe` that live across the message loop, with the widget
state `ui` that `updateUI` keeps in package variables. -/
structure Session (σ : Type) where
  buf : List Nat
  w : List Nat
  pixelFormat : PixelFormat
  updateRequest : FramebufferUpdateRequest
  update : FramebufferUpdate
  keyEvent : KeyEvent
  pointerEvent : PointerEvent
  ui : σ

/-- What holds of the session variables at the start of every turn of the message loop: `buf`
is the 256-byte slice made at the start, the buffered writer `w` has been flushed, and the
fields of `pixelFormat` are values of their Go types. -/
def Session.Valid {σ : Type} (s : Session σ) : Prop :=
  s.buf.length = 256 ∧ s.w = [] ∧ s.pixelFormat.InRange

/-- The session variables as `rfbServe` has them when it enters the message loop after a
handshake that left `buf` and the widget state `ui`: the other variables have the values of
their declarations at the start of `rfbServe`. -/
def Session.initial {σ : Type} (buf : List Nat) (ui : σ) : Session σ :=
  { buf := buf
    w := []
    pixelFormat := canonicalPixelFormat
    updateRequest := { Incremental := false, X := 0, Y := 0, Width := 0, Height := 0 }
    update := { Rectangles := [] }
    keyEvent := { Pressed := false, KeySym := 0 }
    pointerEvent := { ButtonMask := 0, X := 0, Y := 0 }
    ui := ui }

/-- Lines 64 to 109 of `rfbServe`: the ProtocolVersion exchange and the security handshake.
The value is the buffer `buf` after it. -/
def negotiate (sscanf : Sscanf) (buf : List Nat) (conn : List Nat) : Outcome (List Nat) :=
  let out := versionString
  match readFull conn 12 with
  | none => .fail .readProtocolVersion out
  | some (bytes, conn) =>
    let buf := copyAt buf 0 bytes
    match sscanf (buf.take 12) with
    | none => .fail .parseProtocolVersion out
    | some (major, minor) =>
      if major = 3 ∧ minor = 3 then
        let buf := bo.PutUint32 buf 0 2
        let out := out ++ buf.take 20
        match readFull conn 16 with
        | none => .fail .readChallengeResponse out
        | some (bytes, conn) =>
          let buf := copyAt buf 0 bytes
          let buf := bo.PutUint32 buf 0 0
          let out := out ++ buf.take 4
          .ok buf conn out
      else if major = 3 ∧ minor = 8 then
        let out := out ++ [1, 1]
        match readFull conn 1 with
        | none => .fail .readSecurityType out
        | some (bytes, conn) =>
          let buf := copyAt buf 0 bytes
          if byteAt buf 0 ≠ 1 then .fail (.badSecurityType (byteAt buf 0)) out
          else
            let out := out ++ [0]
            .ok buf conn out
      else .fail (.unsupportedVersion major minor) out

/-- Lines 111 to 127 of `rfbServe`: ClientInit and ServerInit. The value is the buffer and the
widget state after it. -/
def serverInit {σ : Type} (updateUI : UpdateUI σ) (buf : List Nat) (pixelFormat : PixelFormat)
    (keyEvent : KeyEvent) (pointerEvent : PointerEvent) (ui : σ) (conn : List Nat) :
    Outcome (List Nat × σ) :=
  match readFull conn 1 with
  | none => .fail .readClientInit []
  | some (bytes, conn) =>
    let buf := copyAt buf 0 bytes
    match updateUI ui none keyEvent pointerEvent with
    | none => .abort .updateUI []
    | some painted =>
      let windowRect := painted.windowRect
      if windowRect.Min ≠ { X := 0, Y := 0 } then .abort (.windowOrigin windowRect.Min) []
      else
        let buf := bo.PutUint16 buf 0 (toUint16 windowRect.Dx)
        let buf := bo.PutUint16 buf 2 (toUint16 windowRect.Dy)
        let buf := pixelFormat.Write buf 4 bo
        let buf := bo.PutUint32 buf 20 6
        let buf := copyAt buf 24 nameDirgui
        .ok (buf, painted.state) conn (buf.take 30)

/-- One turn of the message loop of `rfbServe` (lines 130 to 216). -/
def step {σ : Type} (updateUI : UpdateUI σ) (s : Session σ) (conn : List Nat) :
    Outcome (Session σ) :=
  match readFull conn 1 with
  | none => .fail .readMessageType []
  | some (bytes, conn) =>
    let buf := copyAt s.buf 0 bytes
    let messageType := byteAt buf 0
    if messageType = 0 then
      match readFull conn (3 + PixelFormatEncodingLength) with
      | none => .fail .readSetPixelFormat []
      | some (bytes, conn) =>
        let buf := copyAt buf 0 bytes
        .ok { s with buf := buf, pixelFormat := PixelFormat.Read buf 3 bo } conn []
    else if messageType = 2 then
      match readFull conn 3 with
      | none => .fail .readSetEncodingsCount []
      | some (bytes, conn) =>
        let buf := copyAt buf 0 bytes
        let encodingCount := bo.Uint16 buf 1
        if encodingCount * 4 > buf.length then .fail (.tooManyEncodings encodingCount) []
        else
          match readFull conn (4 * encodingCount % 65536) with
          | none => .fail .readSetEncodingsList []
          | some (bytes, conn) =>
            let buf := copyAt buf 0 bytes
            .ok { s with buf := buf } conn []
    else if messageType = 3 then
      match readFull conn FramebufferUpdateRequestEncodingLength with
      | none => .fail .readFramebufferUpdateRequest []
      | some (bytes, conn) =>
        let buf := copyAt buf 0 bytes
        let updateRequest := FramebufferUpdateRequest.Read buf 0 bo
        let img := NewPixelFormatImage s.pixelFormat
          (Rect updateRequest.X updateRequest.Y (iadd updateRequest.X updateRequest.Width)
            (iadd updateRequest.Y updateRequest.Height))
        match updateUI s.ui (some img) s.keyEvent s.pointerEvent with
        | none => .abort .updateUI []
        | some painted =>
          match paint img painted.sets with
          | .error p => .abort (.image p) []
          | .ok img =>
            let update : FramebufferUpdate :=
              { Rectangles :=
                  [{ X := updateRequest.X, Y := updateRequest.Y, Width := updateRequest.Width,
                     Height := updateRequest.Height, EncodingType := 0,
                     PixelData := img.Pix }] }
            let w := s.w ++ [0, 0]
            let w := update.Write w bo
            .ok { s with buf := buf, updateRequest := updateRequest, update := update, w := [],
                         ui := painted.state } conn w
    else if messageType = 4 then
      match readFull conn KeyEventEncodingLength with
      | none => .fail .readKeyEvent []
      | some (bytes, conn) =>
        let buf := copyAt buf 0 bytes
        let keyEvent := KeyEvent.Read buf 0 bo
        match updateUI s.ui none keyEvent s.pointerEvent with
        | none => .abort .updateUI []
        | some painted =>
          .ok { s with buf := buf, keyEvent := keyEvent, ui := painted.state } conn []
    else if messageType = 5 then
      match readFull conn PointerEventEncodingLength with
      | none => .fail .readPointerEvent []
      | some (bytes, conn) =>
        let buf := copyAt buf 0 bytes
        let pointerEvent := PointerEvent.Read buf 0 bo
        match updateUI s.ui none s.keyEvent pointerEvent with
        | none => .abort .updateUI []
        | some painted =>
          .ok { s with buf := buf, pointerEvent := pointerEvent, ui := painted.state } conn []
    else if messageType = 6 then
      match readFull conn 7 with
      | none => .fail .readClientCutTextLength []
      | some (bytes, conn) =>
        let buf := copyAt buf 0 bytes
        let length := bo.Uint32 buf 3
        if length > buf.length then .fail (.clientCutTextTooLong length) []
        else
          match readFull conn length with
          | none => .fail .readClientCutText []
          | some (bytes, conn) =>
            let buf := copyAt buf 0 bytes
            .ok { s with buf := buf } conn []
    else .fail (.unrecognizedMessage messageType) []

/-- The session and the bytes left after `n` turns of the message loop that all go on and
none of which reads a SetPixelFormat message (type 0), with the bytes written by them;
`none` when a turn ends the session or reads message type 0. -/
def turnsKeepingFormat {σ : Type} (updateUI : UpdateUI σ) : Nat → Session σ → List Nat →
    Option (Session σ × List Nat × List Nat)
  | 0, s, conn => some (s, conn, [])
  | n + 1, s, conn =>
    if byteAt conn 0 = 0 then none
    else
      match step updateUI s conn with
      | .ok s conn w =>
        match turnsKeepingFormat updateUI n s conn with
        | some (s, conn, w2) => some (s, conn, w ++ w2)
        | none => none
      | _ => none

/-- The message loop of `rfbServe`: `fuel` bounds the number of turns; a turn reads at least
one byte, so more turns than bytes left are never needed. The result is the way the session
ends and the bytes written by the loop; `none` when the fuel runs out. -/
def loop {σ : Type} (updateUI : UpdateUI σ) : Nat → Session σ → List Nat →
    Option (Exit × List Nat)
  | 0, _, _ => none
  | fuel + 1, s, conn =>
    match step updateUI s conn with
    | .fail e w => some (.error e, w)
    | .abort p w => some (.panic p, w)
    | .ok s conn w =>
      match loop updateUI fuel s conn with
      | none => none
      | some (exit, w2) => some (exit, w ++ w2)

/-- Function `rfbServe` of `src/cmd/dirgui/main.go` on a connection whose reader holds the
bytes `conn`: the way the session ends and all bytes written to the connection. -/
def rfbServe {σ : Type} (sscanf : Sscanf) (updateUI : UpdateUI σ) (ui : σ) (conn : List Nat) :
    Option (Exit × List Nat) :=
  let buf := List.replicate 256 0
  let pixelFormat := canonicalPixelFormat
  let keyEvent : KeyEvent := { Pressed := false, KeySym := 0 }
  let pointerEvent : PointerEvent := { ButtonMask := 0, X := 0, Y := 0 }
  match negotiate sscanf buf conn with
  | .fail e out => some (.error e, out)
  | .abort p out => some (.panic p, out)
  | .ok buf conn out =>
    match serverInit updateUI buf pixelFormat keyEvent pointerEvent ui conn with
    | .fail e out2 => some (.error e, out ++ out2)
    | .abort p out2 => some (.panic p, out ++ out2)
    | .ok (buf, ui) conn out2 =>
      match loop updateUI (conn.length + 1) (Session.initial buf ui) conn with
      | none => none
      | some (exit, out3) => some (exit, out ++ out2 ++ out3)

end Dirgui

namespace DirguiGif

open Binary Image Rfb Serve

/-- The frame source of the GIF viewer as the session sees it: `draw.Draw(img, img.Bounds(),
<-imgs, image.ZP, draw.Src)` as a function of the state of the frame channel and the target
image, giving the new state of the channel and the calls of `Set` on the target. -/
abbrev DrawFrame (σ : Type) : Type :=
  σ → PixelFormatImage → σ × List SetCall

/-- A frame source for the examples: every frame sets the top-left pixel of a target image
that is not empty to the colour (1, 2, 3). -/
def exampleFrame : DrawFrame Unit := fun _ img =>
  ((), if img.Rect.Min.X < img.Rect.Max.X ∧ img.Rect.Min.Y < img.Rect.Max.Y then
      [{ x := img.Rect.Min.X, y := img.Rect.Min.Y, c := { R := 1, G := 2, B := 3, A := 255 } }]
    else [])

/-- The local variables of `rfbServe` that live across the message loop, with the state
`frames` of the channel `imgs`. -/
structure Session (σ : Type) where
  buf : List Nat
  w : List Nat
  pixelFormat : PixelFormat
  updateRequest : FramebufferUpdateRequest
  update : FramebufferUpdate
  frames : σ

/-- What holds of the session variables at the start of every turn of the message loop: `buf`
is the 256-byte slice made at the start, the buffered writer `w` has been flushed, and the
fields of `pixelFormat` are values of their Go types. -/
def Session.Valid {σ : Type} (s : Session σ) : Prop :=
  s.buf.length = 256 ∧ s.w = [] ∧ s.pixelFormat.InRange

/-- The session variables as `rfbServe` has them when it enters the message loop after a
handshake that left `buf`: the other variables have the values of their declarations at the
start of `rfbServe`. -/
def Session.initial {σ : Type} (buf : List Nat) (frames : σ) : Session σ :=
  { buf := buf
    w := []
    pixelFormat := canonicalPixelFormat
    updateRequest := { Incremental := false, X := 0, Y := 0, Width := 0, Height := 0 }
    update := { Rectangles := [] }
    frames := frames }

/-- Lines 126 to 162 of `rfbServe`: the ProtocolVersion exchange and the security handshake.
The value is the buffer `buf` after it. -/
def negotiate (sscanf : Sscanf) (buf : List Nat) (conn : List Nat) : Outcome (List Nat) :=
  let out := versionString
  match readFull conn 12 with
  | none => .fail .readProtocolVersion out
  | some (bytes, conn) =>
    let buf := copyAt buf 0 bytes
    match sscanf (buf.take 12) with
    | none => .fail .parseProtocolVersion out
    | some (major, minor) =>
      if major = 3 ∧ minor = 3 then
        let buf := bo.PutUint32 buf 0 1
        let out := out ++ buf.take 4
        .ok buf conn out
      else if major = 3 ∧ minor = 8 then
        let out := out ++ [1, 1]
        match readFull conn 1 with
        | none => .fail .readSecurityType out
        | some (bytes, conn) =>
          let buf := copyAt buf 0 bytes
          if byteAt buf 0 ≠ 1 then .fail (.badSecurityType (byteAt buf 0)) out
          else
            let out := out ++ [0]
            .ok buf conn out
      else .fail (.unsupportedVersion major minor) out

/-- Lines 164 to 180 of `rfbServe`: ClientInit and ServerInit. The value is the buffer after
it. -/
def serverInit (rect : Rectangle) (buf : List Nat) (pixelFormat : PixelFormat)
    (conn : List Nat) : Outcome (List Nat) :=
  match readFull conn 1 with
  | none => .fail .readClientInit []
  | some (bytes, conn) =>
    let buf := copyAt buf 0 bytes
    let buf := bo.PutUint16 buf 0 (toUint16 rect.Max.X)
    let buf := bo.PutUint16 buf 2 (toUint16 rect.Max.Y)
    let buf := pixelFormat.Write buf 4 bo
    let buf := bo.PutUint32 buf 20 3
    let buf := copyAt buf 24 nameYo
    .ok buf conn (buf.take 27)

/-- One turn of the message loop of `rfbServe` (lines 183 to 248). A read through
`io.Copy(ioutil.Discard, &io.LimitedReader{...})` drops the bytes and does not fail at the end
of the stream. -/
def step {σ : Type} (drawFrame : DrawFrame σ) (s : Session σ) (conn : List Nat) :
    Outcome (Session σ) :=
  match readFull conn 1 with
  | none => .fail .readMessageType []
  | some (bytes, conn) =>
    let buf := copyAt s.buf 0 bytes
    let messageType := byteAt buf 0
    if messageType = 0 then
      match readFull conn (3 + PixelFormatEncodingLength) with
      | none => .fail .readSetPixelFormat []
      | some (bytes, conn) =>
        let buf := copyAt buf 0 bytes
        .ok { s with buf := buf, pixelFormat := PixelFormat.Read buf 3 bo } conn []
    else if messageType = 2 then
      match readFull conn 3 with
      | none => .fail .readSetEncodingsCount []
      | some (bytes, conn) =>
        let buf := copyAt buf 0 bytes
        let encodingCount := bo.Uint16 buf 1
        .ok { s with buf := buf } (conn.drop (4 * encodingCount)) []
    else if messageType = 3 then
      match readFull conn FramebufferUpdateRequestEncodingLength with
      | none => .fail .readFramebufferUpdateRequest []
      | some (bytes, conn) =>
        let buf := copyAt buf 0 bytes
        let updateRequest := FramebufferUpdateRequest.Read buf 0 bo
        let img := NewPixelFormatImage s.pixelFormat
          (Rect updateRequest.X updateRequest.Y (iadd updateRequest.X updateRequest.Width)
            (iadd updateRequest.Y updateRequest.Height))
        let drawn := drawFrame s.frames img
        match paint img drawn.2 with
        | .error p => .abort (.image p) []
        | .ok img =>
          let update : FramebufferUpdate :=
            { Rectangles :=
                [{ X := updateRequest.X, Y := updateRequest.Y, Width := updateRequest.Width,
                   Height := updateRequest.Height, EncodingType := 0, PixelData := img.Pix }] }
          let w := s.w ++ [0, 0]
          let w := update.Write w bo
          .ok { s with buf := buf, updateRequest := updateRequest, update := update, w := [],
                       frames := drawn.1 } conn w
    else if messageType = 4 then
      .ok { s with buf := buf } (conn.drop KeyEventEncodingLength) []
    else if messageType = 5 then
      .ok { s with buf := buf } (conn.drop PointerEventEncodingLength) []
    else if messageType = 6 then
      match readFull conn 7 with
      | none => .fail .readClientCutTextLength []
      | some (bytes, conn) =>
        let buf := copyAt buf 0 bytes
        let length := bo.Uint32 buf 3
        .ok { s with buf := buf } (conn.drop length) []
    else .fail (.unrecognizedMessage messageType) []

/-- The message loop of `rfbServe`: `fuel` bounds the number of turns; a turn reads at least
one byte, so more turns than bytes left are never needed. The result is the way the session
ends and the bytes written by the loop; `none` when the fuel runs out. -/
def loop {σ : Type} (drawFrame : DrawFrame σ) : Nat → Session σ → List Nat →
    Option (Exit × List Nat)
  | 0, _, _ => none
  | fuel + 1, s, conn =>
    match step drawFrame s conn with
    | .fail e w => some (.error e, w)
    | .abort p w => some (.panic p, w)
    | .ok s conn w =>
      match loop drawFrame fuel s conn with
      | none => none
      | some (exit, w2) => some (exit, w ++ w2)

/-- Function `rfbServe` of `src/cmd/dirgui-gif/main.go` on a connection whose reader holds the
bytes `conn`: the way the session ends and all bytes written to the connection. -/
def rfbServe {σ : Type} (sscanf : Sscanf) (drawFrame : DrawFrame σ) (rect : Rectangle)
    (frames : σ) (conn : List Nat) : Option (Exit × List Nat) :=
  let buf := List.replicate 256 0
  let pixelFormat := canonicalPixelFormat
  match negotiate sscanf buf conn with
  | .fail e out => some (.error e, out)
  | .abort p out => some (.panic p, out)
  | .ok buf conn out =>
    match serverInit rect buf pixelFormat conn with
    | .fail e out2 => some (.error e, out ++ out2)
    | .abort p out2 => some (.panic p, out ++ out2)
    | .ok buf conn out2 =>
      match loop drawFrame (conn.length + 1) (Session.initial buf frames) conn with
      | none => none
      | some (exit, out3) => some (exit, out ++ out2 ++ out3)

end DirguiGif

/-! ## The widgets of dirgui (`src/cmd/dirgui/ui.go`)

A Go string is the list of its bytes. The drawing of the widgets (`font.Drawer.DrawString`
in `label`, `button` and `edit`, the `draw.Draw` of the rectangles of `button` and `edit`
and of a nested panel) is not computed: what it does to the target image is a list of calls
of `Set`, given by a function that is a parameter of `updateUI`; the white background
`updateUI` draws first is computed. The
goroutines `updateUI` starts for a click (they run the file, load or save the text, and clear
the flag `running`, `loading` or `saving` when they end) are not part of one call. The
function `updateUI` itself comes after package image/draw below. -/

namespace Ui

open Binary Image Rfb Serve

/-- Constant `windowWidth`. -/
def windowWidth : Int := 40 * 8

/-- Type `ButtonState`. -/
structure ButtonState where
  clicking : Bool
  deriving DecidableEq, Repr

/-- Type `EditorState`; `lastKeySym` is a `uint32`. -/
structure EditorState where
  lastKeySym : Nat
  deriving DecidableEq, Repr

/-- What `getWidgets` and `updateUI` use of an `os.FileInfo`: the results of `Name()`,
`IsDir()` and `Mode().Perm()`. -/
structure FileInfo where
  Name : List Nat
  IsDir : Bool
  Perm : Nat
  deriving DecidableEq, Repr

/-- Type `Widget`, without `lastGuiImg` and `guiLock`, which only the drawing uses. -/
structure Widget where
  fileInfo : FileInfo
  content : List Nat
  editor : EditorState
  loading : Bool
  saving : Bool
  running : Bool
  guiSize : Point
  button1 : ButtonState
  button2 : ButtonState
  deriving DecidableEq, Repr

/-- The composite literal `&Widget{fileInfo: info}`: every other field has its zero value. -/
def Widget.new (info : FileInfo) : Widget :=
  { fileInfo := info, content := [], editor := { lastKeySym := 0 }, loading := false,
    saving := false, running := false, guiSize := { X := 0, Y := 0 },
    button1 := { clicking := false }, button2 := { clicking := false } }

/-- The local variable `hovering` of `button` and `edit`:
`image.Pt(int(pointerEvent.X), int(pointerEvent.Y)).In(rect)`. -/
def hovering (rect : Rectangle) (pointerEvent : PointerEvent) : Bool :=
  decide ((Point.mk (pointerEvent.X : Int) (pointerEvent.Y : Int)).In rect)

/-- The local variable `buttonDown` of `button`: `pointerEvent.ButtonMask&1 != 0`. -/
def buttonDown (pointerEvent : PointerEvent) : Bool :=
  pointerEvent.ButtonMask &&& 1 != 0

/-- Function `button`, without its drawing: the state after the call and the value
returned. -/
def button (state : ButtonState) (rect : Rectangle) (pointerEvent : PointerEvent) :
    ButtonState × Bool :=
  let hovering := hovering rect pointerEvent
  let buttonDown := buttonDown pointerEvent
  if state.clicking then
    if !buttonDown then ({ clicking := false }, hovering)
    else (state, false)
  else
    if hovering && buttonDown then ({ clicking := true }, false)
    else (state, false)

/-- The values `button` returns for the pointer events of a trace, one call for each event
in order, from the state `state`. -/
def clicks (rect : Rectangle) : ButtonState → List PointerEvent → List Bool
  | _, [] => []
  | state, pointerEvent :: rest =>
    (button state rect pointerEvent).2 :: clicks rect (button state rect pointerEvent).1 rest

/-- Function `edit`, without its drawing: the editor state and the text after the call. The
result is `none` when the call panics: the slice expression `(*text)[:len(*text)-1]` on an
empty text. -/
def edit (state : EditorState) (text : List Nat) (rect : Rectangle) (keyEvent : KeyEvent)
    (pointerEvent : PointerEvent) : Option (EditorState × List Nat) :=
  let hovering := hovering rect pointerEvent
  if hovering then
    if keyEvent.Pressed then
      if state.lastKeySym ≠ keyEvent.KeySym then
        if keyEvent.KeySym ≥ 32 ∧ keyEvent.KeySym ≤ 126 then
          some ({ lastKeySym := keyEvent.KeySym }, text ++ [keyEvent.KeySym % 256])
        else if keyEvent.KeySym = 0xff08 then
          if text.length = 0 then none
          else some ({ lastKeySym := keyEvent.KeySym }, text.take (text.length - 1))
        else some ({ lastKeySym := keyEvent.KeySym }, text)
      else some ({ lastKeySym := keyEvent.KeySym }, text)
    else some ({ lastKeySym := 0 }, text)
  else some (state, text)

/-- The editor state and the text after one call of `edit` for each key event of a list in
order, with the same rectangle and pointer event; `none` when a call panics. -/
def editAll (rect : Rectangle) (pointerEvent : PointerEvent) :
    EditorState × List Nat → List KeyEvent → Option (EditorState × List Nat)
  | st, [] => some st
  | st, keyEvent :: rest =>
    match edit st.1 st.2 rect keyEvent pointerEvent with
    | none => none
    | some st => editAll rect pointerEvent st rest

/-- The result of `nestRfb` as `getWidgets` sees it, for the entry name and the name of the
widget it is launched for: the bounds the nested GUI reports, or `none` for an error, on
which `getWidgets` ends the process (`log.Fatalf`). -/
abbrev NestRfb : Type := List Nat → List Nat → Option Rectangle

/-- The string `".gui"`. -/
def dotGui : List Nat := [46, 103, 117, 105]

/-- The loop of `getWidgets` over the entries `ioutil.ReadDir` returned, from the value
`widgets` of the global variable; `none` when the process is ended. -/
def getWidgetsLoop (nestRfb : NestRfb) : List Widget → List FileInfo → Option (List Widget)
  | widgets, [] => some widgets
  | widgets, info :: infos =>
    if info.IsDir then getWidgetsLoop nestRfb widgets infos
    else if List.isPrefixOf [46] info.Name then getWidgetsLoop nestRfb widgets infos
    else
      match widgets[widgets.length - 1]? with
      | some widget =>
        if widgets.length > 0 ∧ info.Name = widget.fileInfo.Name ++ dotGui then
          match nestRfb info.Name widget.fileInfo.Name with
          | none => none
          | some bounds =>
            getWidgetsLoop nestRfb
              (widgets.set (widgets.length - 1) { widget with guiSize := bounds.Max }) infos
        else getWidgetsLoop nestRfb (widgets ++ [Widget.new info]) infos
      | none => getWidgetsLoop nestRfb (widgets ++ [Widget.new info]) infos

/-- Function `getWidgets` for the entries `infos` of the directory, in the order of
`ioutil.ReadDir`; the global `widgets` is empty before the call. -/
def getWidgets (nestRfb : NestRfb) (infos : List FileInfo) : Option (List Widget) :=
  getWidgetsLoop nestRfb [] infos

/-- The body of the loop of `updateUI` for one widget, without its drawing, at the height
`y`: the widget and `y` after it (before the padding between widgets); `none` when `edit`
panics. -/
def updateWidget (widget : Widget) (y : Int) (keyEvent : KeyEvent)
    (pointerEvent : PointerEvent) : Option (Widget × Int) :=
  if widget.guiSize ≠ { X := 0, Y := 0 } then
    let y := iadd y (2 * 8)
    let y := iadd y (iadd widget.guiSize.Y 8)
    some (widget, y)
  else if widget.fileInfo.Perm &&& 0o111 ≠ 0 then
    let r := button widget.button1 (Rect 8 y (30 * 8) (iadd y (3 * 8))) pointerEvent
    let widget := { widget with button1 := r.1 }
    let widget := if r.2 && !widget.running then { widget with running := true } else widget
    some (widget, iadd y (3 * 8))
  else
    let y := iadd y (2 * 8)
    let x : Int := 8
    match edit widget.editor widget.content (Rect x y (iadd x (22 * 8)) (iadd y (3 * 8)))
        keyEvent pointerEvent with
    | none => none
    | some e =>
      let widget := { widget with editor := e.1, content := e.2 }
      let x := iadd x (23 * 8)
      let r := button widget.button1 (Rect x y (iadd x (7 * 8)) (iadd y (3 * 8))) pointerEvent
      let widget := { widget with button1 := r.1 }
      let widget :=
        if r.2 && !widget.loading && !widget.saving then { widget with loading := true }
        else widget
      let x := iadd x (8 * 8)
      let r := button widget.button2 (Rect x y (iadd x (7 * 8)) (iadd y (3 * 8))) pointerEvent
      let widget := { widget with button2 := r.1 }
      let widget :=
        if r.2 && !widget.loading && !widget.saving then { widget with saving := true }
        else widget
      some (widget, iadd y (3 * 8))

/-- The loop `for idx, widget := range widgets` of `updateUI` from the index `idx` on, `len`
being `len(widgets)`: the widgets and `y` after it. -/
def updateWidgets (len : Nat) (keyEvent : KeyEvent) (pointerEvent : PointerEvent) :
    Nat → Int → List Widget → Option (List Widget × Int)
  | _, y, [] => some ([], y)
  | idx, y, widget :: rest =>
    match updateWidget widget y keyEvent pointerEvent with
    | none => none
    | some (widget, y) =>
      let y := iadd y 8
      let y := if (idx : Int) < isub (len : Int) 1 then iadd y 8 else y
      match updateWidgets len keyEvent pointerEvent (idx + 1) y rest with
      | none => none
      | some (rest, y) => some (widget :: rest, y)

/-! ### Definitions that follow the words of the specification

They are what the claims on `edit`, `updateUI` and `getWidgets` compare the functions above
with. -/

/-- The key events "key `k` pressed" for the keysyms `k` of a list. -/
def pressed (keysyms : List Nat) : List KeyEvent :=
  keysyms.map (fun k => { Pressed := true, KeySym := k })

/-- A keysym is a printable ASCII character: it is in 0x20..0x7E. -/
def isPrintable (k : Nat) : Bool :=
  decide (32 ≤ k ∧ k ≤ 126)

/-- The number of 0xFF08 events of a list of keysyms that follow a distinct keysym, `last`
being the keysym before the first of the list. -/
def backspaces : Nat → List Nat → Nat
  | _, [] => 0
  | last, k :: keysyms => (if k = 0xff08 ∧ last ≠ k then 1 else 0) + backspaces k keysyms

/-- The text the specification gives for a sequence of keysyms typed into an empty editor:
the printable keysyms in order, minus one trailing byte for each 0xFF08 event that followed a
distinct keysym. -/
def specText (keysyms : List Nat) : List Nat :=
  (keysyms.filter isPrintable).take
    ((keysyms.filter isPrintable).length - backspaces 0 keysyms)

/-- The height of a widget in the specification: 24 for an executable, 40 for a plain file,
the height of the panel plus 24 for a nested GUI. A widget is a nested GUI when it has a
panel size, and otherwise an executable when one of its execute permission bits is set. -/
def specHeight (widget : Widget) : Int :=
  if widget.guiSize ≠ { X := 0, Y := 0 } then widget.guiSize.Y + 24
  else if widget.fileInfo.Perm &&& 0o111 ≠ 0 then 24
  else 40

/-- The `y` of the rectangle of the window in the specification: 8 for an empty list, and
otherwise 16 for each widget plus the heights of the widgets. -/
def specWindowY (widgets : List Widget) : Int :=
  if widgets = [] then 8 else 16 * (widgets.length : Int) + (widgets.map specHeight).sum

/-- The entries that remain when the directories and the names starting with "." are
dropped. -/
def remaining (infos : List FileInfo) : List FileInfo :=
  infos.filter (fun info => !info.IsDir && !List.isPrefixOf [46] info.Name)

/-- One step of the walk over the remaining entries: an entry whose name is the name of the
last widget followed by ".gui" is merged into that widget as its nested GUI, and every other
entry is appended as one widget. -/
def walkStep (nestRfb : NestRfb) (widgets : List Widget) (info : FileInfo) :
    Option (List Widget) :=
  match widgets.getLast? with
  | none => some (widgets ++ [Widget.new info])
  | some widget =>
    if info.Name = widget.fileInfo.Name ++ dotGui then
      match nestRfb info.Name widget.fileInfo.Name with
      | none => none
      | some bounds => some (widgets.dropLast ++ [{ widget with guiSize := bounds.Max }])
    else some (widgets ++ [Widget.new info])

/-- The walk over the remaining entries in order, from the widgets `widgets`. -/
def walk (nestRfb : NestRfb) : List Widget → List FileInfo → Option (List Widget)
  | widgets, [] => some widgets
  | widgets, info :: infos =>
    match walkStep nestRfb widgets info with
    | none => none
    | some widgets => walk nestRfb widgets infos

end Ui

namespace Rfb

/-- The buffers `p` and `q` of two images with 32 bits per pixel hold the same pixels in
opposite byte orders: the four bytes of every pixel of `p` are the four bytes of the same
pixel of `q` in reverse order. -/
def PixelsReversed (p q : List Nat) : Prop :=
  ∀ k j, j < 4 → p[4 * k + j]? = q[4 * k + (3 - j)]?

end Rfb

namespace Serve

open Binary Image Rfb

/-- The pixel format that the specification's table of wire structures reads from the first
13 of the 16 bytes of a PixelFormat structure, in network byte order: `u8 bpp; u8 depth;
u8 big_endian; u8 true_color; u16 r_max; u16 g_max; u16 b_max; u8 r_shift; u8 g_shift;
u8 b_shift` (3 bytes of padding follow). A flag is set when its byte is not 0; a `u16` is
256 times its first byte plus its second byte. Claim C7 compares the session pixel format
with it. -/
def specPixelFormat (bpp depth bigEndian trueColor rMaxHi rMaxLo gMaxHi gMaxLo bMaxHi bMaxLo
    rShift gShift bShift : Nat) : PixelFormat :=
  { BitsPerPixel := bpp
    BitDepth := depth
    BigEndian := bigEndian != 0
    TrueColor := trueColor != 0
    RedMax := 256 * rMaxHi + rMaxLo
    GreenMax := 256 * gMaxHi + gMaxLo
    BlueMax := 256 * bMaxHi + bMaxLo
    RedShift := rShift
    GreenShift := gShift
    BlueShift := bShift }

end Serve

/-! ## Package image/draw and the nested-GUI client (`rfbClient` of `src/cmd/dirgui/ui.go`)

`image.Rectangle`, `image.Point` and `draw.Draw` are those of the Go standard library.
`draw.Draw` is given for a destination `*rfb.PixelFormatImage` and a source that is a
`*rfb.PixelFormatImage` or an `*image.Uniform`, with the operator `draw.Src` and no mask: no
fast path of `draw.DrawMask` applies to that destination type, so it runs the loop that calls
`dst.Set(x, y, src.At(sx, sy))` for every point of the clipped rectangle, row by row from the
top and from left to right in a row. -/

namespace Image

/-- The value `image.ZR`. -/
def ZR : Rectangle := { Min := { X := 0, Y := 0 }, Max := { X := 0, Y := 0 } }

/-- Method `Point.Sub`. -/
def Point.Sub (p q : Point) : Point := { X := isub p.X q.X, Y := isub p.Y q.Y }

/-- Method `Rectangle.Add`. -/
def Rectangle.Add (r : Rectangle) (p : Point) : Rectangle :=
  { Min := { X := iadd r.Min.X p.X, Y := iadd r.Min.Y p.Y }
    Max := { X := iadd r.Max.X p.X, Y := iadd r.Max.Y p.Y } }

/-- Method `Rectangle.Empty`. -/
def Rectangle.Empty (r : Rectangle) : Bool :=
  decide (r.Min.X ≥ r.Max.X ∨ r.Min.Y ≥ r.Max.Y)

/-- Method `Rectangle.Intersect`. -/
def Rectangle.Intersect (r s : Rectangle) : Rectangle :=
  let r : Rectangle :=
    if r.Min.X < s.Min.X then { Min := { X := s.Min.X, Y := r.Min.Y }, Max := r.Max } else r
  let r : Rectangle :=
    if r.Min.Y < s.Min.Y then { Min := { X := r.Min.X, Y := s.Min.Y }, Max := r.Max } else r
  let r : Rectangle :=
    if r.Max.X > s.Max.X then { Min := r.Min, Max := { X := s.Max.X, Y := r.Max.Y } } else r
  let r : Rectangle :=
    if r.Max.Y > s.Max.Y then { Min := r.Min, Max := { X := r.Max.X, Y := s.Max.Y } } else r
  if r.Empty then ZR else r

end Image

namespace draw

open Binary Image Rfb

/-- The bounds of every `*image.Uniform`: `Rectangle{Point{-1e9, -1e9}, Point{1e9, 1e9}}`. -/
def uniformBounds : Rectangle :=
  { Min := { X := -1000000000, Y := -1000000000 }, Max := { X := 1000000000, Y := 1000000000 } }

/-- The calls of `Set` of the inner loop `for x := x0; x != x1; x, sx = x+1, sx+1` of
`draw.DrawMask` with `n` turns left in the row `y`, for a source `*image.Uniform` of the
colour `c`, whose `At` returns `c` at every point: each turn is `dst.Set(x, y, c)`. -/
def uniformRow (c : NRGBA) (y : Int) : Nat → Int → List Serve.SetCall
  | 0, _ => []
  | n + 1, x => { x := x, y := y, c := c } :: uniformRow c y n (iadd x 1)

/-- The calls of `Set` of the outer loop `for y := y0; y != y1; y, sy = y+1, sy+1` of
`draw.DrawMask` with `n` turns left, for a source `*image.Uniform`; every row starts at `x0`
and has `width` points. -/
def uniformRows (c : NRGBA) (x0 : Int) (width : Nat) : Nat → Int → List Serve.SetCall
  | 0, _ => []
  | n + 1, y => uniformRow c y width x0 ++ uniformRows c x0 width n (iadd y 1)

/-- The calls of `Set` that `draw.Draw(dst, r, image.NewUniform(c), sp, draw.Src)` makes on a
destination `*rfb.PixelFormatImage`, in order: `r` is clipped to the bounds of the
destination and of the source as in `clip`, and the loop of `draw.DrawMask` calls
`dst.Set(x, y, c)` for every point of the clipped rectangle, row by row; `c` is the colour
after `color.NRGBAModel.Convert`. -/
def DrawUniform (dst : PixelFormatImage) (r : Rectangle) (c : NRGBA) (sp : Point) :
    List Serve.SetCall :=
  let orig := r.Min
  let r := r.Intersect dst.Bounds
  let r := r.Intersect (uniformBounds.Add (orig.Sub sp))
  if r.Empty then []
  else uniformRows c r.Min.X (r.Max.X - r.Min.X).toNat (r.Max.Y - r.Min.Y).toNat r.Min.Y

end draw

namespace Ui

open Binary Image Rfb Serve draw

/-- The calls of `Set` that the drawing of the widgets makes on the target image in one call
of `updateUI`, in order, as a function of what `updateUI` is given; the function is not
computed here. The result is `none` when the drawing panics elsewhere than in a call of
`Set` or `At` on the target image: the drawing of a nested panel reads the last image
received from the child with `At`, which panics when that image has an unsupported pixel
format. -/
abbrev Drawing : Type :=
  List Widget → Option PixelFormatImage → KeyEvent → PointerEvent → Option (List SetCall)

/-- The colour `color.White` after `color.NRGBAModel.Convert`. -/
def white : NRGBA := { R := 255, G := 255, B := 255, A := 255 }

/-- The calls of `Set` of the background `draw.Draw(img, img.Bounds(),
image.NewUniform(color.White), image.ZP, draw.Src)` with which `updateUI` starts: none on the
throwaway `image.NewNRGBA(image.ZR)`, which has no pixel and is not a
`*rfb.PixelFormatImage`. -/
def background : Option PixelFormatImage → List SetCall
  | none => []
  | some img => DrawUniform img img.Bounds white { X := 0, Y := 0 }

/-- Function `updateUI` after `once.Do(getWidgets)`, the global `widgets` being the state, as
a painter of the session: the widgets after the call, the rectangle it returns and the calls
of `Set` it makes on the target image, those of the background first; `none` when `edit`
panics or the drawing panics outside the target image. A panic of one of the calls of `Set`
is the panic of `paint` on them. -/
def updateUI (drawing : Drawing) : UpdateUI (List Widget) :=
  fun widgets img keyEvent pointerEvent =>
    let y : Int := 8
    match updateWidgets widgets.length keyEvent pointerEvent 0 y widgets with
    | none => none
    | some (widgets', y) =>
      match drawing widgets img keyEvent pointerEvent with
      | none => none
      | some sets =>
        some { state := widgets'
               windowRect := Rect 0 0 windowWidth y
               sets := background img ++ sets }

/-- One whole call `updateUI(img, keyEvent, pointerEvent)` on the widgets `widgets`: the
widgets after it and the rectangle it returns, or `none` when the call does not return,
because `edit` panics, the drawing panics outside the target image, or a call of `Set` on
the target image panics. On the throwaway `image.NewNRGBA(image.ZR)` (the target `none`) no
call of `Set` panics. -/
def updateUIResult (drawing : Drawing) (widgets : List Widget) :
    Option PixelFormatImage → KeyEvent → PointerEvent → Option (List Widget × Rectangle)
  | none, keyEvent, pointerEvent =>
    (updateUI drawing widgets none keyEvent pointerEvent).map
      fun painted => (painted.state, painted.windowRect)
  | some img, keyEvent, pointerEvent =>
    (updateUI drawing widgets (some img) keyEvent pointerEvent).bind
      fun painted =>
        (paint img painted.sets).toOption.map
          fun _ => (painted.state, painted.windowRect)

/-- The colour `At` returns for the pixel value `pixel` under the shifts of a pixel format
with maxima 255. -/
def decode (pf : PixelFormat) (pixel : Nat) : NRGBA :=
  { R := ((pixel >>> pf.RedShift) &&& 255) % 256
    G := ((pixel >>> pf.GreenShift) &&& 255) % 256
    B := ((pixel >>> pf.BlueShift) &&& 255) % 256
    A := 255 }

end Ui

/-! # Theorems -/

/-! ## Byte-order lemmas -/

section ByteOrderLemmas

open Binary

theorem byteAt_set_eq (b : List Nat) (i v : Nat) (h : i < b.length) :
    byteAt (b.set i v) i = v % 256 := by
  simp [byteAt, List.getD_eq_getElem?_getD, h]

theorem byteAt_set_ne (b : List Nat) (i j v : Nat) (h : i ≠ j) :
    byteAt (b.set i v) j = byteAt b j := by
  simp [byteAt, List.getD_eq_getElem?_getD, List.getElem?_set_ne h]

theorem length_PutUint16 (bo : ByteOrder) (b : List Nat) (off v : Nat) :
    (bo.PutUint16 b off v).length = b.length := by
  cases bo <;> simp [ByteOrder.PutUint16]

theorem length_PutUint32 (bo : ByteOrder) (b : List Nat) (off v : Nat) :
    (bo.PutUint32 b off v).length = b.length := by
  cases bo <;> simp [ByteOrder.PutUint32]

theorem byteAt_PutUint16_ne (bo : ByteOrder) (b : List Nat) (off v j : Nat)
    (h : j < off ∨ off + 2 ≤ j) : byteAt (bo.PutUint16 b off v) j = byteAt b j := by
  cases bo <;> simp only [ByteOrder.PutUint16] <;>
    rw [byteAt_set_ne _ _ _ _ (by omega), byteAt_set_ne _ _ _ _ (by omega)]

theorem byteAt_PutUint32_ne (bo : ByteOrder) (b : List Nat) (off v j : Nat)
    (h : j < off ∨ off + 4 ≤ j) : byteAt (bo.PutUint32 b off v) j = byteAt b j := by
  cases bo <;> simp only [ByteOrder.PutUint32] <;>
    rw [byteAt_set_ne _ _ _ _ (by omega), byteAt_set_ne _ _ _ _ (by omega),
      byteAt_set_ne _ _ _ _ (by omega), byteAt_set_ne _ _ _ _ (by omega)]

theorem Uint16_PutUint16 (bo : ByteOrder) (b : List Nat) (off v : Nat)
    (hlen : off + 2 ≤ b.length) (hv : v < 65536) :
    bo.Uint16 (bo.PutUint16 b off v) off = v := by
  cases bo <;> simp only [ByteOrder.Uint16, ByteOrder.PutUint16]
  · rw [byteAt_set_eq _ _ _ (by simp; omega), byteAt_set_ne _ _ _ _ (by omega),
      byteAt_set_eq _ _ _ (by omega)]
    omega
  · rw [byteAt_set_eq _ _ _ (by simp; omega), byteAt_set_ne _ _ _ _ (by omega),
      byteAt_set_eq _ _ _ (by omega)]
    omega

theorem Uint32_PutUint32 (bo : ByteOrder) (b : List Nat) (off v : Nat)
    (hlen : off + 4 ≤ b.length) (hv : v < 4294967296) :
    bo.Uint32 (bo.PutUint32 b off v) off = v := by
  cases bo <;> simp only [ByteOrder.Uint32, ByteOrder.PutUint32]
  · rw [byteAt_set_eq _ _ _ (by simp; omega), byteAt_set_ne _ _ (off + 2) _ (by omega),
      byteAt_set_eq _ _ _ (by simp; omega), byteAt_set_ne _ _ (off + 1) _ (by omega),
      byteAt_set_ne _ _ (off + 1) _ (by omega), byteAt_set_eq _ _ _ (by simp; omega),
      byteAt_set_ne _ _ off _ (by omega), byteAt_set_ne _ _ off _ (by omega),
      byteAt_set_ne _ _ off _ (by omega), byteAt_set_eq _ _ _ (by omega)]
    omega
  · rw [byteAt_set_ne _ _ off _ (by omega), byteAt_set_ne _ _ off _ (by omega),
      byteAt_set_ne _ _ off _ (by omega), byteAt_set_eq _ _ _ (by omega),
      byteAt_set_ne _ _ (off + 1) _ (by omega),
      byteAt_set_ne _ _ (off + 1) _ (by omega), byteAt_set_eq _ _ _ (by simp; omega),
      byteAt_set_ne _ _ (off + 2) _ (by omega),
      byteAt_set_eq _ _ _ (by simp; omega), byteAt_set_eq _ _ _ (by simp; omega)]
    omega

theorem Uint16_PutUint16_ne (bo bo2 : ByteOrder) (b : List Nat) (off j v : Nat)
    (h : j + 2 ≤ off ∨ off + 2 ≤ j) :
    bo2.Uint16 (bo.PutUint16 b off v) j = bo2.Uint16 b j := by
  cases bo2 <;> simp only [ByteOrder.Uint16] <;>
    rw [byteAt_PutUint16_ne _ _ _ _ _ (by omega), byteAt_PutUint16_ne _ _ _ _ _ (by omega)]

theorem Uint16_set_ne (bo : ByteOrder) (b : List Nat) (i j v : Nat)
    (h : i < j ∨ j + 2 ≤ i) : bo.Uint16 (b.set i v) j = bo.Uint16 b j := by
  cases bo <;> simp only [ByteOrder.Uint16] <;>
    rw [byteAt_set_ne _ _ _ _ (by omega), byteAt_set_ne _ _ _ _ (by omega)]

theorem getElem?_PutUint16_ne (bo : ByteOrder) (b : List Nat) (off v j : Nat)
    (h : j < off ∨ off + 2 ≤ j) : (bo.PutUint16 b off v)[j]? = b[j]? := by
  cases bo <;> simp only [ByteOrder.PutUint16] <;>
    rw [List.getElem?_set_ne (by omega), List.getElem?_set_ne (by omega)]

theorem getElem?_PutUint32_ne (bo : ByteOrder) (b : List Nat) (off v j : Nat)
    (h : j < off ∨ off + 4 ≤ j) : (bo.PutUint32 b off v)[j]? = b[j]? := by
  cases bo <;> simp only [ByteOrder.PutUint32] <;>
    rw [List.getElem?_set_ne (by omega), List.getElem?_set_ne (by omega),
      List.getElem?_set_ne (by omega), List.getElem?_set_ne (by omega)]

end ByteOrderLemmas

/-! ## Pixel-format images: index arithmetic and the packed pixel -/

section ImageLemmas

open Binary Image Rfb

theorem wrapInt_eq (n : Int) (h1 : -9223372036854775808 ≤ n) (h2 : n < 9223372036854775808) :
    wrapInt n = n := by
  unfold wrapInt
  omega

/-- Under the well-formedness of the buffer, `idx` at a point of the bounds is computed
without wrap-around and the pixel lies inside the buffer. -/
theorem idx_inPix (img : PixelFormatImage) (x y : Int) (hwf : img.WellFormed)
    (hin : (Point.mk x y).In img.Rect) (hn : 1 ≤ img.PixelFormat.BitsPerPixel / 8) :
    img.idx x y = ((img.PixelFormat.BitsPerPixel / 8 : Nat) : Int)
        * (img.Rect.Max.X - img.Rect.Min.X) * (y - img.Rect.Min.Y)
        + ((img.PixelFormat.BitsPerPixel / 8 : Nat) : Int) * (x - img.Rect.Min.X) ∧
    img.inPix (img.idx x y) (img.PixelFormat.BitsPerPixel / 8) := by
  obtain ⟨hlen, hmax⟩ := hwf
  obtain ⟨hx1, hx2, hy1, hy2⟩ := hin
  simp only at hx1 hx2 hy1 hy2
  simp only [PixelFormatImage.idx, PixelFormatImage.inPix, Rectangle.Dx, Rectangle.Dy, iadd,
    isub, imul]
  generalize (img.PixelFormat.BitsPerPixel / 8 : Nat) = n at *
  generalize img.Rect.Max.X = X1 at *
  generalize img.Rect.Min.X = X0 at *
  generalize img.Rect.Max.Y = Y1 at *
  generalize img.Rect.Min.Y = Y0 at *
  generalize img.Pix.length = len at *
  have hn' : (1 : Int) ≤ (n : Int) := by exact_mod_cast hn
  have hdx : 1 ≤ X1 - X0 := by omega
  have hdy : 1 ≤ Y1 - Y0 := by omega
  have ha0 : 0 ≤ x - X0 := by omega
  have ha1 : x - X0 + 1 ≤ X1 - X0 := by omega
  have hb0 : 0 ≤ y - Y0 := by omega
  have hb1 : y - Y0 + 1 ≤ Y1 - Y0 := by omega
  generalize X1 - X0 = dx at *
  generalize Y1 - Y0 = dy at *
  generalize x - X0 = a at *
  generalize y - Y0 = b at *
  have hndx : 1 ≤ (n : Int) * dx := by nlinarith
  have h1 : (n : Int) * dx * (b + 1) ≤ (n : Int) * dx * dy :=
    mul_le_mul_of_nonneg_left hb1 (by omega)
  have h2 : (n : Int) * (a + 1) ≤ (n : Int) * dx :=
    mul_le_mul_of_nonneg_left ha1 (by omega)
  have h3 : 0 ≤ (n : Int) * dx * b := mul_nonneg (by omega) hb0
  have h4 : 0 ≤ (n : Int) * a := mul_nonneg (by omega) ha0
  have h5 : dx ≤ (n : Int) * dx := by nlinarith
  have h6 : (n : Int) * dx ≤ (n : Int) * dx * dy := by nlinarith
  have h7 : dy ≤ (n : Int) * dx * dy := by nlinarith
  have e1 : (n : Int) * dx * (b + 1) = (n : Int) * dx * b + (n : Int) * dx := by ring
  have e2 : (n : Int) * (a + 1) = (n : Int) * a + (n : Int) := by ring
  have w1 : wrapInt dx = dx := wrapInt_eq _ (by omega) (by omega)
  have w2 : wrapInt ((n : Int) * dx) = (n : Int) * dx := wrapInt_eq _ (by omega) (by omega)
  have w3 : wrapInt b = b := wrapInt_eq _ (by omega) (by omega)
  have w4 : wrapInt ((n : Int) * dx * b) = (n : Int) * dx * b :=
    wrapInt_eq _ (by omega) (by omega)
  have w5 : wrapInt a = a := wrapInt_eq _ (by omega) (by omega)
  have w6 : wrapInt ((n : Int) * a) = (n : Int) * a := wrapInt_eq _ (by omega) (by omega)
  have w7 : wrapInt ((n : Int) * dx * b + (n : Int) * a) = (n : Int) * dx * b + (n : Int) * a :=
    wrapInt_eq _ (by omega) (by omega)
  rw [w1, w2, w3, w4, w5, w6, w7]
  exact ⟨rfl, by omega, by omega⟩

theorem testBit_255 (i : Nat) : Nat.testBit 255 i = decide (i < 8) := by
  have : (255 : Nat) = 2 ^ 8 - 1 := by norm_num
  rw [this, Nat.testBit_two_pow_sub_one]

theorem pack_lt (pf : PixelFormat) (c : NRGBA) : pf.pack c < 4294967296 := by
  have h : (4294967296 : Nat) = 2 ^ 32 := by norm_num
  simp only [PixelFormat.pack, h]
  exact Nat.or_lt_two_pow (Nat.or_lt_two_pow (Nat.or_lt_two_pow (by norm_num)
    (Nat.mod_lt _ (by norm_num))) (Nat.mod_lt _ (by norm_num))) (Nat.mod_lt _ (by norm_num))

/-- One channel of the packed pixel is read back unchanged when its eight bits lie inside the
`w` bits kept and the two other channels are at least eight bits away. -/
theorem channel_roundtrip (a b c sa sb sc w : Nat) (hw : w ≤ 32) (hfit : sa + 8 ≤ w)
    (hb : sb + 8 ≤ sa ∨ sa + 8 ≤ sb) (hc : sc + 8 ≤ sa ∨ sa + 8 ≤ sc) :
    ((((0 ||| ((a &&& 255) <<< sa) % 4294967296) ||| ((b &&& 255) <<< sb) % 4294967296)
        ||| ((c &&& 255) <<< sc) % 4294967296) % 2 ^ w) >>> sa &&& 255 = a &&& 255 := by
  have h : (4294967296 : Nat) = 2 ^ 32 := by norm_num
  apply Nat.eq_of_testBit_eq
  intro i
  simp only [h, Nat.testBit_and, Nat.testBit_shiftRight, Nat.testBit_mod_two_pow,
    Nat.testBit_or, Nat.testBit_shiftLeft, testBit_255, Nat.zero_testBit, Bool.false_or]
  by_cases hi : i < 8
  · have h1 : sa + i < w := by omega
    have h2 : sa + i < 32 := by omega
    have h3 : sa + i ≥ sa := by omega
    have h4 : sa + i - sa = i := by omega
    have hb' : (decide (sa + i ≥ sb) && ((b.testBit (sa + i - sb)) && decide (sa + i - sb < 8))) = false := by
      rcases hb with hb | hb
      · have : ¬ (sa + i - sb < 8) := by omega
        simp [this]
      · have : ¬ (sa + i ≥ sb) := by omega
        simp [this]
    have hc' : (decide (sa + i ≥ sc) && ((c.testBit (sa + i - sc)) && decide (sa + i - sc < 8))) = false := by
      rcases hc with hc | hc
      · have : ¬ (sa + i - sc < 8) := by omega
        simp [this]
      · have : ¬ (sa + i ≥ sc) := by omega
        simp [this]
    simp only [h1, h2, h3, h4, hi, hb', hc', decide_True, Bool.true_and, Bool.and_true,
      Bool.and_false, Bool.or_false, Bool.false_and]
  · simp [hi]

theorem and_255_mod (a : Nat) : (a &&& 255) % 256 = a &&& 255 :=
  Nat.mod_eq_of_lt (Nat.lt_succ_of_le Nat.and_le_right)

/-- The three channels of the pixel packed by `pack`, each under the condition that its
eight bits survive the truncation to `w` bits and meet no other channel. -/
theorem pack_channels (pf : PixelFormat) (col : NRGBA) (w : Nat) (hw : w ≤ 32)
    (hr : pf.RedMax = 255) (hg : pf.GreenMax = 255) (hb : pf.BlueMax = 255) :
    (pf.RedShift + 8 ≤ w →
      (pf.GreenShift + 8 ≤ pf.RedShift ∨ pf.RedShift + 8 ≤ pf.GreenShift) →
      (pf.BlueShift + 8 ≤ pf.RedShift ∨ pf.RedShift + 8 ≤ pf.BlueShift) →
      ((pf.pack col % 2 ^ w) >>> pf.RedShift &&& 255) % 256 = col.R &&& pf.RedMax) ∧
    (pf.GreenShift + 8 ≤ w →
      (pf.RedShift + 8 ≤ pf.GreenShift ∨ pf.GreenShift + 8 ≤ pf.RedShift) →
      (pf.BlueShift + 8 ≤ pf.GreenShift ∨ pf.GreenShift + 8 ≤ pf.BlueShift) →
      ((pf.pack col % 2 ^ w) >>> pf.GreenShift &&& 255) % 256 = col.G &&& pf.GreenMax) ∧
    (pf.BlueShift + 8 ≤ w →
      (pf.RedShift + 8 ≤ pf.BlueShift ∨ pf.BlueShift + 8 ≤ pf.RedShift) →
      (pf.GreenShift + 8 ≤ pf.BlueShift ∨ pf.BlueShift + 8 ≤ pf.GreenShift) →
      ((pf.pack col % 2 ^ w) >>> pf.BlueShift &&& 255) % 256 = col.B &&& pf.BlueMax) := by
  simp only [PixelFormat.pack, hr, hg, hb]
  refine ⟨fun h1 h2 h3 => ?_, fun h1 h2 h3 => ?_, fun h1 h2 h3 => ?_⟩
  · rw [channel_roundtrip _ _ _ _ _ _ _ hw h1 h2 h3, and_255_mod]
  · have e : ∀ p q r : Nat, ((0 ||| p) ||| q) ||| r = ((0 ||| q) ||| p) ||| r := by
      intro p q r
      simp only [Nat.zero_or, Nat.lor_comm p q]
    rw [e, channel_roundtrip _ _ _ _ _ _ _ hw h1 h2 h3, and_255_mod]
  · have e : ∀ p q r : Nat, ((0 ||| p) ||| q) ||| r = ((0 ||| r) ||| p) ||| q := by
      intro p q r
      simp only [Nat.zero_or, Nat.lor_comm (p ||| q) r, Nat.lor_assoc]
    rw [e, channel_roundtrip _ _ _ _ _ _ _ hw h1 h2 h3, and_255_mod]

/-- The pixel `Set` stores, truncated to the `BitsPerPixel` bits of a pixel. -/
theorem At_Set_same (img : PixelFormatImage) (x y : Int) (col : NRGBA)
    (hbpp : img.PixelFormat.BitsPerPixel = 8 ∨ img.PixelFormat.BitsPerPixel = 16
      ∨ img.PixelFormat.BitsPerPixel = 32)
    (hr : img.PixelFormat.RedMax = 255) (hg : img.PixelFormat.GreenMax = 255)
    (hb : img.PixelFormat.BlueMax = 255)
    (hwf : img.WellFormed) (hin : (Point.mk x y).In img.Rect) :
    ∃ img', img.Set x y col = .ok img' ∧ img'.Rect = img.Rect ∧
      img'.PixelFormat = img.PixelFormat ∧ img'.Pix.length = img.Pix.length ∧
      img'.At x y = .ok
        { R := ((img.PixelFormat.pack col % 2 ^ img.PixelFormat.BitsPerPixel)
                  >>> img.PixelFormat.RedShift &&& 255) % 256
          G := ((img.PixelFormat.pack col % 2 ^ img.PixelFormat.BitsPerPixel)
                  >>> img.PixelFormat.GreenShift &&& 255) % 256
          B := ((img.PixelFormat.pack col % 2 ^ img.PixelFormat.BitsPerPixel)
                  >>> img.PixelFormat.BlueShift &&& 255) % 256
          A := 255 } := by
  have hP := pack_lt img.PixelFormat col
  rcases hbpp with h8 | h16 | h32
  · obtain ⟨-, hpix⟩ := idx_inPix img x y hwf hin (by simp [h8])
    rw [h8] at hpix
    have hpix' := hpix
    obtain ⟨hi0, hi1⟩ := hpix'
    have hlt : (img.idx x y).toNat < img.Pix.length := by omega
    refine ⟨{ img with Pix := img.Pix.set (img.idx x y).toNat (img.PixelFormat.pack col % 256) },
      ?_, rfl, rfl, by simp, ?_⟩
    · simp [PixelFormatImage.Set, hr, hg, hb, h8, hpix]
    · have hpix2 : PixelFormatImage.inPix
          { img with Pix := img.Pix.set (img.idx x y).toNat (img.PixelFormat.pack col % 256) }
          (img.idx x y) 1 := by
        simpa [PixelFormatImage.inPix] using hpix
      have hidx : PixelFormatImage.idx
          { img with Pix := img.Pix.set (img.idx x y).toNat (img.PixelFormat.pack col % 256) }
          x y = img.idx x y := rfl
      simp only [PixelFormatImage.At, hidx, h8, hr, hg, hb, if_true, hpix2]
      simp [byteAt_set_eq _ _ _ hlt]
  · obtain ⟨-, hpix⟩ := idx_inPix img x y hwf hin (by simp [h16])
    rw [h16] at hpix
    have hpix' := hpix
    obtain ⟨hi0, hi1⟩ := hpix'
    have hlt : (img.idx x y).toNat + 2 ≤ img.Pix.length := by omega
    refine ⟨{ img with Pix := img.bo.PutUint16 img.Pix (img.idx x y).toNat (img.PixelFormat.pack col % 65536) }, ?_, rfl, rfl, by simp [length_PutUint16], ?_⟩
    · simp [PixelFormatImage.Set, hr, hg, hb, h16, hpix]
    · have hpix2 : PixelFormatImage.inPix
          { img with Pix := img.bo.PutUint16 img.Pix (img.idx x y).toNat (img.PixelFormat.pack col % 65536) } (img.idx x y) 2 := by
        simpa [PixelFormatImage.inPix, length_PutUint16] using hpix
      have hidx : PixelFormatImage.idx
          { img with Pix := img.bo.PutUint16 img.Pix (img.idx x y).toNat (img.PixelFormat.pack col % 65536) } x y = img.idx x y := rfl
      have hbo : PixelFormatImage.bo
          { img with Pix := img.bo.PutUint16 img.Pix (img.idx x y).toNat (img.PixelFormat.pack col % 65536) } = img.bo := rfl
      simp only [PixelFormatImage.At, hidx, hbo, h16, hr, hg, hb, if_true, hpix2]
      rw [Uint16_PutUint16 _ _ _ _ hlt (Nat.mod_lt _ (by norm_num))]
      simp
  · obtain ⟨-, hpix⟩ := idx_inPix img x y hwf hin (by simp [h32])
    rw [h32] at hpix
    have hpix' := hpix
    obtain ⟨hi0, hi1⟩ := hpix'
    have hlt : (img.idx x y).toNat + 4 ≤ img.Pix.length := by omega
    refine ⟨{ img with Pix := img.bo.PutUint32 img.Pix (img.idx x y).toNat (img.PixelFormat.pack col) }, ?_, rfl, rfl, by simp [length_PutUint32], ?_⟩
    · simp [PixelFormatImage.Set, hr, hg, hb, h32, hpix]
    · have hpix2 : PixelFormatImage.inPix
          { img with Pix := img.bo.PutUint32 img.Pix (img.idx x y).toNat (img.PixelFormat.pack col) } (img.idx x y) 4 := by
        simpa [PixelFormatImage.inPix, length_PutUint32] using hpix
      have hidx : PixelFormatImage.idx
          { img with Pix := img.bo.PutUint32 img.Pix (img.idx x y).toNat (img.PixelFormat.pack col) } x y = img.idx x y := rfl
      have hbo : PixelFormatImage.bo
          { img with Pix := img.bo.PutUint32 img.Pix (img.idx x y).toNat (img.PixelFormat.pack col) } = img.bo := rfl
      simp only [PixelFormatImage.At, hidx, hbo, h32, hr, hg, hb, if_true, hpix2]
      rw [Uint32_PutUint32 _ _ _ _ hlt hP]
      simp [Nat.mod_eq_of_lt hP]

end ImageLemmas

/-! ## Wire codecs: round trips -/

section CodecLemmas

open Binary Image Rfb

theorem Uint16_PutUint32_ne (bo bo2 : ByteOrder) (b : List Nat) (off j v : Nat)
    (h : j + 2 ≤ off ∨ off + 4 ≤ j) :
    bo2.Uint16 (bo.PutUint32 b off v) j = bo2.Uint16 b j := by
  cases bo2 <;> simp only [ByteOrder.Uint16] <;>
    rw [byteAt_PutUint32_ne _ _ _ _ _ (by omega), byteAt_PutUint32_ne _ _ _ _ _ (by omega)]

theorem readFull_append (a rest : List Nat) (n : Nat) (h : a.length = n) :
    readFull (a ++ rest) n = some (a, rest) := by
  subst h
  simp [readFull]

theorem length_wireHeader (bo : ByteOrder) (x y w h e : Nat) :
    (bo.PutUint32 (bo.PutUint16 (bo.PutUint16 (bo.PutUint16 (bo.PutUint16
      (List.replicate 12 0) 0 x) 2 y) 4 w) 6 h) 8 e).length = 12 := by
  simp [length_PutUint32, length_PutUint16]

end CodecLemmas

/-! ## Claims on the pixel-format image and the wire codecs -/

section CodecClaims

open Binary Image Rfb

/-- C1 (amended): for an image with BitsPerPixel in {8,16,32}, channel maxes 255 (either byte
order) and a buffer of exactly (bpp/8)*dx*dy bytes, `dx` and `dy` being the width and the
height of its bounds and the product, not wrapped around, being less than 2^63, `Set` at a
point of the bounds succeeds and `At` at the same point then returns a colour of alpha 255 in
which every channel whose eight bits lie inside the pixel (shift + 8 ≤ BitsPerPixel) and at
least eight bits away from the two other shifts equals the channel given to `Set` masked by
its max. -/
theorem C1_at_after_set_channels (img : PixelFormatImage) (x y : Int) (col : NRGBA)
    (hbpp : img.PixelFormat.BitsPerPixel = 8 ∨ img.PixelFormat.BitsPerPixel = 16
      ∨ img.PixelFormat.BitsPerPixel = 32)
    (hr : img.PixelFormat.RedMax = 255) (hg : img.PixelFormat.GreenMax = 255)
    (hb : img.PixelFormat.BlueMax = 255)
    (hwf : img.WellFormed) (hin : (Point.mk x y).In img.Rect) :
    ∃ c, img.setThenAt x y col = .ok c ∧ c.A = 255 ∧
      (img.PixelFormat.RedShift + 8 ≤ img.PixelFormat.BitsPerPixel →
        (img.PixelFormat.GreenShift + 8 ≤ img.PixelFormat.RedShift
          ∨ img.PixelFormat.RedShift + 8 ≤ img.PixelFormat.GreenShift) →
        (img.PixelFormat.BlueShift + 8 ≤ img.PixelFormat.RedShift
          ∨ img.PixelFormat.RedShift + 8 ≤ img.PixelFormat.BlueShift) →
        c.R = col.R &&& img.PixelFormat.RedMax) ∧
      (img.PixelFormat.GreenShift + 8 ≤ img.PixelFormat.BitsPerPixel →
        (img.PixelFormat.RedShift + 8 ≤ img.PixelFormat.GreenShift
          ∨ img.PixelFormat.GreenShift + 8 ≤ img.PixelFormat.RedShift) →
        (img.PixelFormat.BlueShift + 8 ≤ img.PixelFormat.GreenShift
          ∨ img.PixelFormat.GreenShift + 8 ≤ img.PixelFormat.BlueShift) →
        c.G = col.G &&& img.PixelFormat.GreenMax) ∧
      (img.PixelFormat.BlueShift + 8 ≤ img.PixelFormat.BitsPerPixel →
        (img.PixelFormat.RedShift + 8 ≤ img.PixelFormat.BlueShift
          ∨ img.PixelFormat.BlueShift + 8 ≤ img.PixelFormat.RedShift) →
        (img.PixelFormat.GreenShift + 8 ≤ img.PixelFormat.BlueShift
          ∨ img.PixelFormat.BlueShift + 8 ≤ img.PixelFormat.GreenShift) →
        c.B = col.B &&& img.PixelFormat.BlueMax) := by
  obtain ⟨img', hset, -, -, -, hat⟩ := At_Set_same img x y col hbpp hr hg hb hwf hin
  have hw : img.PixelFormat.BitsPerPixel ≤ 32 := by omega
  obtain ⟨cr, cg, cb⟩ := pack_channels img.PixelFormat col _ hw hr hg hb
  refine ⟨{ R := _, G := _, B := _, A := 255 }, ?_, rfl, cr, cg, cb⟩
  simp only [PixelFormatImage.setThenAt, hset, hat]

/-- C1, witness: the amended round trip at the pixel (1,1) of a 2×2 image in the canonical
format of the server. -/
theorem C1_at_after_set_channels_witness :
    ∃ c, (NewPixelFormatImage Serve.canonicalPixelFormat (Rect 0 0 2 2)).setThenAt 1 1
        { R := 10, G := 20, B := 30, A := 7 } = .ok c ∧ c.A = 255 ∧
      c.R = 10 ∧ c.G = 20 ∧ c.B = 30 := by
  obtain ⟨c, h, ha, hr, hg, hb⟩ := C1_at_after_set_channels
    (NewPixelFormatImage Serve.canonicalPixelFormat (Rect 0 0 2 2)) 1 1
    { R := 10, G := 20, B := 30, A := 7 } (by decide) (by decide) (by decide) (by decide)
    (by decide) (by decide)
  exact ⟨c, h, ha, hr (by decide) (by decide) (by decide), hg (by decide) (by decide)
    (by decide), hb (by decide) (by decide) (by decide)⟩

/-- C1, counterexample: with BitsPerPixel 32, maxes 255 and the three shifts all 0, `At` after
`Set` of the colour (1,2,0) at the one pixel of a 1×1 image returns (3,3,3,255) and not
(1 & 255, 2 & 255, 0 & 255, 255). And with BitsPerPixel 16, maxes 255 and the shifts 0 and 8
of red and green, on the image `NewPixelFormatImage` builds over (0,0)-(2^32,2^31), whose
buffer is empty because the number of bytes, 2^64, wraps around to 0 in the type `int`, `Set`
at the point (0,0) of the bounds indexes out of range and no colour is returned. -/
theorem C1_any_shifts_counterexample :
    ((Point.mk 0 0).In (Rect 0 0 1 1) ∧
      (NewPixelFormatImage
          { BitsPerPixel := 32, BitDepth := 24, BigEndian := true, TrueColor := true,
            RedMax := 255, GreenMax := 255, BlueMax := 255,
            RedShift := 0, GreenShift := 0, BlueShift := 0 }
          (Rect 0 0 1 1)).setThenAt 0 0 { R := 1, G := 2, B := 0, A := 255 }
        = .ok { R := 3, G := 3, B := 3, A := 255 } ∧
      ({ R := 3, G := 3, B := 3, A := 255 } : NRGBA)
        ≠ { R := 1 &&& 255, G := 2 &&& 255, B := 0 &&& 255, A := 255 }) ∧
    ((Point.mk 0 0).In (Rect 0 0 4294967296 2147483648) ∧
      (NewPixelFormatImage
        { BitsPerPixel := 16, BitDepth := 16, BigEndian := false, TrueColor := true,
          RedMax := 255, GreenMax := 255, BlueMax := 255, RedShift := 0, GreenShift := 8,
          BlueShift := 0 } (Rect 0 0 4294967296 2147483648)).Pix = [] ∧
      (NewPixelFormatImage
        { BitsPerPixel := 16, BitDepth := 16, BigEndian := false, TrueColor := true,
          RedMax := 255, GreenMax := 255, BlueMax := 255, RedShift := 0, GreenShift := 8,
          BlueShift := 0 } (Rect 0 0 4294967296 2147483648)).setThenAt 0 0
          { R := 1, G := 2, B := 0, A := 255 } = .error .indexOutOfRange) := by
  decide

/-- C8: for every PixelFormat value, every buffer slice of at least 16 bytes and either byte
order, `Read` after `Write` on that slice gives back the value, field by field. -/
theorem C8_pixel_format_read_write (pf : PixelFormat) (buf : List Nat) (off : Nat)
    (bo : ByteOrder) (hpf : pf.InRange) (hlen : off + PixelFormatEncodingLength ≤ buf.length) :
    PixelFormat.Read (pf.Write buf off bo) off bo = pf := by
  obtain ⟨h1, h2, h3, h4, h5, h6, h7, h8⟩ := hpf
  simp only [PixelFormatEncodingLength] at hlen
  cases pf with
  | mk bpp depth be tc rm gm bm rs gs bs =>
  simp only at h1 h2 h3 h4 h5 h6 h7 h8
  have hbe : ∀ l : List Nat, (if be = true then l.set (off + 2) 1 else l.set (off + 2) 0)
      = l.set (off + 2) (if be = true then 1 else 0) := by intro l; split <;> rfl
  have htc : ∀ l : List Nat, (if tc = true then l.set (off + 3) 1 else l.set (off + 3) 0)
      = l.set (off + 3) (if tc = true then 1 else 0) := by intro l; split <;> rfl
  simp only [PixelFormat.Read, PixelFormat.Write, hbe, htc]
  simp (disch := first | omega | (simp only [length_PutUint16, List.length_set]; omega))
    only [byteAt_set_ne, byteAt_set_eq, byteAt_PutUint16_ne, Uint16_PutUint16,
    Uint16_PutUint16_ne, Uint16_set_ne, List.length_set, length_PutUint16]
  simp only [Nat.mod_eq_of_lt h1, Nat.mod_eq_of_lt h2, Nat.mod_eq_of_lt h6,
    Nat.mod_eq_of_lt h7, Nat.mod_eq_of_lt h8]
  cases be <;> cases tc <;> simp

/-- C8, witness: the round trip of a little-endian 16-bit format through a 16-byte buffer in
little-endian byte order. -/
theorem C8_pixel_format_read_write_witness :
    PixelFormat.Read
      (PixelFormat.Write
        { BitsPerPixel := 16, BitDepth := 16, BigEndian := false, TrueColor := true,
          RedMax := 31, GreenMax := 63, BlueMax := 31,
          RedShift := 11, GreenShift := 5, BlueShift := 0 }
        (List.replicate 16 7) 0 .LittleEndian) 0 .LittleEndian
      = { BitsPerPixel := 16, BitDepth := 16, BigEndian := false, TrueColor := true,
          RedMax := 31, GreenMax := 63, BlueMax := 31,
          RedShift := 11, GreenShift := 5, BlueShift := 0 } :=
  C8_pixel_format_read_write _ (List.replicate 16 7) 0 .LittleEndian (by decide) (by decide)

/-- C9: for every FramebufferUpdateRequest value, every buffer slice of at least 9 bytes and
either byte order, `Read` after `Write` gives back the value, and `Write` keeps the length of
the buffer and every byte outside the first 9 bytes of the slice. -/
theorem C9_update_request_read_write (r : FramebufferUpdateRequest) (buf : List Nat)
    (off : Nat) (bo : ByteOrder) (hr : r.InRange)
    (hlen : off + FramebufferUpdateRequestEncodingLength ≤ buf.length) :
    FramebufferUpdateRequest.Read (r.Write buf off bo) off bo = r ∧
    (r.Write buf off bo).length = buf.length ∧
    ∀ j, j < off ∨ off + FramebufferUpdateRequestEncodingLength ≤ j →
      (r.Write buf off bo)[j]? = buf[j]? := by
  obtain ⟨h1, h2, h3, h4⟩ := hr
  simp only [FramebufferUpdateRequestEncodingLength] at hlen ⊢
  cases r with
  | mk inc x y w h =>
  simp only at h1 h2 h3 h4
  have hinc : ∀ l : List Nat, (if inc = true then l.set off 1 else l.set off 0)
      = l.set off (if inc = true then 1 else 0) := by intro l; split <;> rfl
  simp only [FramebufferUpdateRequest.Read, FramebufferUpdateRequest.Write, hinc]
  refine ⟨?_, by simp [length_PutUint16], ?_⟩
  · simp (disch := first | omega | (simp only [length_PutUint16, List.length_set]; omega))
      only [byteAt_set_ne, byteAt_set_eq, byteAt_PutUint16_ne, Uint16_PutUint16,
      Uint16_PutUint16_ne, Uint16_set_ne, List.length_set, length_PutUint16]
    cases inc <;> simp
  · intro j hj
    rw [getElem?_PutUint16_ne _ _ _ _ _ (by omega), getElem?_PutUint16_ne _ _ _ _ _ (by omega),
      getElem?_PutUint16_ne _ _ _ _ _ (by omega), getElem?_PutUint16_ne _ _ _ _ _ (by omega),
      List.getElem?_set_ne (by omega)]

/-- C9, witness: the round trip of a request through bytes 1 to 9 of a 12-byte buffer, whose
bytes 0, 10 and 11 are kept. -/
theorem C9_update_request_read_write_witness :
    FramebufferUpdateRequest.Read
      (FramebufferUpdateRequest.Write
        { Incremental := true, X := 1, Y := 2, Width := 320, Height := 8 }
        (List.replicate 12 9) 1 .BigEndian) 1 .BigEndian
      = { Incremental := true, X := 1, Y := 2, Width := 320, Height := 8 } ∧
    (FramebufferUpdateRequest.Write
        { Incremental := true, X := 1, Y := 2, Width := 320, Height := 8 }
        (List.replicate 12 9) 1 .BigEndian).length = (List.replicate 12 9).length ∧
    ∀ j, j < 1 ∨ 1 + FramebufferUpdateRequestEncodingLength ≤ j →
      (FramebufferUpdateRequest.Write
        { Incremental := true, X := 1, Y := 2, Width := 320, Height := 8 }
        (List.replicate 12 9) 1 .BigEndian)[j]? = (List.replicate 12 9)[j]? :=
  C9_update_request_read_write _ (List.replicate 12 9) 1 .BigEndian (by decide) (by decide)

/-- C10: for every rectangle with EncodingType 0 whose PixelData has length
(bpp/8)*Width*Height, `FramebufferUpdate.Write` of the one-rectangle update emits the 2-byte
count 1 in the byte order given (00 01 in the big-endian order of the protocol) followed by
12 + len(PixelData) bytes, from which `FramebufferUpdateRect.Read` with the same byte order
and pixel format succeeds, consumes exactly those bytes and recovers the rectangle. -/
theorem C10_update_write_rect_read (rect : FramebufferUpdateRect) (bo : ByteOrder)
    (pf : PixelFormat) (w : List Nat) (hr : rect.InRange) (henc : rect.EncodingType = 0)
    (hlen : rect.PixelData.length = pf.BitsPerPixel / 8 * rect.Width * rect.Height) :
    ∃ body, FramebufferUpdate.Write { Rectangles := [rect] } w bo = w ++ bo.bytes16 1 ++ body ∧
      ByteOrder.BigEndian.bytes16 1 = [0, 1] ∧
      body.length = 12 + rect.PixelData.length ∧
      ∀ rest, FramebufferUpdateRect.Read (body ++ rest) bo pf = .ok (rect, rest) := by
  obtain ⟨h1, h2, h3, h4, h5⟩ := hr
  cases rect with
  | mk x y wd ht enc data =>
  simp only at h1 h2 h3 h4 h5 henc hlen
  subst henc
  refine ⟨FramebufferUpdateRect.wireBytes
    { X := x, Y := y, Width := wd, Height := ht, EncodingType := 0, PixelData := data } bo,
    ?_, by decide, ?_, ?_⟩
  · simp [FramebufferUpdate.Write]
  · simp only [FramebufferUpdateRect.wireBytes, List.length_append, length_wireHeader]
  · intro rest
    simp only [FramebufferUpdateRect.wireBytes, FramebufferUpdateRect.Read, List.append_assoc]
    rw [readFull_append _ _ 12 (length_wireHeader _ _ _ _ _ _)]
    simp (disch := first | omega | (simp only [length_PutUint16, length_PutUint32, List.length_replicate, List.length_cons, List.length_nil]; omega))
      only [Uint16_PutUint32_ne, Uint16_PutUint16_ne, Uint16_PutUint16, Uint32_PutUint32]
    simp only [Nat.zero_mod, ne_eq, not_true_eq_false, if_false]
    rw [readFull_append _ _ _ hlen]

/-- C10, witness: a 2×1 rectangle with 8 bytes of pixel data in the canonical 32-bit
format. -/
theorem C10_update_write_rect_read_witness :
    ∃ body, FramebufferUpdate.Write
        { Rectangles := [{ X := 1, Y := 2, Width := 2, Height := 1, EncodingType := 0,
                           PixelData := [1, 2, 3, 4, 5, 6, 7, 8] }] } [] .BigEndian
        = [] ++ ByteOrder.BigEndian.bytes16 1 ++ body ∧
      ByteOrder.BigEndian.bytes16 1 = [0, 1] ∧
      body.length = 12 + ([1, 2, 3, 4, 5, 6, 7, 8] : List Nat).length ∧
      ∀ rest, FramebufferUpdateRect.Read (body ++ rest) .BigEndian Serve.canonicalPixelFormat
        = .ok ({ X := 1, Y := 2, Width := 2, Height := 1, EncodingType := 0,
                 PixelData := [1, 2, 3, 4, 5, 6, 7, 8] }, rest) :=
  C10_update_write_rect_read
    { X := 1, Y := 2, Width := 2, Height := 1, EncodingType := 0,
      PixelData := [1, 2, 3, 4, 5, 6, 7, 8] }
    .BigEndian Serve.canonicalPixelFormat [] (by decide) rfl (by decide)

end CodecClaims

/-! ## The server sessions: lemmas -/

section ServeLemmas

open Binary Image Rfb Serve

theorem length_copyAt (buf src : List Nat) (off : Nat) (h : off + src.length ≤ buf.length) :
    (copyAt buf off src).length = buf.length := by
  simp only [copyAt, List.length_append, List.length_take, List.length_drop]
  omega

theorem copyAt_zero (buf src : List Nat) (h : src.length ≤ buf.length) :
    copyAt buf 0 src = src ++ buf.drop src.length := by
  simp [copyAt, List.take_of_length_le h]

theorem byteAt_append_left (a b : List Nat) (i : Nat) (h : i < a.length) :
    byteAt (a ++ b) i = byteAt a i := by
  simp [byteAt, List.getD_eq_getElem?_getD, List.getElem?_append_left h]

/-- A successful `Set` changes neither the length of the buffer nor the bounds nor the pixel
format. -/
theorem Set_frame (img img' : PixelFormatImage) (x y : Int) (c : NRGBA)
    (h : img.Set x y c = .ok img') :
    img'.Pix.length = img.Pix.length ∧ img'.Rect = img.Rect ∧
      img'.PixelFormat = img.PixelFormat := by
  unfold PixelFormatImage.Set at h
  split at h
  · exact absurd h (by simp)
  · simp only at h
    split at h
    · split at h
      · cases h; simp
      · exact absurd h (by simp)
    · split at h
      · split at h
        · cases h; simp [length_PutUint16]
        · exact absurd h (by simp)
      · split at h
        · split at h
          · cases h; simp [length_PutUint32]
          · exact absurd h (by simp)
        · exact absurd h (by simp)

/-- A painting that succeeds changes neither the length of the buffer nor the bounds nor the
pixel format. -/
theorem paint_frame (sets : List SetCall) (img img' : PixelFormatImage)
    (h : paint img sets = .ok img') :
    img'.Pix.length = img.Pix.length ∧ img'.Rect = img.Rect ∧
      img'.PixelFormat = img.PixelFormat := by
  induction sets generalizing img with
  | nil =>
    simp only [paint] at h
    cases h
    exact ⟨rfl, rfl, rfl⟩
  | cons s rest ih =>
    simp only [paint] at h
    split at h
    · exact absurd h (by simp)
    · rename_i img1 hset
      obtain ⟨h1, h2, h3⟩ := Set_frame _ _ _ _ _ hset
      obtain ⟨k1, k2, k3⟩ := ih img1 h
      exact ⟨k1.trans h1, k2.trans h2, k3.trans h3⟩

/-- The buffer `NewPixelFormatImage` allocates for the rectangle of an update request. -/
theorem length_requestImage (pf : PixelFormat) (hpf : pf.BitsPerPixel < 256) (x y w h : Nat)
    (hx : x < 65536) (hy : y < 65536) (hw : w < 65536) (hh : h < 65536) :
    NewPixelFormatImage pf (Rect x y (iadd x w) (iadd y h))
      = { Pix := List.replicate (pf.BitsPerPixel / 8 * w * h) 0
          Rect := { Min := { X := x, Y := y }, Max := { X := (x : Int) + w, Y := (y : Int) + h } }
          PixelFormat := pf } := by
  have hn : pf.BitsPerPixel / 8 ≤ 31 := by omega
  have e1 : iadd (x : Int) w = (x : Int) + w := wrapInt_eq _ (by omega) (by omega)
  have e2 : iadd (y : Int) h = (y : Int) + h := wrapInt_eq _ (by omega) (by omega)
  have r : Rect x y ((x : Int) + w) ((y : Int) + h)
      = { Min := { X := x, Y := y }, Max := { X := (x : Int) + w, Y := (y : Int) + h } } := by
    have c1 : ¬ ((x : Int) > (x : Int) + w) := by omega
    have c2 : ¬ ((y : Int) > (y : Int) + h) := by omega
    simp only [Rect, c1, c2, if_false]
  have hnw : pf.BitsPerPixel / 8 * w ≤ 2031585 :=
    le_trans (Nat.mul_le_mul hn (Nat.le_of_lt_succ hw)) (by norm_num)
  have hnwh : pf.BitsPerPixel / 8 * w * h ≤ 133139922975 :=
    le_trans (Nat.mul_le_mul hnw (Nat.le_of_lt_succ hh)) (by norm_num)
  have d1 : isub ((x : Int) + w) x = w := by
    unfold isub
    rw [wrapInt_eq _ (by omega) (by omega)]
    omega
  have d2 : isub ((y : Int) + h) y = h := by
    unfold isub
    rw [wrapInt_eq _ (by omega) (by omega)]
    omega
  have m1 : imul ((pf.BitsPerPixel / 8 : Nat) : Int) (w : Int)
      = ((pf.BitsPerPixel / 8 * w : Nat) : Int) := by
    unfold imul
    rw [← Nat.cast_mul, wrapInt_eq _ (by omega) (by omega)]
  have m2 : imul ((pf.BitsPerPixel / 8 * w : Nat) : Int) (h : Int)
      = ((pf.BitsPerPixel / 8 * w * h : Nat) : Int) := by
    unfold imul
    rw [← Nat.cast_mul, wrapInt_eq _ (by omega) (by omega)]
  simp only [NewPixelFormatImage, e1, e2, r, Rectangle.Dx, Rectangle.Dy, d1, d2, m1, m2,
    Int.toNat_ofNat]

end ServeLemmas

section LoopLemmas
open Binary Image Rfb Serve

theorem readFull_cons1 (a : Nat) (rest : List Nat) :
    readFull (a :: rest) 1 = some ([a], rest) := by
  simp [readFull]

theorem readFull_eq_some_iff (r : List Nat) (n : Nat) (b r' : List Nat) :
    readFull r n = some (b, r') ↔ n ≤ r.length ∧ b = r.take n ∧ r' = r.drop n := by
  unfold readFull
  split
  · simp [*, eq_comm]
  · simp [*]

theorem readFull_length (r : List Nat) (n : Nat) (b r' : List Nat)
    (h : readFull r n = some (b, r')) : r'.length + n = r.length ∧ b.length = n := by
  rw [readFull_eq_some_iff] at h
  obtain ⟨h1, rfl, rfl⟩ := h
  simp
  omega

/-- A turn of the message loop that goes on has read at least one byte. -/
theorem dirgui_step_progress {σ : Type} (updateUI : UpdateUI σ) (s s' : Dirgui.Session σ)
    (conn rest w : List Nat) (h : Dirgui.step updateUI s conn = .ok s' rest w) :
    rest.length < conn.length := by
  unfold Dirgui.step at h
  split at h
  · exact absurd h (by simp)
  · rename_i bytes conn1 h1
    have l1 := (readFull_length _ _ _ _ h1).1
    simp only at h
    repeat' split at h
    all_goals (try cases h)
    all_goals
      simp only [readFull_eq_some_iff] at *
      simp_all only [List.length_drop]
      omega

/-- A turn of the message loop of the GIF viewer that goes on has read at least one
byte. -/
theorem gif_step_progress {σ : Type} (drawFrame : DirguiGif.DrawFrame σ)
    (s s' : DirguiGif.Session σ) (conn rest w : List Nat)
    (h : DirguiGif.step drawFrame s conn = .ok s' rest w) : rest.length < conn.length := by
  unfold DirguiGif.step at h
  split at h
  · exact absurd h (by simp)
  · rename_i bytes conn1 h1
    have l1 := (readFull_length _ _ _ _ h1).1
    simp only at h
    repeat' split at h
    all_goals (try cases h)
    all_goals
      simp only [readFull_eq_some_iff] at *
      simp_all only [List.length_drop]
      omega

/-- The message loop ends when it has more fuel than there are bytes left to read. -/
theorem dirgui_loop_total {σ : Type} (updateUI : UpdateUI σ) (fuel : Nat) :
    ∀ (s : Dirgui.Session σ) (conn : List Nat), conn.length < fuel →
      ∃ exit w, Dirgui.loop updateUI fuel s conn = some (exit, w) := by
  induction fuel with
  | zero => intro s conn h; omega
  | succ n ih =>
    intro s conn h
    simp only [Dirgui.loop]
    cases hstep : Dirgui.step updateUI s conn with
    | fail e w => exact ⟨_, _, rfl⟩
    | abort p w => exact ⟨_, _, rfl⟩
    | ok s' rest w =>
      have hp := dirgui_step_progress updateUI s s' conn rest w hstep
      obtain ⟨exit, w2, h2⟩ := ih s' rest (by omega)
      simp only [h2]
      exact ⟨_, _, rfl⟩

/-- The message loop of the GIF viewer ends when it has more fuel than there are bytes left
to read. -/
theorem gif_loop_total {σ : Type} (drawFrame : DirguiGif.DrawFrame σ) (fuel : Nat) :
    ∀ (s : DirguiGif.Session σ) (conn : List Nat), conn.length < fuel →
      ∃ exit w, DirguiGif.loop drawFrame fuel s conn = some (exit, w) := by
  induction fuel with
  | zero => intro s conn h; omega
  | succ n ih =>
    intro s conn h
    simp only [DirguiGif.loop]
    cases hstep : DirguiGif.step drawFrame s conn with
    | fail e w => exact ⟨_, _, rfl⟩
    | abort p w => exact ⟨_, _, rfl⟩
    | ok s' rest w =>
      have hp := gif_step_progress drawFrame s s' conn rest w hstep
      obtain ⟨exit, w2, h2⟩ := ih s' rest (by omega)
      simp only [h2]
      exact ⟨_, _, rfl⟩

/-- Function `rfbServe` always ends: with an error or a panic, and the bytes written. -/
theorem dirgui_rfbServe_total {σ : Type} (sscanf : Sscanf) (updateUI : UpdateUI σ) (ui : σ)
    (conn : List Nat) : ∃ exit out, Dirgui.rfbServe sscanf updateUI ui conn = some (exit, out) := by
  unfold Dirgui.rfbServe
  simp only
  split
  · exact ⟨_, _, rfl⟩
  · exact ⟨_, _, rfl⟩
  · split
    · exact ⟨_, _, rfl⟩
    · exact ⟨_, _, rfl⟩
    · rename_i conn2 _ _
      obtain ⟨exit, w, h⟩ := dirgui_loop_total updateUI (conn2.length + 1) _ conn2 (by omega)
      rw [h]
      exact ⟨_, _, rfl⟩

/-- When the handshake goes through, `rfbServe` ends having written the bytes of the
handshake first. -/
theorem rfbServe_of_negotiate {σ : Type} (sscanf : Sscanf) (updateUI : UpdateUI σ)
    (ui : σ) (conn : List Nat) (buf rest out : List Nat)
    (h : Dirgui.negotiate sscanf (List.replicate 256 0) conn = .ok buf rest out) :
    ∃ exit tail, Dirgui.rfbServe sscanf updateUI ui conn = some (exit, out ++ tail) := by
  unfold Dirgui.rfbServe
  simp only [h]
  split
  · exact ⟨_, _, rfl⟩
  · exact ⟨_, _, rfl⟩
  · rename_i conn2 out2 _
    obtain ⟨exit, w, h⟩ := dirgui_loop_total updateUI (conn2.length + 1) _ conn2 (by omega)
    rw [h]
    exact ⟨exit, out2 ++ w, by simp only [List.append_assoc]⟩

/-- When the handshake and ServerInit go through, `rfbServe` ends having written their bytes
first. -/
theorem rfbServe_of_serverInit {σ : Type} (sscanf : Sscanf) (updateUI : UpdateUI σ)
    (ui ui' : σ) (conn : List Nat) (buf rest out buf' rest' out' : List Nat)
    (h : Dirgui.negotiate sscanf (List.replicate 256 0) conn = .ok buf rest out)
    (h' : Dirgui.serverInit updateUI buf canonicalPixelFormat { Pressed := false, KeySym := 0 }
      { ButtonMask := 0, X := 0, Y := 0 } ui rest = .ok (buf', ui') rest' out') :
    ∃ exit tail, Dirgui.rfbServe sscanf updateUI ui conn = some (exit, out ++ out' ++ tail) := by
  unfold Dirgui.rfbServe
  simp only [h, h']
  obtain ⟨exit, w, h⟩ := dirgui_loop_total updateUI (rest'.length + 1) _ rest' (by omega)
  rw [h]
  exact ⟨_, _, rfl⟩

end LoopLemmas

section Locality
open Binary Image Rfb Serve

theorem PutUint16_append (bo : ByteOrder) (l r : List Nat) (off v : Nat)
    (h : off + 2 ≤ l.length) : bo.PutUint16 (l ++ r) off v = bo.PutUint16 l off v ++ r := by
  cases bo <;> simp only [ByteOrder.PutUint16] <;>
    rw [List.set_append_left _ _ (by omega), List.set_append_left _ _ (by simp; omega)]

theorem PutUint32_append (bo : ByteOrder) (l r : List Nat) (off v : Nat)
    (h : off + 4 ≤ l.length) : bo.PutUint32 (l ++ r) off v = bo.PutUint32 l off v ++ r := by
  cases bo <;> simp only [ByteOrder.PutUint32] <;>
    rw [List.set_append_left _ _ (by omega), List.set_append_left _ _ (by simp; omega),
      List.set_append_left _ _ (by simp; omega), List.set_append_left _ _ (by simp; omega)]

theorem copyAt_append (l r src : List Nat) (off : Nat) (h : off + src.length ≤ l.length) :
    copyAt (l ++ r) off src = copyAt l off src ++ r := by
  have e1 : src.take ((l ++ r).length - off) = src :=
    List.take_of_length_le (by simp only [List.length_append]; omega)
  have e2 : src.take (l.length - off) = src := List.take_of_length_le (by omega)
  simp only [copyAt, e1, e2]
  rw [List.take_append_of_le_length (by omega), List.drop_append_of_le_length (by omega)]
  simp

theorem PixelFormat_Write_append (pf : PixelFormat) (bo : ByteOrder) (l r : List Nat)
    (off : Nat) (h : off + 13 ≤ l.length) :
    pf.Write (l ++ r) off bo = pf.Write l off bo ++ r := by
  simp only [PixelFormat.Write]
  split <;> split <;>
    simp (disch := first | omega | (simp only [length_PutUint16, List.length_set]; omega)) only
      [List.set_append_left, PutUint16_append]

end Locality

section HandshakeLemmas

open Binary Image Rfb Serve Dirgui

theorem replicate_256 :
    List.replicate 256 (0 : Nat) = List.replicate 30 0 ++ List.replicate 226 0 := by
  rw [← List.replicate_add]

theorem negotiate_38 (sscanf : Sscanf) (r rest : List Nat)
    (hscan : sscanf versionString = some (3, 8)) :
    negotiate sscanf (List.replicate 30 0 ++ r) (versionString ++ 1 :: rest)
      = .ok ([1, 70, 66, 32, 48, 48, 51, 46, 48, 48, 56, 10, 0, 0, 0, 0, 0, 0, 0, 0, 0, 0, 0, 0,
              0, 0, 0, 0, 0, 0] ++ r) rest (versionString ++ [1, 1] ++ [0]) := by
  unfold negotiate
  rw [readFull_append _ _ 12 (by decide)]
  simp only
  rw [copyAt_append _ _ _ _ (by decide), List.take_append_of_le_length (by decide)]
  have e : (copyAt (List.replicate 30 0) 0 versionString).take 12 = versionString := by decide
  rw [e, hscan]
  simp only [readFull_cons1]
  rw [copyAt_append _ _ _ _ (by decide), byteAt_append_left _ _ _ (by decide)]
  have e2 : copyAt (copyAt (List.replicate 30 0) 0 versionString) 0 [1]
      = [1, 70, 66, 32, 48, 48, 51, 46, 48, 48, 56, 10, 0, 0, 0, 0, 0, 0, 0, 0, 0, 0, 0, 0,
              0, 0, 0, 0, 0, 0] := by decide
  rw [e2]
  simp [byteAt]

theorem length_PixelFormat_Write (pf : PixelFormat) (bo : ByteOrder) (l : List Nat) (off : Nat) :
    (pf.Write l off bo).length = l.length := by
  simp only [PixelFormat.Write]
  split <;> split <;> simp [length_PutUint16]

theorem serverInit_block {σ : Type} (updateUI : UpdateUI σ) (ui : σ) (key : KeyEvent)
    (ptr : PointerEvent) (b0 b1 b2 b3 b4 b5 b6 b7 b8 b9 b10 b11 b12 b13 b14 b15 b16 : Nat)
    (r : List Nat) (clientInit : Nat) (rest : List Nat) (p : Painted σ)
    (hui : updateUI ui none key ptr = some p)
    (horigin : p.windowRect.Min = { X := 0, Y := 0 }) :
    ∃ buf', serverInit updateUI
      ([b0, b1, b2, b3, b4, b5, b6, b7, b8, b9, b10, b11, b12, b13, b14, b15, b16, 0, 0, 0,
        0, 0, 0, 0, 0, 0, 0, 0, 0, 0] ++ r) canonicalPixelFormat key ptr ui (clientInit :: rest)
      = .ok (buf', p.state) rest
          (ByteOrder.BigEndian.bytes16 (toUint16 p.windowRect.Dx)
            ++ ByteOrder.BigEndian.bytes16 (toUint16 p.windowRect.Dy)
            ++ [32, 24, 1, 1, 0, 255, 0, 255, 0, 255, 24, 16, 8, 0, 0, 0]
            ++ [0, 0, 0, 6] ++ nameDirgui) := by
  unfold serverInit
  simp only [readFull_cons1, hui, horigin, ne_eq, not_true_eq_false, if_false]
  simp only [Outcome.ok.injEq, Prod.mk.injEq, and_true, true_and, exists_eq_left']
  rw [copyAt_append _ _ _ _ (by simp)]
  simp (disch := first | (simp [length_PutUint16, length_PutUint32, length_copyAt,
      length_PixelFormat_Write, nameDirgui]; done))
    only [PutUint16_append, PutUint32_append, PixelFormat_Write_append, copyAt_append]
  rw [List.take_left' (by simp [length_PutUint16, length_PutUint32, length_copyAt,
      length_PixelFormat_Write, nameDirgui])]
  simp [copyAt, bo, ByteOrder.PutUint16, ByteOrder.PutUint32, PixelFormat.Write,
    canonicalPixelFormat, nameDirgui, ByteOrder.bytes16]

theorem list_of_length_12 (v : List Nat) (h : v.length = 12) :
    ∃ a0 a1 a2 a3 a4 a5 a6 a7 a8 a9 a10 a11 : Nat, v = [a0, a1, a2, a3, a4, a5, a6, a7, a8, a9, a10, a11] := by
  rcases v with _ | ⟨a0, _ | ⟨a1, _ | ⟨a2, _ | ⟨a3, _ | ⟨a4, _ | ⟨a5, _ | ⟨a6, _ | ⟨a7, _ | ⟨a8, _ | ⟨a9, _ | ⟨a10, _ | ⟨a11, _ | ⟨x, t⟩⟩⟩⟩⟩⟩⟩⟩⟩⟩⟩⟩⟩
  all_goals first
    | exact ⟨_, _, _, _, _, _, _, _, _, _, _, _, rfl⟩
    | (simp only [List.length_cons, List.length_nil] at h; omega)

theorem list_of_length_16 (v : List Nat) (h : v.length = 16) :
    ∃ a0 a1 a2 a3 a4 a5 a6 a7 a8 a9 a10 a11 a12 a13 a14 a15 : Nat, v = [a0, a1, a2, a3, a4, a5, a6, a7, a8, a9, a10, a11, a12, a13, a14, a15] := by
  rcases v with _ | ⟨a0, _ | ⟨a1, _ | ⟨a2, _ | ⟨a3, _ | ⟨a4, _ | ⟨a5, _ | ⟨a6, _ | ⟨a7, _ | ⟨a8, _ | ⟨a9, _ | ⟨a10, _ | ⟨a11, _ | ⟨a12, _ | ⟨a13, _ | ⟨a14, _ | ⟨a15, _ | ⟨x, t⟩⟩⟩⟩⟩⟩⟩⟩⟩⟩⟩⟩⟩⟩⟩⟩⟩
  all_goals first
    | exact ⟨_, _, _, _, _, _, _, _, _, _, _, _, _, _, _, _, rfl⟩
    | (simp only [List.length_cons, List.length_nil] at h; omega)

theorem negotiate_33 (sscanf : Sscanf) (r v resp rest : List Nat) (hv : v.length = 12)
    (hscan : sscanf v = some (3, 3)) (hresp : resp.length = 16) :
    ∃ buf, negotiate sscanf (List.replicate 30 0 ++ r) (v ++ resp ++ rest)
      = .ok buf rest
          (versionString ++ ([0, 0, 0, 2] ++ (v.drop 4 ++ List.replicate 8 0)) ++ [0, 0, 0, 0]) := by
  obtain ⟨a0, a1, a2, a3, a4, a5, a6, a7, a8, a9, a10, a11, rfl⟩ := list_of_length_12 v hv
  obtain ⟨c0, c1, c2, c3, c4, c5, c6, c7, c8, c9, c10, c11, c12, c13, c14, c15, rfl⟩ :=
    list_of_length_16 resp hresp
  unfold negotiate
  rw [List.append_assoc, readFull_append _ _ 12 (by simp)]
  simp only
  rw [copyAt_append _ _ _ _ (by simp), List.take_append_of_le_length (by simp [length_copyAt])]
  have e : (copyAt (List.replicate 30 0) 0 [a0, a1, a2, a3, a4, a5, a6, a7, a8, a9, a10, a11]).take
      12 = [a0, a1, a2, a3, a4, a5, a6, a7, a8, a9, a10, a11] := by
    simp [copyAt]
  rw [e, hscan]
  simp only [and_self, if_true]
  rw [readFull_append _ _ 16 (by simp)]
  simp only
  simp (disch := first | (simp [length_PutUint16, length_PutUint32, length_copyAt]; done))
    only [PutUint32_append, copyAt_append]
  rw [List.take_append_of_le_length (by simp [length_PutUint32, length_copyAt]),
    List.take_append_of_le_length (by simp [length_PutUint32, length_copyAt])]
  simp only [Outcome.ok.injEq, and_true, true_and, exists_eq_left']
  simp [copyAt, bo, ByteOrder.PutUint32, versionString]

end HandshakeLemmas

section VersionLemmas

open Binary Image Rfb Serve

/-- The part of `negotiate` up to the decision on the version, for both servers: the error
returned when the version is neither 3.3 nor 3.8. -/
theorem negotiate_rejected (sscanf : Sscanf) (buf v rest : List Nat) (hbuf : 12 ≤ buf.length)
    (hv : v.length = 12) (h33 : sscanf v ≠ some (3, 3)) (h38 : sscanf v ≠ some (3, 8)) :
    ∃ e, (e = .parseProtocolVersion ∨ ∃ major minor, e = .unsupportedVersion major minor) ∧
      Dirgui.negotiate sscanf buf (v ++ rest) = .fail e versionString ∧
      DirguiGif.negotiate sscanf buf (v ++ rest) = .fail e versionString := by
  have e : (copyAt buf 0 v).take 12 = v := by
    rw [copyAt_zero _ _ (by omega), List.take_left' hv]
  unfold Dirgui.negotiate DirguiGif.negotiate
  rw [readFull_append _ _ 12 hv]
  simp only [e]
  cases hs : sscanf v with
  | none => exact ⟨_, Or.inl rfl, rfl, rfl⟩
  | some p =>
    obtain ⟨major, minor⟩ := p
    have n33 : ¬ (major = 3 ∧ minor = 3) := by
      rintro ⟨rfl, rfl⟩
      exact h33 hs
    have n38 : ¬ (major = 3 ∧ minor = 8) := by
      rintro ⟨rfl, rfl⟩
      exact h38 hs
    simp only [n33, n38, if_false]
    exact ⟨_, Or.inr ⟨major, minor, rfl⟩, rfl, rfl⟩

/-- The part of `negotiate` up to the decision on the version, for both servers: the errors
of that part are not returned when the version is 3.3 or 3.8. -/
theorem negotiate_accepted (sscanf : Sscanf) (buf v rest : List Nat) (hbuf : 12 ≤ buf.length)
    (hv : v.length = 12)
    (h : sscanf v = some (3, 3) ∨ sscanf v = some (3, 8)) :
    (∀ e w, Dirgui.negotiate sscanf buf (v ++ rest) = .fail e w →
      e ≠ .readProtocolVersion ∧ e ≠ .parseProtocolVersion ∧
        ∀ major minor, e ≠ .unsupportedVersion major minor) ∧
    (∀ e w, DirguiGif.negotiate sscanf buf (v ++ rest) = .fail e w →
      e ≠ .readProtocolVersion ∧ e ≠ .parseProtocolVersion ∧
        ∀ major minor, e ≠ .unsupportedVersion major minor) := by
  have e : (copyAt buf 0 v).take 12 = v := by
    rw [copyAt_zero _ _ (by omega), List.take_left' hv]
  constructor
  · intro err w hfail
    unfold Dirgui.negotiate at hfail
    rw [readFull_append _ _ 12 hv] at hfail
    simp only [e] at hfail
    rcases h with h | h
    · simp only [h, and_self, if_true] at hfail
      repeat' split at hfail
      all_goals (cases hfail <;> simp)
    · simp only [h] at hfail
      norm_num at hfail
      repeat' split at hfail
      all_goals (cases hfail <;> simp)
  · intro err w hfail
    unfold DirguiGif.negotiate at hfail
    rw [readFull_append _ _ 12 hv] at hfail
    simp only [e] at hfail
    rcases h with h | h
    · simp only [h, and_self, if_true] at hfail
      cases hfail
    · simp only [h] at hfail
      norm_num at hfail
      repeat' split at hfail
      all_goals (cases hfail <;> simp)

end VersionLemmas

section FrameLemmas

open Binary Image Rfb

theorem getElem?_drop_take (l : List Nat) (j n k : Nat) :
    ((l.drop j).take n)[k]? = if k < n then l[j + k]? else none := by
  rw [List.getElem?_take, List.getElem?_drop]

theorem drop_take_congr (l l' : List Nat) (j n : Nat)
    (h : ∀ k, k < n → l'[j + k]? = l[j + k]?) :
    (l'.drop j).take n = (l.drop j).take n := by
  apply List.ext_getElem?
  intro k
  rw [getElem?_drop_take, getElem?_drop_take]
  split
  · exact h k (by assumption)
  · rfl

theorem drop_take_set (l : List Nat) (i v : Nat) (h : i + 1 ≤ l.length) :
    ((l.set i v).drop i).take 1 = [v] := by
  apply List.ext_getElem?
  intro k
  rw [getElem?_drop_take]
  rcases k with _ | k
  · have h' : i < l.length := by omega
    simp [h']
  · simp

theorem drop_take_PutUint16 (bo : ByteOrder) (l : List Nat) (i v : Nat)
    (h : i + 2 ≤ l.length) :
    ((bo.PutUint16 l i v).drop i).take 2 = bo.PutUint16 [0, 0] 0 v := by
  apply List.ext_getElem?
  intro k
  rw [getElem?_drop_take]
  cases bo <;> simp only [ByteOrder.PutUint16] <;>
    rcases k with _ | _ | k <;> simp [List.getElem?_set] <;> omega

theorem drop_take_PutUint32 (bo : ByteOrder) (l : List Nat) (i v : Nat)
    (h : i + 4 ≤ l.length) :
    ((bo.PutUint32 l i v).drop i).take 4 = bo.PutUint32 [0, 0, 0, 0] 0 v := by
  apply List.ext_getElem?
  intro k
  rw [getElem?_drop_take]
  cases bo <;> simp only [ByteOrder.PutUint32] <;>
    rcases k with _ | _ | _ | _ | k <;> simp [List.getElem?_set] <;> omega

end FrameLemmas

section ImageFrame

open Binary Image Rfb

/-- Two different points of the bounds have disjoint byte ranges in the buffer. -/
theorem idx_disjoint (img : PixelFormatImage) (x y x' y' : Int) (hwf : img.WellFormed)
    (hin : (Point.mk x y).In img.Rect) (hin' : (Point.mk x' y').In img.Rect)
    (hn : 1 ≤ img.PixelFormat.BitsPerPixel / 8) (hne : ¬ (x = x' ∧ y = y')) :
    img.idx x y + (img.PixelFormat.BitsPerPixel / 8 : Nat) ≤ img.idx x' y' ∨
    img.idx x' y' + (img.PixelFormat.BitsPerPixel / 8 : Nat) ≤ img.idx x y := by
  rw [(idx_inPix img x y hwf hin hn).1, (idx_inPix img x' y' hwf hin' hn).1]
  obtain ⟨hx1, hx2, hy1, hy2⟩ := hin
  obtain ⟨hx1', hx2', hy1', hy2'⟩ := hin'
  simp only at hx1 hx2 hy1 hy2 hx1' hx2' hy1' hy2'
  generalize (img.PixelFormat.BitsPerPixel / 8 : Nat) = n at *
  generalize img.Rect.Max.X = X1 at *
  generalize img.Rect.Min.X = X0 at *
  generalize img.Rect.Max.Y = Y1 at *
  generalize img.Rect.Min.Y = Y0 at *
  have hn' : (1 : Int) ≤ (n : Int) := by exact_mod_cast hn
  have hD : 0 ≤ (n : Int) * (X1 - X0) := mul_nonneg (by omega) (by omega)
  have ha : (n : Int) * (x - X0 + 1) ≤ (n : Int) * (X1 - X0) :=
    mul_le_mul_of_nonneg_left (by omega) (by omega)
  have ha' : (n : Int) * (x' - X0 + 1) ≤ (n : Int) * (X1 - X0) :=
    mul_le_mul_of_nonneg_left (by omega) (by omega)
  have hz : 0 ≤ (n : Int) * (x - X0) := mul_nonneg (by omega) (by omega)
  have hz' : 0 ≤ (n : Int) * (x' - X0) := mul_nonneg (by omega) (by omega)
  have ea : (n : Int) * (x - X0 + 1) = (n : Int) * (x - X0) + n := by ring
  have ea' : (n : Int) * (x' - X0 + 1) = (n : Int) * (x' - X0) + n := by ring
  rcases lt_trichotomy y y' with hlt | heq | hgt
  · left
    have hb : (n : Int) * (X1 - X0) * (y - Y0 + 1) ≤ (n : Int) * (X1 - X0) * (y' - Y0) :=
      mul_le_mul_of_nonneg_left (by omega) hD
    have eb : (n : Int) * (X1 - X0) * (y - Y0 + 1)
        = (n : Int) * (X1 - X0) * (y - Y0) + (n : Int) * (X1 - X0) := by ring
    omega
  · subst heq
    have hxne : x ≠ x' := fun h => hne ⟨h, rfl⟩
    rcases lt_or_gt_of_ne hxne with hlt | hgt
    · left
      have hc : (n : Int) * (x - X0 + 1) ≤ (n : Int) * (x' - X0) :=
        mul_le_mul_of_nonneg_left (by omega) (by omega)
      omega
    · right
      have hc : (n : Int) * (x' - X0 + 1) ≤ (n : Int) * (x - X0) :=
        mul_le_mul_of_nonneg_left (by omega) (by omega)
      omega
  · right
    have hb : (n : Int) * (X1 - X0) * (y' - Y0 + 1) ≤ (n : Int) * (X1 - X0) * (y - Y0) :=
      mul_le_mul_of_nonneg_left (by omega) hD
    have eb : (n : Int) * (X1 - X0) * (y' - Y0 + 1)
        = (n : Int) * (X1 - X0) * (y' - Y0) + (n : Int) * (X1 - X0) := by ring
    omega

/-- What a call of `Set` at a point of the bounds does to the buffer: the bytes of the pixel
become the encoding of the packed colour and every other byte is kept. -/
theorem Set_ok (img : PixelFormatImage) (x y : Int) (col : NRGBA)
    (hbpp : img.PixelFormat.BitsPerPixel = 8 ∨ img.PixelFormat.BitsPerPixel = 16
      ∨ img.PixelFormat.BitsPerPixel = 32)
    (hr : img.PixelFormat.RedMax = 255) (hg : img.PixelFormat.GreenMax = 255)
    (hb : img.PixelFormat.BlueMax = 255)
    (hwf : img.WellFormed) (hin : (Point.mk x y).In img.Rect) :
    ∃ pix, img.Set x y col = .ok { img with Pix := pix } ∧ pix.length = img.Pix.length ∧
      (pix.drop (img.idx x y).toNat).take (img.PixelFormat.BitsPerPixel / 8)
        = img.PixelFormat.encode (img.PixelFormat.pack col) ∧
      ∀ j, j < (img.idx x y).toNat
          ∨ (img.idx x y).toNat + img.PixelFormat.BitsPerPixel / 8 ≤ j →
        pix[j]? = img.Pix[j]? := by
  rcases hbpp with h8 | h16 | h32
  · obtain ⟨-, hpix⟩ := idx_inPix img x y hwf hin (by simp [h8])
    rw [h8] at hpix
    have hpix' := hpix
    obtain ⟨hi0, hi1⟩ := hpix'
    have hlt : (img.idx x y).toNat + 1 ≤ img.Pix.length := by omega
    refine ⟨img.Pix.set (img.idx x y).toNat (img.PixelFormat.pack col % 256), ?_, by simp,
      ?_, ?_⟩
    · simp [PixelFormatImage.Set, hr, hg, hb, h8, hpix]
    · simp only [h8, PixelFormat.encode, if_true]
      exact drop_take_set _ _ _ hlt
    · intro j hj
      rw [h8] at hj
      exact List.getElem?_set_ne (by omega)
  · obtain ⟨-, hpix⟩ := idx_inPix img x y hwf hin (by simp [h16])
    rw [h16] at hpix
    have hpix' := hpix
    obtain ⟨hi0, hi1⟩ := hpix'
    have hlt : (img.idx x y).toNat + 2 ≤ img.Pix.length := by omega
    refine ⟨img.bo.PutUint16 img.Pix (img.idx x y).toNat (img.PixelFormat.pack col % 65536),
      ?_, by simp [length_PutUint16], ?_, ?_⟩
    · simp [PixelFormatImage.Set, hr, hg, hb, h16, hpix]
    · simp only [h16, PixelFormat.encode]
      norm_num
      exact drop_take_PutUint16 _ _ _ _ hlt
    · intro j hj
      rw [h16] at hj
      exact getElem?_PutUint16_ne _ _ _ _ _ (by omega)
  · obtain ⟨-, hpix⟩ := idx_inPix img x y hwf hin (by simp [h32])
    rw [h32] at hpix
    have hpix' := hpix
    obtain ⟨hi0, hi1⟩ := hpix'
    have hlt : (img.idx x y).toNat + 4 ≤ img.Pix.length := by omega
    refine ⟨img.bo.PutUint32 img.Pix (img.idx x y).toNat (img.PixelFormat.pack col),
      ?_, by simp [length_PutUint32], ?_, ?_⟩
    · simp [PixelFormatImage.Set, hr, hg, hb, h32, hpix]
    · simp only [h32, PixelFormat.encode]
      norm_num
      exact drop_take_PutUint32 _ _ _ _ hlt
    · intro j hj
      rw [h32] at hj
      exact getElem?_PutUint32_ne _ _ _ _ _ (by omega)

/-- After a painting whose calls of `Set` are all on points of the bounds, the bytes of a
pixel are the encoding of the colour of the last call on it, or the bytes it had when no call
was on it. -/
theorem paint_pixelBytes (sets : List Serve.SetCall) :
    ∀ (img img' : PixelFormatImage),
      (img.PixelFormat.BitsPerPixel = 8 ∨ img.PixelFormat.BitsPerPixel = 16
        ∨ img.PixelFormat.BitsPerPixel = 32) →
      img.PixelFormat.RedMax = 255 → img.PixelFormat.GreenMax = 255 →
      img.PixelFormat.BlueMax = 255 → img.WellFormed → Serve.InBounds img sets →
      Serve.paint img sets = .ok img' →
      ∀ px py, (Point.mk px py).In img.Rect →
        img'.pixelBytes px py =
          match Serve.lastSet sets px py with
          | some c => img.PixelFormat.encode (img.PixelFormat.pack c)
          | none => img.pixelBytes px py := by
  induction sets with
  | nil =>
    intro img img' _ _ _ _ _ _ hpaint px py _
    simp only [Serve.paint] at hpaint
    cases hpaint
    simp only [Serve.lastSet]
  | cons s rest ih =>
    intro img img' hbpp hr hg hb hwf hbounds hpaint px py hin
    have hs : (Point.mk s.x s.y).In img.Rect := hbounds s (List.mem_cons_self _ _)
    obtain ⟨pix, hset, hlen, hsame, hother⟩ := Set_ok img s.x s.y s.c hbpp hr hg hb hwf hs
    simp only [Serve.paint, hset] at hpaint
    have hwf1 : PixelFormatImage.WellFormed { img with Pix := pix } := by
      obtain ⟨h1, h2⟩ := hwf
      exact ⟨by simpa only [hlen] using h1, by simpa only [hlen] using h2⟩
    have hb1 : Serve.InBounds { img with Pix := pix } rest :=
      fun t ht => hbounds t (List.mem_cons_of_mem _ ht)
    have key := ih { img with Pix := pix } img' hbpp hr hg hb hwf1 hb1 hpaint px py hin
    rw [key]
    simp only [Serve.lastSet]
    cases hl : Serve.lastSet rest px py with
    | some c => rfl
    | none =>
      simp only
      by_cases hhit : s.x = px ∧ s.y = py
      · obtain ⟨rfl, rfl⟩ := hhit
        simp only [and_self, if_true]
        exact hsame
      · simp only [hhit, if_false]
        have hn : 1 ≤ img.PixelFormat.BitsPerPixel / 8 := by omega
        have hd := idx_disjoint img s.x s.y px py hwf hs hin hn hhit
        have h0 := (idx_inPix img s.x s.y hwf hs hn).2.1
        have h0' := (idx_inPix img px py hwf hin hn).2.1
        show (pix.drop (img.idx px py).toNat).take (img.PixelFormat.BitsPerPixel / 8)
          = (img.Pix.drop (img.idx px py).toNat).take (img.PixelFormat.BitsPerPixel / 8)
        exact drop_take_congr _ _ _ _ (fun k hk => hother _ (by omega))

end ImageFrame

section SessionLemmas

open Binary Image Rfb Serve Dirgui

theorem PixelFormat_Read_inRange (buf : List Nat) (off : Nat) (bo : ByteOrder) :
    (PixelFormat.Read buf off bo).InRange := by
  have hb : ∀ i, byteAt buf i < 256 := fun i => Nat.mod_lt _ (by norm_num)
  have h16 : ∀ i, bo.Uint16 buf i < 65536 := by
    intro i
    have h1 := hb i
    have h2 := hb (i + 1)
    cases bo <;> simp only [ByteOrder.Uint16] <;> omega
  exact ⟨hb _, hb _, h16 _, h16 _, h16 _, hb _, hb _, hb _⟩

/-- The type byte the turn dispatches on is the first byte left on the connection. -/
theorem messageType_eq (buf conn bytes rest : List Nat) (hbuf : 1 ≤ buf.length)
    (h : readFull conn 1 = some (bytes, rest)) :
    byteAt (copyAt buf 0 bytes) 0 = byteAt conn 0 := by
  rw [readFull_eq_some_iff] at h
  obtain ⟨h1, rfl, rfl⟩ := h
  rcases conn with _ | ⟨t, conn⟩
  · simp at h1
  · rw [copyAt_zero _ _ (by simpa using hbuf)]
    simp [byteAt]

/-- A turn of the message loop that goes on keeps the session invariant. -/
theorem step_valid {σ : Type} (updateUI : UpdateUI σ) (s s' : Session σ)
    (conn rest w : List Nat) (hs : s.Valid) (h : step updateUI s conn = .ok s' rest w) :
    s'.Valid := by
  obtain ⟨hbuf, hw, hpf⟩ := hs
  unfold step at h
  split at h
  · cases h
  · rename_i bytes conn1 h1
    have l1 := (readFull_length _ _ _ _ h1).2
    have hb1 : (copyAt s.buf 0 bytes).length = 256 := by
      rw [length_copyAt _ _ _ (by omega)]
      exact hbuf
    simp only at h
    repeat' split at h
    all_goals (try cases h)
    all_goals
      rename_i hrd
      have l2 := (readFull_length _ _ _ _ hrd).2
      refine ⟨?_, by first | rfl | exact hw, ?_⟩
      · simp only [PixelFormatEncodingLength, FramebufferUpdateRequestEncodingLength,
          KeyEventEncodingLength, PointerEventEncodingLength] at l2
        rw [length_copyAt _ _ _ (by omega)]
        all_goals first
          | exact hb1
          | skip
        all_goals
          rename_i heq _ _ _
          have l3 := (readFull_length _ _ _ _ heq).2
          rw [length_copyAt _ _ _ (by omega)]
          exact hb1
      · first
          | exact hpf
          | exact PixelFormat_Read_inRange _ _ _

/-- A turn of the message loop that goes on and does not read message type 0 keeps the
session pixel format. -/
theorem step_keeps_format {σ : Type} (updateUI : UpdateUI σ) (s s' : Session σ)
    (conn rest w : List Nat) (hbuf : s.buf.length = 256) (ht : byteAt conn 0 ≠ 0)
    (h : step updateUI s conn = .ok s' rest w) : s'.pixelFormat = s.pixelFormat := by
  unfold step at h
  split at h
  · cases h
  · rename_i bytes conn1 h1
    simp only [messageType_eq s.buf conn bytes conn1 (by omega) h1, ht, if_false] at h
    repeat' split at h
    all_goals (try cases h)
    all_goals rfl

/-- Turns of the message loop none of which reads message type 0 keep the session invariant
and the session pixel format. -/
theorem turnsKeepingFormat_keeps {σ : Type} (updateUI : UpdateUI σ) (n : Nat) :
    ∀ (s s' : Session σ) (conn rest w : List Nat), s.Valid →
      turnsKeepingFormat updateUI n s conn = some (s', rest, w) →
      s'.Valid ∧ s'.pixelFormat = s.pixelFormat := by
  induction n with
  | zero =>
    intro s s' conn rest w hs h
    simp only [turnsKeepingFormat, Option.some.injEq, Prod.mk.injEq] at h
    obtain ⟨rfl, -, -⟩ := h
    exact ⟨hs, rfl⟩
  | succ n ih =>
    intro s s' conn rest w hs h
    simp only [turnsKeepingFormat] at h
    split at h
    · cases h
    · rename_i ht
      split at h
      · rename_i s1 conn1 w1 hstep
        split at h
        · rename_i s2 conn2 w2 hturns
          simp only [Option.some.injEq, Prod.mk.injEq] at h
          obtain ⟨rfl, -, -⟩ := h
          have hv1 := step_valid updateUI s s1 conn conn1 w1 hs hstep
          have hf1 := step_keeps_format updateUI s s1 conn conn1 w1 hs.1 ht hstep
          obtain ⟨hv2, hf2⟩ := ih s1 s2 conn1 conn2 w2 hv1 hturns
          exact ⟨hv2, hf2.trans hf1⟩
        · cases h
      · cases h

theorem list_of_length_3 (v : List Nat) (h : v.length = 3) :
    ∃ a0 a1 a2 : Nat, v = [a0, a1, a2] := by
  rcases v with _ | ⟨a0, _ | ⟨a1, _ | ⟨a2, _ | ⟨x, t⟩⟩⟩⟩
  all_goals first
    | exact ⟨_, _, _, rfl⟩
    | (simp only [List.length_cons, List.length_nil] at h; omega)

/-- The turn that reads a SetPixelFormat message sets the session pixel format to the
decoding of the 16 format bytes and writes nothing. -/
theorem step_SetPixelFormat {σ : Type} (updateUI : UpdateUI σ) (s : Session σ)
    (pad b conn : List Nat) (hbuf : s.buf.length = 256) (hpad : pad.length = 3)
    (hb : b.length = 16) :
    ∃ buf, step updateUI s (0 :: pad ++ b ++ conn)
      = .ok { s with buf := buf, pixelFormat := PixelFormat.Read b 0 bo } conn [] := by
  obtain ⟨p0, p1, p2, rfl⟩ := list_of_length_3 pad hpad
  obtain ⟨c0, c1, c2, c3, c4, c5, c6, c7, c8, c9, c10, c11, c12, c13, c14, c15, rfl⟩ :=
    list_of_length_16 b hb
  have ht : byteAt (copyAt s.buf 0 [0]) 0 = 0 := by
    rw [copyAt_zero _ _ (by simp [hbuf])]
    simp [byteAt]
  have hrd : readFull ([p0, p1, p2] ++ [c0, c1, c2, c3, c4, c5, c6, c7, c8, c9, c10, c11, c12,
      c13, c14, c15] ++ conn) (3 + PixelFormatEncodingLength)
      = some ([p0, p1, p2, c0, c1, c2, c3, c4, c5, c6, c7, c8, c9, c10, c11, c12,
      c13, c14, c15], conn) := by
    simp [readFull, PixelFormatEncodingLength]
  have hread : PixelFormat.Read (copyAt (copyAt s.buf 0 [0]) 0 [p0, p1, p2, c0, c1, c2, c3, c4,
      c5, c6, c7, c8, c9, c10, c11, c12, c13, c14, c15]) 3 bo
      = PixelFormat.Read [c0, c1, c2, c3, c4, c5, c6, c7, c8, c9, c10, c11, c12,
      c13, c14, c15] 0 bo := by
    rw [copyAt_zero _ _ (by simp [length_copyAt, hbuf])]
    simp [PixelFormat.Read, bo, ByteOrder.Uint16, byteAt]
  refine ⟨copyAt (copyAt s.buf 0 [0]) 0 [p0, p1, p2, c0, c1, c2, c3, c4,
      c5, c6, c7, c8, c9, c10, c11, c12, c13, c14, c15], ?_⟩
  unfold step
  simp only [List.cons_append, List.nil_append, List.append_assoc] at hrd ⊢
  simp only [readFull_cons1, ht, if_true, hrd, hread]

end SessionLemmas

section PaintLemmas

open Binary Image Rfb Serve Dirgui

/-- A call of `Set` that succeeds was made on an image of a supported format. -/
theorem Set_ok_supported (img img' : PixelFormatImage) (x y : Int) (c : NRGBA)
    (h : img.Set x y c = .ok img') :
    (img.PixelFormat.BitsPerPixel = 8 ∨ img.PixelFormat.BitsPerPixel = 16
      ∨ img.PixelFormat.BitsPerPixel = 32) ∧
    img.PixelFormat.RedMax = 255 ∧ img.PixelFormat.GreenMax = 255 ∧
    img.PixelFormat.BlueMax = 255 := by
  unfold PixelFormatImage.Set at h
  split at h
  · cases h
  · rename_i hmax
    have hm : img.PixelFormat.RedMax = 255 ∧ img.PixelFormat.GreenMax = 255 ∧
        img.PixelFormat.BlueMax = 255 := by
      by_contra hc
      apply hmax
      by_cases h1 : img.PixelFormat.RedMax = 255
      · by_cases h2 : img.PixelFormat.GreenMax = 255
        · by_cases h3 : img.PixelFormat.BlueMax = 255
          · exact absurd ⟨h1, h2, h3⟩ hc
          · exact Or.inr (Or.inr h3)
        · exact Or.inr (Or.inl h2)
      · exact Or.inl h1
    refine ⟨?_, hm⟩
    simp only at h
    split at h
    · left; assumption
    · split at h
      · right; left; assumption
      · split at h
        · right; right; assumption
        · cases h

/-- A painting that succeeds and has a call on the pixel was made on an image of a supported
format. -/
theorem paint_supported (sets : List SetCall) (img img' : PixelFormatImage) (px py : Int)
    (c : NRGBA) (h : paint img sets = .ok img') (hl : lastSet sets px py = some c) :
    (img.PixelFormat.BitsPerPixel = 8 ∨ img.PixelFormat.BitsPerPixel = 16
      ∨ img.PixelFormat.BitsPerPixel = 32) ∧
    img.PixelFormat.RedMax = 255 ∧ img.PixelFormat.GreenMax = 255 ∧
    img.PixelFormat.BlueMax = 255 := by
  cases sets with
  | nil => simp [lastSet] at hl
  | cons s rest =>
    simp only [paint] at h
    split at h
    · cases h
    · rename_i img1 hset
      exact Set_ok_supported _ _ _ _ _ hset

/-- The image allocated for an update request has a buffer of the right length. -/
theorem requestImage_wellFormed (pf : PixelFormat) (hpf : pf.BitsPerPixel < 256)
    (x y w h : Nat) (hx : x < 65536) (hy : y < 65536) (hw : w < 65536) (hh : h < 65536) :
    (NewPixelFormatImage pf (Rect x y (iadd x w) (iadd y h))).WellFormed := by
  rw [length_requestImage pf hpf x y w h hx hy hw hh]
  have hn : pf.BitsPerPixel / 8 ≤ 31 := by omega
  have hnw : pf.BitsPerPixel / 8 * w ≤ 2031585 :=
    le_trans (Nat.mul_le_mul hn (Nat.le_of_lt_succ hw)) (by norm_num)
  have hnwh : pf.BitsPerPixel / 8 * w * h ≤ 133139922975 :=
    le_trans (Nat.mul_le_mul hnw (Nat.le_of_lt_succ hh)) (by norm_num)
  constructor
  · simp only [List.length_replicate]
    push_cast
    ring
  · simp only [List.length_replicate]
    omega

end PaintLemmas

section UpdateRequestLemmas

open Binary Image Rfb Serve Dirgui

/-- The turn that reads a FramebufferUpdateRequest whose painting succeeds writes the update
with the one rectangle of the request and the buffer of the painted image. -/
theorem step_updateRequest {σ : Type} (updateUI : UpdateUI σ) (s : Session σ)
    (hs : s.Valid) (inc x y w h : Nat) (hx : x < 65536) (hy : y < 65536) (hw : w < 65536)
    (hh : h < 65536) (rest : List Nat) (painted : Painted σ) (img' : PixelFormatImage)
    (hui : updateUI s.ui (some (NewPixelFormatImage s.pixelFormat
      (Rect x y (iadd x w) (iadd y h)))) s.keyEvent s.pointerEvent = some painted)
    (hpaint : paint (NewPixelFormatImage s.pixelFormat (Rect x y (iadd x w) (iadd y h)))
      painted.sets = .ok img') :
    ∃ s', step updateUI s (3 :: inc :: x / 256 :: x % 256 :: y / 256 :: y % 256 :: w / 256
        :: w % 256 :: h / 256 :: h % 256 :: rest)
      = .ok s' rest ([0, 0, 0, 1, x / 256, x % 256, y / 256, y % 256, w / 256, w % 256,
          h / 256, h % 256, 0, 0, 0, 0] ++ img'.Pix) ∧
      img'.Pix.length = s.pixelFormat.BitsPerPixel / 8 * w * h := by
  obtain ⟨hbuf, hw0, hpf⟩ := hs
  have hreq : FramebufferUpdateRequest.Read
      (copyAt (copyAt s.buf 0 [3]) 0 [inc, x / 256, x % 256, y / 256, y % 256, w / 256,
        w % 256, h / 256, h % 256]) 0 bo
      = { Incremental := inc % 256 != 0, X := x, Y := y, Width := w, Height := h } := by
    rw [copyAt_zero _ _ (by simp [length_copyAt, hbuf])]
    simp only [FramebufferUpdateRequest.Read, bo, ByteOrder.Uint16]
    simp only [byteAt, List.getD_eq_getElem?_getD]
    simp
    omega
  have hlen := (paint_frame _ _ _ hpaint).1
  rw [length_requestImage _ hpf.1 _ _ _ _ hx hy hw hh] at hlen
  simp only [List.length_replicate] at hlen
  refine ⟨{ s with
      buf := copyAt (copyAt s.buf 0 [3]) 0 [inc, x / 256, x % 256, y / 256, y % 256, w / 256,
        w % 256, h / 256, h % 256]
      updateRequest := { Incremental := inc % 256 != 0, X := x, Y := y, Width := w, Height := h }
      update := { Rectangles := [{ X := x, Y := y, Width := w, Height := h, EncodingType := 0,
                                   PixelData := img'.Pix }] }
      w := []
      ui := painted.state }, ?_, hlen⟩
  have ht : byteAt (copyAt s.buf 0 [3]) 0 = 3 := by
    rw [copyAt_zero _ _ (by simp [hbuf])]
    simp [byteAt]
  unfold step
  have hrd : readFull (inc :: x / 256 :: x % 256 :: y / 256 :: y % 256 :: w / 256
        :: w % 256 :: h / 256 :: h % 256 :: rest) FramebufferUpdateRequestEncodingLength
      = some ([inc, x / 256, x % 256, y / 256, y % 256, w / 256, w % 256, h / 256, h % 256],
          rest) := by
    simp [readFull, FramebufferUpdateRequestEncodingLength]
  simp only [readFull_cons1, ht, hrd, hreq, hui, hpaint, hw0]
  simp [FramebufferUpdate.Write, FramebufferUpdateRect.wireBytes, bo, ByteOrder.bytes16,
    ByteOrder.PutUint16, ByteOrder.PutUint32]
  omega

end UpdateRequestLemmas

section EntryLemmas

open Binary Image Rfb Serve Dirgui

/-- The handshake keeps the length of `buf`. -/
theorem negotiate_length (sscanf : Sscanf) (buf conn buf' rest out : List Nat)
    (hbuf : buf.length = 256) (h : negotiate sscanf buf conn = .ok buf' rest out) :
    buf'.length = 256 := by
  unfold negotiate at h
  simp only at h
  repeat' split at h
  all_goals (try cases h)
  all_goals
    simp only [readFull_eq_some_iff] at *
    simp_all [length_PutUint32, length_copyAt]

/-- The ServerInit part keeps the length of `buf`. -/
theorem serverInit_length {σ : Type} (updateUI : UpdateUI σ) (buf : List Nat)
    (pf : PixelFormat) (key : KeyEvent) (ptr : PointerEvent) (ui ui' : σ)
    (conn buf' rest out : List Nat) (hbuf : buf.length = 256)
    (h : serverInit updateUI buf pf key ptr ui conn = .ok (buf', ui') rest out) :
    buf'.length = 256 := by
  unfold serverInit at h
  simp only at h
  repeat' split at h
  all_goals (try cases h)
  all_goals
    simp only [readFull_eq_some_iff] at *
    simp_all [length_PutUint32, length_PutUint16, length_copyAt, length_PixelFormat_Write,
      nameDirgui]

/-- The session with which `rfbServe` enters the message loop satisfies the session
invariant. -/
theorem entry_valid {σ : Type} (sscanf : Sscanf) (updateUI : UpdateUI σ) (ui ui' : σ)
    (conn buf rest out buf' rest' out' : List Nat)
    (h : negotiate sscanf (List.replicate 256 0) conn = .ok buf rest out)
    (h' : serverInit updateUI buf canonicalPixelFormat { Pressed := false, KeySym := 0 }
      { ButtonMask := 0, X := 0, Y := 0 } ui rest = .ok (buf', ui') rest' out') :
    (Session.initial buf' ui').Valid :=
  ⟨serverInit_length updateUI buf _ _ _ ui ui' rest buf' rest' out'
      (negotiate_length sscanf _ conn buf rest out (List.length_replicate _ _) h) h',
    rfl, (by decide : canonicalPixelFormat.InRange)⟩

end EntryLemmas

/-! ## Claims on the server session -/

section ServeClaims

open Binary Image Rfb Serve Dirgui

/-- C2: in the message loop, for every FramebufferUpdateRequest (x,y,w,h) read under a
session pixel format for which the painting succeeds (`updateUI` returns and none of its
calls of `Set` panics), the bytes written in response are exactly: message type 0, one
padding byte, the big-endian rectangle count 1, the header x, y, w, h as big-endian uint16
with encoding type 0, and the buffer of the painted image, which has exactly (bpp/8)*w*h
bytes. -/
theorem C2_update_request_response {σ : Type} (updateUI : UpdateUI σ) (s : Session σ)
    (hs : s.Valid) (inc x y w h : Nat) (hx : x < 65536) (hy : y < 65536) (hw : w < 65536)
    (hh : h < 65536) (rest : List Nat) (painted : Painted σ) (img' : PixelFormatImage)
    (hui : updateUI s.ui (some (NewPixelFormatImage s.pixelFormat
      (Rect x y (iadd x w) (iadd y h)))) s.keyEvent s.pointerEvent = some painted)
    (hpaint : paint (NewPixelFormatImage s.pixelFormat (Rect x y (iadd x w) (iadd y h)))
      painted.sets = .ok img') :
    ∃ s', step updateUI s (3 :: inc :: x / 256 :: x % 256 :: y / 256 :: y % 256 :: w / 256
        :: w % 256 :: h / 256 :: h % 256 :: rest)
      = .ok s' rest ([0, 0, 0, 1, x / 256, x % 256, y / 256, y % 256, w / 256, w % 256,
          h / 256, h % 256, 0, 0, 0, 0] ++ img'.Pix) ∧
      img'.Pix.length = s.pixelFormat.BitsPerPixel / 8 * w * h :=
  step_updateRequest updateUI s hs inc x y w h hx hy hw hh rest painted img' hui hpaint

/-- C2, witness: the update request (0,0,2,1) in the initial session with the example
painter, answered in the canonical big-endian format. -/
theorem C2_update_request_response_witness :
    ∃ s', step examplePainter (Session.initial (List.replicate 256 0) ())
        [3, 0, 0, 0, 0, 0, 0, 2, 0, 1]
      = .ok s' [] ([0, 0, 0, 1, 0, 0, 0, 0, 0, 2, 0, 1, 0, 0, 0, 0]
          ++ [1, 2, 3, 0, 0, 0, 0, 0]) ∧
      ([1, 2, 3, 0, 0, 0, 0, 0] : List Nat).length = 32 / 8 * 2 * 1 :=
  C2_update_request_response examplePainter (Session.initial (List.replicate 256 0) ())
    ⟨List.length_replicate _ _, rfl, by decide⟩ 0 0 0 2 1 (by decide) (by decide) (by decide)
    (by decide) []
    { state := (), windowRect := Rect 0 0 320 8,
      sets := [{ x := 0, y := 0, c := { R := 1, G := 2, B := 3, A := 255 } }] }
    { Pix := [1, 2, 3, 0, 0, 0, 0, 0], Rect := Rect 0 0 2 1,
      PixelFormat := canonicalPixelFormat } rfl (by decide)

/-- C3: when the client sends "RFB 003.008\n", the security type 1 and one ClientInit byte,
and `updateUI` returns a window rectangle with its origin at (0,0), `rfbServe` ends having
written first exactly "RFB 003.008\n", [1, 1], [0] and the 30 bytes of ServerInit: the width
and height of the window rectangle as big-endian uint16, the 16 bytes of the canonical pixel
format with three zero padding bytes, the uint32 name length 6 and "dirgui". -/
theorem C3_handshake_38 {σ : Type} (sscanf : Sscanf) (updateUI : UpdateUI σ) (ui : σ)
    (clientInit : Nat) (rest : List Nat) (p : Painted σ)
    (hscan : sscanf versionString = some (3, 8))
    (hui : updateUI ui none { Pressed := false, KeySym := 0 }
      { ButtonMask := 0, X := 0, Y := 0 } = some p)
    (horigin : p.windowRect.Min = { X := 0, Y := 0 }) :
    ∃ exit tail, rfbServe sscanf updateUI ui (versionString ++ 1 :: clientInit :: rest)
      = some (exit, versionString ++ [1, 1] ++ [0]
          ++ (ByteOrder.BigEndian.bytes16 (toUint16 p.windowRect.Dx)
              ++ ByteOrder.BigEndian.bytes16 (toUint16 p.windowRect.Dy)
              ++ [32, 24, 1, 1, 0, 255, 0, 255, 0, 255, 24, 16, 8, 0, 0, 0]
              ++ [0, 0, 0, 6] ++ nameDirgui)
          ++ tail) := by
  have hneg := negotiate_38 sscanf (List.replicate 226 0) (clientInit :: rest) hscan
  rw [← replicate_256] at hneg
  obtain ⟨buf', hinit⟩ := serverInit_block updateUI ui { Pressed := false, KeySym := 0 }
    { ButtonMask := 0, X := 0, Y := 0 } 1 70 66 32 48 48 51 46 48 48 56 10 0 0 0 0 0
    (List.replicate 226 0) clientInit rest p hui horigin
  exact rfbServe_of_serverInit sscanf updateUI ui _ _ _ _ _ _ _ _ hneg hinit

/-- C3, witness: the 3.8 handshake with the example painter, whose window is 320×8 (width
bytes 1, 64 and height bytes 0, 8), on a stream that ends after ClientInit. -/
theorem C3_handshake_38_witness :
    ∃ exit tail, rfbServe scanVersion examplePainter () (versionString ++ 1 :: 1 :: [])
      = some (exit, versionString ++ [1, 1] ++ [0]
          ++ ([1, 64] ++ [0, 8]
              ++ [32, 24, 1, 1, 0, 255, 0, 255, 0, 255, 24, 16, 8, 0, 0, 0]
              ++ [0, 0, 0, 6] ++ nameDirgui)
          ++ tail) :=
  C3_handshake_38 scanVersion examplePainter () 1 []
    { state := (), windowRect := Rect 0 0 320 8, sets := [] } (by decide) rfl (by decide)

/-- C4: when the client's ProtocolVersion parses as 3.3, `rfbServe` writes after its version
string exactly 20 bytes, the big-endian security type 2 and a 16-byte challenge (bytes 4 to
11 of the client's version string and eight zero bytes), reads the 16 bytes of the response
and writes 00 00 00 00, whatever the 16 bytes of the response are. -/
theorem C4_handshake_33 {σ : Type} (sscanf : Sscanf) (updateUI : UpdateUI σ) (ui : σ)
    (v resp rest : List Nat) (hv : v.length = 12) (hscan : sscanf v = some (3, 3))
    (hresp : resp.length = 16) :
    ∃ buf challenge, challenge = v.drop 4 ++ List.replicate 8 0 ∧ challenge.length = 16 ∧
      negotiate sscanf (List.replicate 256 0) (v ++ resp ++ rest)
        = .ok buf rest (versionString ++ ([0, 0, 0, 2] ++ challenge) ++ [0, 0, 0, 0]) ∧
      ∃ exit tail, rfbServe sscanf updateUI ui (v ++ resp ++ rest)
        = some (exit, versionString ++ ([0, 0, 0, 2] ++ challenge) ++ [0, 0, 0, 0] ++ tail) := by
  obtain ⟨buf, hneg⟩ := negotiate_33 sscanf (List.replicate 226 0) v resp rest hv hscan hresp
  rw [← replicate_256] at hneg
  refine ⟨buf, _, rfl, by simp [hv], hneg, ?_⟩
  exact rfbServe_of_negotiate sscanf updateUI ui _ _ _ _ hneg

/-- C4, witness: the 3.3 handshake with a response of sixteen bytes 7 on a stream that ends
after the response. -/
theorem C4_handshake_33_witness :
    ∃ buf challenge, challenge = versionString33.drop 4 ++ List.replicate 8 0 ∧
      challenge.length = 16 ∧
      negotiate scanVersion (List.replicate 256 0) (versionString33 ++ List.replicate 16 7 ++ [])
        = .ok buf [] (versionString ++ ([0, 0, 0, 2] ++ challenge) ++ [0, 0, 0, 0]) ∧
      ∃ exit tail, rfbServe scanVersion examplePainter ()
          (versionString33 ++ List.replicate 16 7 ++ [])
        = some (exit, versionString ++ ([0, 0, 0, 2] ++ challenge) ++ [0, 0, 0, 0] ++ tail) :=
  C4_handshake_33 scanVersion examplePainter () versionString33 (List.replicate 16 7) []
    (by decide) (by decide) (by decide)

/-- C5: for the 12 bytes `v` read from the client, when Sscanf gives neither (3,3) nor (3,8)
(it fails, or gives another version), `rfbServe` of both servers ends with the error of the
parse or of the unsupported version, having written nothing but its version string; when it
gives (3,3) or (3,8), the errors of this step are not returned. -/
theorem C5_protocol_version {σ τ : Type} (sscanf : Sscanf) (updateUI : UpdateUI σ) (ui : σ)
    (drawFrame : DirguiGif.DrawFrame τ) (rect : Rectangle) (frames : τ) (v rest : List Nat)
    (hv : v.length = 12) :
    (sscanf v ≠ some (3, 3) → sscanf v ≠ some (3, 8) →
      ∃ e, (e = .parseProtocolVersion ∨ ∃ major minor, e = .unsupportedVersion major minor) ∧
        Dirgui.rfbServe sscanf updateUI ui (v ++ rest) = some (.error e, versionString) ∧
        DirguiGif.rfbServe sscanf drawFrame rect frames (v ++ rest)
          = some (.error e, versionString)) ∧
    (sscanf v = some (3, 3) ∨ sscanf v = some (3, 8) →
      (∀ e w, Dirgui.negotiate sscanf (List.replicate 256 0) (v ++ rest) = .fail e w →
        e ≠ .readProtocolVersion ∧ e ≠ .parseProtocolVersion ∧
          ∀ major minor, e ≠ .unsupportedVersion major minor) ∧
      (∀ e w, DirguiGif.negotiate sscanf (List.replicate 256 0) (v ++ rest) = .fail e w →
        e ≠ .readProtocolVersion ∧ e ≠ .parseProtocolVersion ∧
          ∀ major minor, e ≠ .unsupportedVersion major minor)) := by
  have hbuf : 12 ≤ (List.replicate 256 (0 : Nat)).length := by
    rw [List.length_replicate]
    omega
  refine ⟨fun h33 h38 => ?_, fun h => negotiate_accepted sscanf _ v rest hbuf hv h⟩
  obtain ⟨e, he, h1, h2⟩ := negotiate_rejected sscanf _ v rest hbuf hv h33 h38
  refine ⟨e, he, ?_, ?_⟩
  · simp only [Dirgui.rfbServe, h1]
  · simp only [DirguiGif.rfbServe, h2]

/-- C5, witness: the client version "RFB 003.007\n" is rejected by both servers with the
error of the unsupported version, and they have then written their version string only. -/
theorem C5_protocol_version_witness :
    ∃ e, (e = .parseProtocolVersion ∨ ∃ major minor, e = .unsupportedVersion major minor) ∧
      Dirgui.rfbServe scanVersion examplePainter ()
          ([82, 70, 66, 32, 48, 48, 51, 46, 48, 48, 55, 10] ++ [1, 2, 3])
        = some (.error e, versionString) ∧
      DirguiGif.rfbServe scanVersion DirguiGif.exampleFrame (Rect 0 0 100 50) ()
          ([82, 70, 66, 32, 48, 48, 51, 46, 48, 48, 55, 10] ++ [1, 2, 3])
        = some (.error e, versionString) :=
  (C5_protocol_version scanVersion examplePainter () DirguiGif.exampleFrame (Rect 0 0 100 50)
    () [82, 70, 66, 32, 48, 48, 51, 46, 48, 48, 55, 10] [1, 2, 3] (by decide)).1
    (by decide) (by decide)

/-- C6: in the message loop of both servers, a message-type byte other than 0, 2, 3, 4, 5, 6
makes the turn return the error for an unrecognized message, which ends `rfbServe`, with no
byte written; for each of those six values the turn does not return that error. -/
theorem C6_unrecognized_message {σ τ : Type} (updateUI : UpdateUI σ)
    (drawFrame : DirguiGif.DrawFrame τ) (s : Dirgui.Session σ) (g : DirguiGif.Session τ)
    (t : Nat) (rest : List Nat) (hs : s.buf.length = 256) (hg : g.buf.length = 256)
    (ht : t < 256) :
    (t ≠ 0 → t ≠ 2 → t ≠ 3 → t ≠ 4 → t ≠ 5 → t ≠ 6 →
      Dirgui.step updateUI s (t :: rest) = .fail (.unrecognizedMessage t) [] ∧
      DirguiGif.step drawFrame g (t :: rest) = .fail (.unrecognizedMessage t) [] ∧
      (∀ fuel, Dirgui.loop updateUI (fuel + 1) s (t :: rest)
        = some (.error (.unrecognizedMessage t), [])) ∧
      (∀ fuel, DirguiGif.loop drawFrame (fuel + 1) g (t :: rest)
        = some (.error (.unrecognizedMessage t), []))) ∧
    (t = 0 ∨ t = 2 ∨ t = 3 ∨ t = 4 ∨ t = 5 ∨ t = 6 →
      (∀ m w, Dirgui.step updateUI s (t :: rest) ≠ .fail (.unrecognizedMessage m) w) ∧
      (∀ m w, DirguiGif.step drawFrame g (t :: rest) ≠ .fail (.unrecognizedMessage m) w)) := by
  have e1 : byteAt (copyAt s.buf 0 [t]) 0 = t := by
    rw [copyAt_zero _ _ (by simp [hs])]
    simp [byteAt, Nat.mod_eq_of_lt ht]
  have e2 : byteAt (copyAt g.buf 0 [t]) 0 = t := by
    rw [copyAt_zero _ _ (by simp [hg])]
    simp [byteAt, Nat.mod_eq_of_lt ht]
  constructor
  · intro h0 h2 h3 h4 h5 h6
    have k1 : Dirgui.step updateUI s (t :: rest) = .fail (.unrecognizedMessage t) [] := by
      unfold Dirgui.step
      simp only [readFull_cons1, e1, h0, h2, h3, h4, h5, h6, if_false]
    have k2 : DirguiGif.step drawFrame g (t :: rest) = .fail (.unrecognizedMessage t) [] := by
      unfold DirguiGif.step
      simp only [readFull_cons1, e2, h0, h2, h3, h4, h5, h6, if_false]
    refine ⟨k1, k2, fun fuel => ?_, fun fuel => ?_⟩
    · simp only [Dirgui.loop, k1]
    · simp only [DirguiGif.loop, k2]
  · intro h
    constructor
    · intro m w hfail
      unfold Dirgui.step at hfail
      simp only [readFull_cons1, e1] at hfail
      rcases h with h | h | h | h | h | h <;> subst h <;> norm_num at hfail <;>
        (repeat' split at hfail) <;> cases hfail
    · intro m w hfail
      unfold DirguiGif.step at hfail
      simp only [readFull_cons1, e2] at hfail
      rcases h with h | h | h | h | h | h <;> subst h <;> norm_num at hfail <;>
        (repeat' split at hfail) <;> cases hfail

/-- C6, witness: the message type 99 of the protocol-violation scenario, in the initial
sessions of both servers. -/
theorem C6_unrecognized_message_witness :
    Dirgui.step examplePainter (Dirgui.Session.initial (List.replicate 256 0) ()) (99 :: [])
      = .fail (.unrecognizedMessage 99) [] ∧
    DirguiGif.step DirguiGif.exampleFrame (DirguiGif.Session.initial (List.replicate 256 0) ())
        (99 :: []) = .fail (.unrecognizedMessage 99) [] ∧
    (∀ fuel, Dirgui.loop examplePainter (fuel + 1)
        (Dirgui.Session.initial (List.replicate 256 0) ()) (99 :: [])
      = some (.error (.unrecognizedMessage 99), [])) ∧
    (∀ fuel, DirguiGif.loop DirguiGif.exampleFrame (fuel + 1)
        (DirguiGif.Session.initial (List.replicate 256 0) ()) (99 :: [])
      = some (.error (.unrecognizedMessage 99), [])) :=
  (C6_unrecognized_message examplePainter DirguiGif.exampleFrame
    (Dirgui.Session.initial (List.replicate 256 0) ())
    (DirguiGif.Session.initial (List.replicate 256 0) ()) 99 []
    (List.length_replicate _ _) (List.length_replicate _ _) (by decide)).1
    (by decide) (by decide) (by decide) (by decide) (by decide) (by decide)

section FormatLemmas

open Binary Image Rfb Serve Dirgui

/-- The decoding `PixelFormat.Read` gives for 16 bytes is the pixel format the specification
reads from them. -/
theorem Read_specPixelFormat (bpp depth be tc r1 r0 g1 g0 b1 b0 rs gs bs q0 q1 q2 : Nat)
    (hbytes : ∀ v ∈ [bpp, depth, be, tc, r1, r0, g1, g0, b1, b0, rs, gs, bs, q0, q1, q2],
      v < 256) :
    PixelFormat.Read [bpp, depth, be, tc, r1, r0, g1, g0, b1, b0, rs, gs, bs, q0, q1, q2] 0 bo
      = specPixelFormat bpp depth be tc r1 r0 g1 g0 b1 b0 rs gs bs := by
  simp only [List.mem_cons, List.mem_singleton, forall_eq_or_imp, forall_eq,
    List.not_mem_nil, false_implies, implies_true, and_true] at hbytes
  obtain ⟨h0, h1, h2, h3, h4, h5, h6, h7, h8, h9, h10, h11, h12, -⟩ := hbytes
  simp only [PixelFormat.Read, specPixelFormat, byteAt, ByteOrder.Uint16, bo,
    List.getD_cons_zero, List.getD_cons_succ, zero_add, Nat.reduceAdd,
    Nat.mod_eq_of_lt h0, Nat.mod_eq_of_lt h1, Nat.mod_eq_of_lt h2, Nat.mod_eq_of_lt h3,
    Nat.mod_eq_of_lt h4, Nat.mod_eq_of_lt h5, Nat.mod_eq_of_lt h6, Nat.mod_eq_of_lt h7,
    Nat.mod_eq_of_lt h8, Nat.mod_eq_of_lt h9, Nat.mod_eq_of_lt h10, Nat.mod_eq_of_lt h11,
    Nat.mod_eq_of_lt h12]
  congr 1 <;> omega

/-- The bytes `Set` writes for a pixel value with 32 bits per pixel: the four bytes of the
value, the least significant first in a little-endian format and last in a big-endian
one. -/
theorem encode_32 (pf : PixelFormat) (v : Nat) (h32 : pf.BitsPerPixel = 32) :
    (pf.BigEndian = false →
      pf.encode v = [v % 256, v / 256 % 256, v / 65536 % 256, v / 16777216 % 256]) ∧
    (pf.BigEndian = true →
      pf.encode v = [v / 16777216 % 256, v / 65536 % 256, v / 256 % 256, v % 256]) := by
  constructor
  · intro hbe
    simp [PixelFormat.encode, h32, hbe, ByteOrder.PutUint32]
  · intro hbe
    simp [PixelFormat.encode, h32, hbe, ByteOrder.PutUint32]

end FormatLemmas

/-- The turn that reads a SetPixelFormat message (type 0, 3 padding bytes, 16 format
bytes `b`) sets the session pixel format to the decoding of `b`, keeps the other session
variables and writes nothing; after any number of further turns that read no SetPixelFormat,
a FramebufferUpdateRequest (x,y,w,h) whose painting succeeds is answered by the update whose
payload is the buffer of the image painted in that format: it has (bpp/8)*w*h bytes, and when
the calls of `Set` are all on points of the rectangle, the bytes of every pixel with a call
on it are the colour of the last such call packed by the shifts of the new format, in its
byte order. -/
theorem setPixelFormat_then_update {σ : Type} (updateUI : UpdateUI σ) (s0 : Session σ)
    (hs0 : s0.Valid) (pad b conn1 : List Nat) (hpad : pad.length = 3) (hb : b.length = 16) :
    ∃ buf1, step updateUI s0 (0 :: pad ++ b ++ conn1)
        = .ok { s0 with buf := buf1, pixelFormat := PixelFormat.Read b 0 bo } conn1 [] ∧
      ∀ (n : Nat) (s2 : Session σ) (w2 : List Nat) (inc x y w h : Nat) (rest : List Nat)
        (painted : Painted σ) (img' : PixelFormatImage),
        x < 65536 → y < 65536 → w < 65536 → h < 65536 →
        turnsKeepingFormat updateUI n
            { s0 with buf := buf1, pixelFormat := PixelFormat.Read b 0 bo } conn1
          = some (s2, 3 :: inc :: x / 256 :: x % 256 :: y / 256 :: y % 256 :: w / 256
              :: w % 256 :: h / 256 :: h % 256 :: rest, w2) →
        updateUI s2.ui (some (NewPixelFormatImage (PixelFormat.Read b 0 bo)
          (Rect x y (iadd x w) (iadd y h)))) s2.keyEvent s2.pointerEvent = some painted →
        paint (NewPixelFormatImage (PixelFormat.Read b 0 bo) (Rect x y (iadd x w) (iadd y h)))
          painted.sets = .ok img' →
        (∃ s3, step updateUI s2 (3 :: inc :: x / 256 :: x % 256 :: y / 256 :: y % 256
              :: w / 256 :: w % 256 :: h / 256 :: h % 256 :: rest)
            = .ok s3 rest ([0, 0, 0, 1, x / 256, x % 256, y / 256, y % 256, w / 256, w % 256,
                h / 256, h % 256, 0, 0, 0, 0] ++ img'.Pix)) ∧
        img'.PixelFormat = PixelFormat.Read b 0 bo ∧
        img'.Pix.length = (PixelFormat.Read b 0 bo).BitsPerPixel / 8 * w * h ∧
        (InBounds (NewPixelFormatImage (PixelFormat.Read b 0 bo)
              (Rect x y (iadd x w) (iadd y h))) painted.sets →
          ∀ (px py : Int) (c : NRGBA),
            (Point.mk px py).In (Rect x y (iadd x w) (iadd y h)) →
            lastSet painted.sets px py = some c →
            img'.pixelBytes px py
              = (PixelFormat.Read b 0 bo).encode ((PixelFormat.Read b 0 bo).pack c)) := by
  obtain ⟨buf1, hstep1⟩ := step_SetPixelFormat updateUI s0 pad b conn1 hs0.1 hpad hb
  have hv1 : Session.Valid { s0 with buf := buf1, pixelFormat := PixelFormat.Read b 0 bo } :=
    step_valid updateUI s0 _ _ _ _ hs0 hstep1
  refine ⟨buf1, hstep1, ?_⟩
  intro n s2 w2 inc x y w h rest painted img' hx hy hw hh hturns hui hpaint
  obtain ⟨hv2, hf2⟩ := turnsKeepingFormat_keeps updateUI n _ s2 conn1 _ w2 hv1 hturns
  simp only at hf2
  rw [← hf2] at hui hpaint ⊢
  obtain ⟨s3, hstep3, hlen⟩ := step_updateRequest updateUI s2 hv2 inc x y w h hx hy
    hw hh rest painted img' hui hpaint
  obtain ⟨-, hrect, hfmt⟩ := paint_frame _ _ _ hpaint
  refine ⟨⟨s3, hstep3⟩, hfmt, hlen, ?_⟩
  intro hbounds px py c hin hlast
  obtain ⟨hbpp, hr, hg, hbl⟩ := paint_supported _ _ _ px py c hpaint hlast
  have hwf := requestImage_wellFormed s2.pixelFormat hv2.2.2.1 x y w h hx hy hw hh
  have key := paint_pixelBytes _ _ _ hbpp hr hg hbl hwf hbounds hpaint px py hin
  rw [hlast] at key
  exact key

/-- C7: the turn that reads a SetPixelFormat message (type 0, 3 padding bytes, 16 format
bytes) sets the session pixel format to the format `pf` the specification reads from those
bytes (bits per pixel, depth, the two flags, the three maxima as big-endian `u16`, the three
shifts), keeps the other session variables and writes nothing; after any number of further
turns that read no SetPixelFormat, a FramebufferUpdateRequest (x,y,w,h) whose painting
succeeds is answered by the update whose payload is the buffer of the image painted in the
format `pf`: it has (bpp/8)*w*h bytes, and when the calls of `Set` are all on points of the
rectangle, the bytes of every pixel with a call on it are the colour of the last such call
packed by the shifts of `pf`, in the byte order of `pf`; with 32 bits per pixel they are the
four bytes of the packed value, the least significant first when `pf` is little-endian and
last when it is big-endian. -/
theorem C7_set_pixel_format {σ : Type} (updateUI : UpdateUI σ) (s0 : Session σ)
    (hs0 : s0.Valid) (pad conn1 : List Nat) (hpad : pad.length = 3)
    (bpp depth be tc r1 r0 g1 g0 b1 b0 rs gs bs q0 q1 q2 : Nat)
    (hbytes : ∀ v ∈ [bpp, depth, be, tc, r1, r0, g1, g0, b1, b0, rs, gs, bs, q0, q1, q2],
      v < 256)
    (pf : PixelFormat)
    (hpf : pf = specPixelFormat bpp depth be tc r1 r0 g1 g0 b1 b0 rs gs bs) :
    ∃ buf1, step updateUI s0 (0 :: pad
          ++ [bpp, depth, be, tc, r1, r0, g1, g0, b1, b0, rs, gs, bs, q0, q1, q2] ++ conn1)
        = .ok { s0 with buf := buf1, pixelFormat := pf } conn1 [] ∧
      ∀ (n : Nat) (s2 : Session σ) (w2 : List Nat) (inc x y w h : Nat) (rest : List Nat)
        (painted : Painted σ) (img' : PixelFormatImage),
        x < 65536 → y < 65536 → w < 65536 → h < 65536 →
        turnsKeepingFormat updateUI n { s0 with buf := buf1, pixelFormat := pf } conn1
          = some (s2, 3 :: inc :: x / 256 :: x % 256 :: y / 256 :: y % 256 :: w / 256
              :: w % 256 :: h / 256 :: h % 256 :: rest, w2) →
        updateUI s2.ui (some (NewPixelFormatImage pf (Rect x y (iadd x w) (iadd y h))))
          s2.keyEvent s2.pointerEvent = some painted →
        paint (NewPixelFormatImage pf (Rect x y (iadd x w) (iadd y h))) painted.sets
          = .ok img' →
        (∃ s3, step updateUI s2 (3 :: inc :: x / 256 :: x % 256 :: y / 256 :: y % 256
              :: w / 256 :: w % 256 :: h / 256 :: h % 256 :: rest)
            = .ok s3 rest ([0, 0, 0, 1, x / 256, x % 256, y / 256, y % 256, w / 256, w % 256,
                h / 256, h % 256, 0, 0, 0, 0] ++ img'.Pix)) ∧
        img'.PixelFormat = pf ∧
        img'.Pix.length = pf.BitsPerPixel / 8 * w * h ∧
        (InBounds (NewPixelFormatImage pf (Rect x y (iadd x w) (iadd y h))) painted.sets →
          ∀ (px py : Int) (c : NRGBA),
            (Point.mk px py).In (Rect x y (iadd x w) (iadd y h)) →
            lastSet painted.sets px py = some c →
            img'.pixelBytes px py = pf.encode (pf.pack c) ∧
            (pf.BitsPerPixel = 32 → pf.BigEndian = false →
              img'.pixelBytes px py = [pf.pack c % 256, pf.pack c / 256 % 256,
                pf.pack c / 65536 % 256, pf.pack c / 16777216 % 256]) ∧
            (pf.BitsPerPixel = 32 → pf.BigEndian = true →
              img'.pixelBytes px py = [pf.pack c / 16777216 % 256, pf.pack c / 65536 % 256,
                pf.pack c / 256 % 256, pf.pack c % 256])) := by
  have hread := Read_specPixelFormat bpp depth be tc r1 r0 g1 g0 b1 b0 rs gs bs q0 q1 q2 hbytes
  rw [← hpf] at hread
  have h := setPixelFormat_then_update updateUI s0 hs0 pad
    [bpp, depth, be, tc, r1, r0, g1, g0, b1, b0, rs, gs, bs, q0, q1, q2] conn1 hpad rfl
  rw [hread] at h
  obtain ⟨buf1, h1, hall⟩ := h
  refine ⟨buf1, h1, ?_⟩
  intro n s2 w2 inc x y w h rest painted img' hx hy hw hh hturns hui hpaint
  obtain ⟨hstep, hfmt, hlen, hpix⟩ := hall n s2 w2 inc x y w h rest painted img' hx hy hw hh
    hturns hui hpaint
  refine ⟨hstep, hfmt, hlen, ?_⟩
  intro hbounds px py c hin hlast
  have key := hpix hbounds px py c hin hlast
  refine ⟨key, ?_, ?_⟩
  · intro h32 hle
    rw [key]
    exact (encode_32 pf _ h32).1 hle
  · intro h32 hbe
    rw [key]
    exact (encode_32 pf _ h32).2 hbe

/-- C7, witness: in the initial session a SetPixelFormat to bpp 32, little-endian, maxes 255
with the canonical shifts 24/16/8, followed at once by the update request (0,0,2,1): the
payload holds the colour (1,2,3) the example painter sets on the pixel (0,0) as the bytes
0, 3, 2, 1, the packed value 0x01020300 with its least significant byte first (in the
canonical big-endian format they would be 1, 2, 3, 0). -/
theorem C7_set_pixel_format_witness :
    ∃ buf1 s3,
      step examplePainter (Session.initial (List.replicate 256 0) ())
          (0 :: [0, 0, 0] ++ [32, 24, 0, 1, 0, 255, 0, 255, 0, 255, 24, 16, 8, 0, 0, 0]
            ++ [3, 0, 0, 0, 0, 0, 0, 2, 0, 1])
        = .ok { Session.initial (List.replicate 256 0) () with
                buf := buf1
                pixelFormat :=
                  { BitsPerPixel := 32, BitDepth := 24, BigEndian := false,
                    TrueColor := true, RedMax := 255, GreenMax := 255, BlueMax := 255,
                    RedShift := 24, GreenShift := 16, BlueShift := 8 } }
            [3, 0, 0, 0, 0, 0, 0, 2, 0, 1] [] ∧
      step examplePainter
          { Session.initial (List.replicate 256 0) () with
            buf := buf1
            pixelFormat :=
              { BitsPerPixel := 32, BitDepth := 24, BigEndian := false,
                TrueColor := true, RedMax := 255, GreenMax := 255, BlueMax := 255,
                RedShift := 24, GreenShift := 16, BlueShift := 8 } }
          [3, 0, 0, 0, 0, 0, 0, 2, 0, 1]
        = .ok s3 [] ([0, 0, 0, 1, 0, 0, 0, 0, 0, 2, 0, 1, 0, 0, 0, 0]
            ++ [0, 3, 2, 1, 0, 0, 0, 0]) ∧
      PixelFormatImage.pixelBytes
          { Pix := [0, 3, 2, 1, 0, 0, 0, 0], Rect := Rect 0 0 2 1,
            PixelFormat :=
              { BitsPerPixel := 32, BitDepth := 24, BigEndian := false,
                TrueColor := true, RedMax := 255, GreenMax := 255, BlueMax := 255,
                RedShift := 24, GreenShift := 16, BlueShift := 8 } } 0 0
        = [0, 3, 2, 1] := by
  obtain ⟨buf1, h1, hall⟩ := C7_set_pixel_format examplePainter
    (Session.initial (List.replicate 256 0) ()) ⟨List.length_replicate _ _, rfl, by decide⟩
    [0, 0, 0] [3, 0, 0, 0, 0, 0, 0, 2, 0, 1] (by decide)
    32 24 0 1 0 255 0 255 0 255 24 16 8 0 0 0 (by decide)
    { BitsPerPixel := 32, BitDepth := 24, BigEndian := false, TrueColor := true,
      RedMax := 255, GreenMax := 255, BlueMax := 255, RedShift := 24, GreenShift := 16,
      BlueShift := 8 } (by decide)
  obtain ⟨⟨s3, h3⟩, -, -, hpix⟩ := hall 0 _ [] 0 0 0 2 1 []
    { state := (), windowRect := Rect 0 0 320 8,
      sets := [{ x := 0, y := 0, c := { R := 1, G := 2, B := 3, A := 255 } }] }
    { Pix := [0, 3, 2, 1, 0, 0, 0, 0], Rect := Rect 0 0 2 1,
      PixelFormat :=
        { BitsPerPixel := 32, BitDepth := 24, BigEndian := false, TrueColor := true,
          RedMax := 255, GreenMax := 255, BlueMax := 255, RedShift := 24, GreenShift := 16,
          BlueShift := 8 } }
    (by decide) (by decide) (by decide) (by decide) rfl rfl rfl
  exact ⟨buf1, s3, h1, h3, ((hpix (by decide) 0 0 { R := 1, G := 2, B := 3, A := 255 }
    (by decide) (by decide)).2.1 rfl rfl).trans (by decide)⟩

end ServeClaims

section UiLemmas

open Binary Image Rfb Serve Ui

/-- The value `button` returns and the state it leaves. -/
theorem button_eq (state : ButtonState) (rect : Rectangle) (e : PointerEvent) :
    (button state rect e).2 = (state.clicking && !buttonDown e && hovering rect e) ∧
    (button state rect e).1.clicking
      = (buttonDown e && (state.clicking || hovering rect e)) := by
  unfold button
  rcases state with ⟨c⟩
  cases c <;> cases hd : buttonDown e <;> cases hh : hovering rect e <;> simp [hd, hh]

/-- One value is returned for each sample of a trace. -/
theorem length_clicks (rect : Rectangle) (samples : List PointerEvent) :
    ∀ state : ButtonState, (clicks rect state samples).length = samples.length := by
  induction samples with
  | nil => intro _; rfl
  | cons a t ih => intro s; simp only [clicks, List.length_cons, ih]

/-- The clicks of a trace from any state of the button: a click is returned at the sample
`n` exactly when the pointer is on the button with the button up, and either the state was
`clicking` at the start and the button was down at every sample before `n`, or a sample
before `n` had the pointer on the button with the button down and the button was down at
every sample between the two. -/
theorem clicks_iff (rect : Rectangle) (samples : List PointerEvent) :
    ∀ (state : ButtonState) (n : Nat) (e : PointerEvent), samples[n]? = some e →
      ((clicks rect state samples)[n]? = some true ↔
        hovering rect e = true ∧ buttonDown e = false ∧
        ((state.clicking = true ∧
            ∀ k ek, k < n → samples[k]? = some ek → buttonDown ek = true) ∨
          ∃ m em, m < n ∧ samples[m]? = some em ∧ hovering rect em = true ∧
            buttonDown em = true ∧
            ∀ k ek, m < k → k < n → samples[k]? = some ek → buttonDown ek = true)) := by
  induction samples with
  | nil => intro state n e h; simp at h
  | cons e0 t ih =>
    intro state n e h
    cases n with
    | zero =>
      simp only [List.getElem?_cons_zero, Option.some.injEq] at h
      subst h
      simp only [clicks, List.getElem?_cons_zero, Option.some.injEq, (button_eq state rect e0).1]
      rcases state with ⟨c⟩
      cases c <;> cases buttonDown e0 <;> cases hovering rect e0 <;> simp
    | succ n =>
      simp only [List.getElem?_cons_succ] at h
      simp only [clicks, List.getElem?_cons_succ]
      rw [ih _ n e h, (button_eq state rect e0).2]
      apply and_congr_right; intro hH
      apply and_congr_right; intro hD
      constructor
      · rintro (⟨hc, hall⟩ | ⟨m, em, hm, hem, hHm, hDm, hall⟩)
        · simp only [Bool.and_eq_true, Bool.or_eq_true] at hc
          obtain ⟨hd0, hc | hh0⟩ := hc
          · left
            refine ⟨hc, ?_⟩
            intro k ek hk hek
            cases k with
            | zero =>
              simp only [List.getElem?_cons_zero, Option.some.injEq] at hek
              subst hek; exact hd0
            | succ k =>
              simp only [List.getElem?_cons_succ] at hek
              exact hall k ek (by omega) hek
          · right
            refine ⟨0, e0, by omega, by simp, hh0, hd0, ?_⟩
            intro k ek hk1 hk2 hek
            cases k with
            | zero => omega
            | succ k =>
              simp only [List.getElem?_cons_succ] at hek
              exact hall k ek (by omega) hek
        · right
          refine ⟨m + 1, em, by omega, by simpa using hem, hHm, hDm, ?_⟩
          intro k ek hk1 hk2 hek
          cases k with
          | zero => omega
          | succ k =>
            simp only [List.getElem?_cons_succ] at hek
            exact hall k ek (by omega) (by omega) hek
      · rintro (⟨hc, hall⟩ | ⟨m, em, hm, hem, hHm, hDm, hall⟩)
        · left
          have hd0 := hall 0 e0 (by omega) (by simp)
          refine ⟨by simp [hd0, hc], ?_⟩
          intro k ek hk hek
          exact hall (k + 1) ek (by omega) (by simpa using hek)
        · cases m with
          | zero =>
            simp only [List.getElem?_cons_zero, Option.some.injEq] at hem
            subst hem
            left
            refine ⟨by simp [hHm, hDm], ?_⟩
            intro k ek hk hek
            exact hall (k + 1) ek (by omega) (by omega) (by simpa using hek)
          | succ m =>
            right
            simp only [List.getElem?_cons_succ] at hem
            refine ⟨m, em, by omega, hem, hHm, hDm, ?_⟩
            intro k ek hk1 hk2 hek
            exact hall (k + 1) ek (by omega) (by omega) (by simpa using hek)

end UiLemmas

section UiClaims

open Binary Image Rfb Serve Ui

/-- Claim C11: for a buffer of at least 7 bytes, `KeyEvent.Read` with the big-endian byte
order sets `Pressed` to "byte 0 is not zero" and `KeySym` to the big-endian `uint32` held in
the bytes 3 to 6; the bytes 1 and 2 (the padding) and the bytes after the seventh have no
part in the result. -/
theorem C11_key_event_read (b0 b1 b2 b3 b4 b5 b6 : Nat) (rest : List Nat)
    (h0 : b0 < 256) (h3 : b3 < 256) (h4 : b4 < 256) (h5 : b5 < 256) (h6 : b6 < 256) :
    KeyEvent.Read (b0 :: b1 :: b2 :: b3 :: b4 :: b5 :: b6 :: rest) 0 .BigEndian
      = { Pressed := decide (b0 ≠ 0)
          KeySym := b3 * 16777216 + b4 * 65536 + b5 * 256 + b6 } := by
  simp only [KeyEvent.Read, ByteOrder.Uint32, byteAt, List.getD_cons_zero, List.getD_cons_succ,
    Nat.mod_eq_of_lt h0, Nat.mod_eq_of_lt h3, Nat.mod_eq_of_lt h4, Nat.mod_eq_of_lt h5,
    Nat.mod_eq_of_lt h6, KeyEvent.mk.injEq]
  constructor
  · cases b0 <;> simp
  · omega

/-- Claim C11 at the event "key 0xFF08 pressed", with padding bytes 7 and 9. -/
theorem C11_key_event_read_witness :
    KeyEvent.Read [1, 7, 9, 0, 0, 255, 8] 0 .BigEndian = { Pressed := true, KeySym := 65288 } :=
  C11_key_event_read 1 7 9 0 0 255 8 [] (by decide) (by decide) (by decide) (by decide)
    (by decide)

/-- Claim C12: from the idle state of the button, for every trace of pointer events given to
`button` one per call, a click is returned at the sample `n` if and only if at `n` the
pointer is on the button with the button up, and there is an earlier sample `m < n` with
the pointer on the button and the button down such that the button is down at every sample
strictly between `m` and `n`. So no click is returned at a sample with the pointer off the
button, nor at one with the button down. -/
theorem C12_button_click (rect : Rectangle) (samples : List PointerEvent) (n : Nat)
    (e : PointerEvent) (hn : samples[n]? = some e) :
    ((clicks rect { clicking := false } samples)[n]? = some true ↔
      hovering rect e = true ∧ buttonDown e = false ∧
        ∃ m em, m < n ∧ samples[m]? = some em ∧ hovering rect em = true ∧
          buttonDown em = true ∧
          ∀ k ek, m < k → k < n → samples[k]? = some ek → buttonDown ek = true) ∧
    (hovering rect e = false ∨ buttonDown e = true →
      (clicks rect { clicking := false } samples)[n]? = some false) := by
  have h := clicks_iff rect samples { clicking := false } n e hn
  simp only [Bool.false_eq_true, false_and, false_or] at h
  refine ⟨h, ?_⟩
  intro hne
  have hlen := length_clicks rect samples { clicking := false }
  have hlt : n < samples.length := (List.getElem?_eq_some_iff.mp hn).1
  obtain ⟨v, hv⟩ : ∃ v, (clicks rect { clicking := false } samples)[n]? = some v :=
    ⟨_, List.getElem?_eq_getElem (by omega)⟩
  cases v with
  | false => exact hv
  | true =>
    have := h.mp hv
    rcases hne with h1 | h1 <;> simp [h1] at this

/-- Claim C12 on a trace "press on the button, drag off it, come back and release": the
click is returned at the release, the fourth sample. -/
theorem C12_button_click_witness :
    (clicks (Rect 0 0 10 10) { clicking := false }
      [⟨1, 5, 5⟩, ⟨1, 50, 5⟩, ⟨1, 5, 5⟩, ⟨0, 5, 5⟩])[3]? = some true :=
  ((C12_button_click (Rect 0 0 10 10) [⟨1, 5, 5⟩, ⟨1, 50, 5⟩, ⟨1, 5, 5⟩, ⟨0, 5, 5⟩] 3 ⟨0, 5, 5⟩
      rfl).1).mpr
    ⟨by decide, by decide, 0, ⟨1, 5, 5⟩, by decide, rfl, by decide, by decide, by
      intro k ek h1 h2 hk
      have : k = 1 ∨ k = 2 := by omega
      rcases this with rfl | rfl <;> simp at hk <;> subst hk <;> decide⟩

end UiClaims

section EditLemmas

open Binary Image Rfb Serve Ui

/-- One call of `edit` for a pressed key with the pointer on the editor. -/
theorem edit_pressed (state : EditorState) (text : List Nat) (rect : Rectangle) (k : Nat)
    (pointerEvent : PointerEvent) (hh : hovering rect pointerEvent = true) :
    edit state text rect { Pressed := true, KeySym := k } pointerEvent =
      if state.lastKeySym = k then some ({ lastKeySym := k }, text)
      else if 32 ≤ k ∧ k ≤ 126 then some ({ lastKeySym := k }, text ++ [k])
      else if k = 0xff08 then
        (if text = [] then none else some ({ lastKeySym := k }, text.dropLast))
      else some ({ lastKeySym := k }, text) := by
  simp only [edit, hh, if_true, ne_eq, ite_not, ge_iff_le, List.length_eq_zero,
    List.dropLast_eq_take]
  split
  · rfl
  · split
    · rename_i h
      rw [Nat.mod_eq_of_lt (by omega)]
    · rfl

/-- The last element of a list with one more element in front. -/
theorem getLast?_getD_cons (k : Nat) (l : List Nat) (d : Nat) :
    (k :: l).getLast?.getD d = l.getLast?.getD k := by
  cases l with
  | nil => rfl
  | cons a l =>
    rw [List.getLast?_cons_cons, List.getLast?_eq_getLast _ (List.cons_ne_nil a l)]
    rfl

/-- The count of the 0xFF08 events of two lists of keysyms one after the other. -/
theorem backspaces_append (l1 l2 : List Nat) :
    ∀ last, backspaces last (l1 ++ l2)
      = backspaces last l1 + backspaces (l1.getLast?.getD last) l2 := by
  induction l1 with
  | nil => intro last; simp [backspaces]
  | cons k l ih =>
    intro last
    simp only [List.cons_append, backspaces, List.append_eq, ih k, Nat.add_assoc,
      getLast?_getD_cons]

/-- A list of keysyms without 0xFF08 has no 0xFF08 event. -/
theorem backspaces_eq_zero (l : List Nat) (h : ∀ k ∈ l, k ≠ 0xff08) :
    ∀ last, backspaces last l = 0 := by
  induction l with
  | nil => intro _; rfl
  | cons k l ih =>
    intro last
    have hk := h k (List.mem_cons_self _ _)
    simp only [backspaces, hk, false_and, if_false, Nat.zero_add]
    exact ih (fun k hk => h k (List.mem_cons_of_mem _ hk)) k

/-- The calls of `edit` for pressed keys without 0xFF08, none of the printable ones equal to
the keysym before it: every printable keysym is appended. -/
theorem editAll_printable (rect : Rectangle) (pointerEvent : PointerEvent)
    (hh : hovering rect pointerEvent = true) (pre : List Nat) :
    ∀ (state : EditorState) (text : List Nat),
      List.Chain (fun a b => isPrintable b = true → a ≠ b) state.lastKeySym pre →
      (∀ k ∈ pre, k ≠ 0xff08) →
      editAll rect pointerEvent (state, text) (pressed pre)
        = some ({ lastKeySym := pre.getLast?.getD state.lastKeySym },
            text ++ pre.filter isPrintable) := by
  induction pre with
  | nil => intro state text _ _; simp [pressed, editAll]
  | cons k l ih =>
    intro state text hchain hbs
    rw [List.chain_cons] at hchain
    obtain ⟨hk, hchain⟩ := hchain
    have hk8 := hbs k (List.mem_cons_self _ _)
    have hl := getLast?_getD_cons k l state.lastKeySym
    simp only [pressed, List.map_cons, editAll, edit_pressed _ _ _ _ _ hh]
    simp only [isPrintable, decide_eq_true_eq] at hk
    by_cases hp : 32 ≤ k ∧ k ≤ 126
    · have hne : ¬ state.lastKeySym = k := hk hp
      simp only [hne, if_false, hp, and_self, if_true]
      have := ih { lastKeySym := k } (text ++ [k]) hchain
        (fun k hk => hbs k (List.mem_cons_of_mem _ hk))
      simp only [pressed] at this
      rw [this]; simp only [getLast?_getD_cons]
      simp [List.filter_cons, isPrintable, hp]
    · have := ih { lastKeySym := k } text hchain
        (fun k hk => hbs k (List.mem_cons_of_mem _ hk))
      simp only [pressed] at this
      have hf : (k :: l).filter isPrintable = l.filter isPrintable := by
        simp [List.filter_cons, isPrintable, hp]
      by_cases h1 : state.lastKeySym = k
      · simp only [h1, if_true]
        rw [this, hf]; simp only [getLast?_getD_cons]
      · simp only [h1, hp, if_false, hk8]
        rw [this, hf]; simp only [getLast?_getD_cons]

/-- The calls of `edit` for pressed keys that are not printable: each 0xFF08 that follows a
distinct keysym removes the last byte, as long as there is one. -/
theorem editAll_backspaces (rect : Rectangle) (pointerEvent : PointerEvent)
    (hh : hovering rect pointerEvent = true) (post : List Nat) :
    ∀ (state : EditorState) (text : List Nat),
      (∀ k ∈ post, isPrintable k = false) →
      backspaces state.lastKeySym post ≤ text.length →
      editAll rect pointerEvent (state, text) (pressed post)
        = some ({ lastKeySym := post.getLast?.getD state.lastKeySym },
            text.take (text.length - backspaces state.lastKeySym post)) := by
  induction post with
  | nil => intro state text _ _; simp [pressed, editAll, backspaces]
  | cons k l ih =>
    intro state text hnp hcount
    have hk := hnp k (List.mem_cons_self _ _)
    simp only [isPrintable, decide_eq_false_iff_not] at hk
    have hl := getLast?_getD_cons k l state.lastKeySym
    simp only [pressed, List.map_cons, editAll, edit_pressed _ _ _ _ _ hh, hk, if_false]
    simp only [backspaces] at hcount ⊢
    by_cases h1 : state.lastKeySym = k
    · have hz : ¬ (k = 65288 ∧ state.lastKeySym ≠ k) := by simp [h1]
      rw [if_neg hz, Nat.zero_add] at hcount ⊢
      simp only [h1, if_true]
      have := ih { lastKeySym := k } text (fun k hk => hnp k (List.mem_cons_of_mem _ hk))
        hcount
      simp only [pressed] at this
      rw [this]; simp only [getLast?_getD_cons]
    · simp only [h1, if_false]
      by_cases h2 : k = 65288
      · have hz : (k = 65288 ∧ state.lastKeySym ≠ k) := ⟨h2, h1⟩
        rw [if_pos hz] at hcount ⊢
        have hne : text ≠ [] := by
          intro h; rw [h] at hcount; simp only [List.length_nil] at hcount; omega
        simp only [h2, if_true, hne, if_false]
        have := ih { lastKeySym := 65288 } text.dropLast
          (fun k hk => hnp k (List.mem_cons_of_mem _ hk))
          (by
            show backspaces 65288 l ≤ text.dropLast.length
            rw [List.length_dropLast]; subst h2; omega)
        simp only [pressed] at this
        rw [this]; simp only [getLast?_getD_cons]
        subst h2
        simp only [List.length_dropLast, List.dropLast_eq_take, List.take_take,
          List.length_take, Option.some.injEq, Prod.mk.injEq, true_and]
        congr 1
        have : text.length ≠ 0 := fun h => hne (List.length_eq_zero.mp h)
        omega
      · have hz : ¬ (k = 65288 ∧ state.lastKeySym ≠ k) := by simp [h2]
        rw [if_neg hz, Nat.zero_add] at hcount ⊢
        simp only [h2, if_false]
        have := ih { lastKeySym := k } text (fun k hk => hnp k (List.mem_cons_of_mem _ hk))
          hcount
        simp only [pressed] at this
        rw [this]; simp only [getLast?_getD_cons]

end EditLemmas

section EditClaims

open Binary Image Rfb Serve Ui

/-- Claim C13: one call of `edit` changes the text only as follows. With the pointer on the
editor, the key pressed and a keysym other than `lastKeySym`, a keysym in 0x20..0x7E appends
that one byte, and the keysym 0xFF08 on a text that is not empty removes the last byte. With
the pointer off the editor, or the key not pressed, or the keysym equal to `lastKeySym`, or
any other keysym, the text is unchanged. In all these cases the call returns. -/
theorem C13_edit_text (state : EditorState) (text : List Nat) (rect : Rectangle)
    (keyEvent : KeyEvent) (pointerEvent : PointerEvent) :
    (hovering rect pointerEvent = true → keyEvent.Pressed = true →
      keyEvent.KeySym ≠ state.lastKeySym →
        (32 ≤ keyEvent.KeySym ∧ keyEvent.KeySym ≤ 126 →
          (edit state text rect keyEvent pointerEvent).map Prod.snd
            = some (text ++ [keyEvent.KeySym])) ∧
        (keyEvent.KeySym = 0xff08 → text ≠ [] →
          (edit state text rect keyEvent pointerEvent).map Prod.snd = some text.dropLast)) ∧
    (hovering rect pointerEvent = false ∨ keyEvent.Pressed = false ∨
        keyEvent.KeySym = state.lastKeySym ∨
        (¬ (32 ≤ keyEvent.KeySym ∧ keyEvent.KeySym ≤ 126) ∧ keyEvent.KeySym ≠ 0xff08) →
      (edit state text rect keyEvent pointerEvent).map Prod.snd = some text) := by
  obtain ⟨p, k⟩ := keyEvent
  refine ⟨?_, ?_⟩
  · intro hh hp hk
    subst hp
    rw [edit_pressed _ _ _ _ _ hh]
    refine ⟨?_, ?_⟩
    · intro hpr
      simp [Ne.symm hk, hpr]
    · intro h8 hne
      subst h8
      simp [Ne.symm hk, hne]
  · intro h
    cases hh : hovering rect pointerEvent with
    | false => simp [edit, hh]
    | true =>
      cases p with
      | false => simp [edit, hh]
      | true =>
        rw [edit_pressed _ _ _ _ _ hh]
        simp only [hh, Bool.true_eq_false, false_or] at h
        rcases h with h | ⟨h1, h2⟩
        · simp [h]
        · by_cases h3 : state.lastKeySym = k
          · simp [h3]
          · simp [h3, h1, h2]

/-- Claim C13 at the text "h", to which the key "i" is typed. -/
theorem C13_edit_text_witness :
    (edit { lastKeySym := 0 } [104] (Image.Rect 8 24 184 48) { Pressed := true, KeySym := 105 }
      { ButtonMask := 0, X := 10, Y := 30 }).map Prod.snd = some ([104] ++ [105]) :=
  ((C13_edit_text { lastKeySym := 0 } [104] (Image.Rect 8 24 184 48)
      { Pressed := true, KeySym := 105 } { ButtonMask := 0, X := 10, Y := 30 }).1
    (by decide) rfl (by decide)).1 ⟨by decide, by decide⟩

/-- Claim C14 as stated does not hold: typing "a" twice without a release in between gives
the text "a", not "aa", although no 0xFF08 was typed; and typing "a", 0xFF08, "b" gives the
text "b", while the printable keysyms minus one trailing byte are "a". -/
theorem C14_typed_text_counterexample :
    hovering (Image.Rect 8 24 184 48) { ButtonMask := 0, X := 10, Y := 30 } = true ∧
    editAll (Image.Rect 8 24 184 48) { ButtonMask := 0, X := 10, Y := 30 }
      ({ lastKeySym := 0 }, []) (pressed [97, 97]) = some ({ lastKeySym := 97 }, [97]) ∧
    specText [97, 97] = [97, 97] ∧
    editAll (Image.Rect 8 24 184 48) { ButtonMask := 0, X := 10, Y := 30 }
      ({ lastKeySym := 0 }, []) (pressed [97, 0xff08, 98]) = some ({ lastKeySym := 98 }, [98]) ∧
    specText [97, 0xff08, 98] = [97] := by
  refine ⟨by decide, by decide, by decide, by decide, by decide⟩

/-- Claim C14, amended: for the keysyms `pre ++ post` given to `edit` as pressed-key events
with the pointer on the editor, from an empty text and a cleared `lastKeySym`, where no
printable keysym of `pre` directly follows an equal keysym, `pre` has no 0xFF08, `post` has
no printable keysym (every 0xFF08 comes after the last printable keysym) and the 0xFF08
events that follow a distinct keysym are at most as many as the printable keysyms: every call
returns, and the final text is the printable keysyms in order, minus one trailing byte for
each 0xFF08 event that followed a distinct keysym. -/
theorem C14_typed_text (rect : Rectangle) (pointerEvent : PointerEvent) (pre post : List Nat)
    (hh : hovering rect pointerEvent = true)
    (hchain : List.Chain (fun a b => isPrintable b = true → a ≠ b) 0 pre)
    (hpre : ∀ k ∈ pre, k ≠ 0xff08) (hpost : ∀ k ∈ post, isPrintable k = false)
    (hcount : backspaces 0 (pre ++ post) ≤ ((pre ++ post).filter isPrintable).length) :
    editAll rect pointerEvent ({ lastKeySym := 0 }, []) (pressed (pre ++ post))
      = some ({ lastKeySym := (pre ++ post).getLast?.getD 0 }, specText (pre ++ post)) := by
  have hfpost : post.filter isPrintable = [] := by
    rw [List.filter_eq_nil_iff]
    intro k hk
    simp [hpost k hk]
  have hb : backspaces 0 (pre ++ post) = backspaces (pre.getLast?.getD 0) post := by
    rw [backspaces_append, backspaces_eq_zero pre hpre, Nat.zero_add]
  have h1 := editAll_printable rect pointerEvent hh pre { lastKeySym := 0 } [] hchain hpre
  rw [hb, List.filter_append, hfpost, List.append_nil] at hcount
  have h2 := editAll_backspaces rect pointerEvent hh post
    { lastKeySym := pre.getLast?.getD 0 } ([] ++ pre.filter isPrintable) hpost
    (by simpa using hcount)
  have happ : ∀ (l1 l2 : List KeyEvent) (st st1 : EditorState × List Nat),
      editAll rect pointerEvent st l1 = some st1 →
      editAll rect pointerEvent st (l1 ++ l2) = editAll rect pointerEvent st1 l2 := by
    intro l1
    induction l1 with
    | nil => intro l2 st st1 h; simp only [editAll, Option.some.injEq] at h; subst h; rfl
    | cons a l ih =>
      intro l2 st st1 h
      simp only [List.cons_append, editAll] at h ⊢
      split at h
      · cases h
      · rename_i st2 heq
        exact ih l2 st2 st1 h
  have hlast : (pre ++ post).getLast?.getD 0 = post.getLast?.getD (pre.getLast?.getD 0) := by
    cases post with
    | nil => simp
    | cons a l =>
      rw [List.getLast?_append_cons, List.getLast?_eq_getLast _ (List.cons_ne_nil a l)]
      rfl
  simp only [pressed, List.map_append] at h1 h2 ⊢
  rw [happ _ _ _ _ h1, h2]
  simp only [specText, hb, List.filter_append, hfpost, List.append_nil, List.nil_append, hlast]

/-- Claim C14, amended, for the keys "h", "i", 0xFF08: the text is "h". -/
theorem C14_typed_text_witness :
    editAll (Image.Rect 8 24 184 48) { ButtonMask := 0, X := 10, Y := 30 }
      ({ lastKeySym := 0 }, []) (pressed ([104, 105] ++ [0xff08]))
      = some ({ lastKeySym := 0xff08 }, [104]) :=
  C14_typed_text (Image.Rect 8 24 184 48) { ButtonMask := 0, X := 10, Y := 30 } [104, 105]
    [0xff08] (by decide)
    (List.Chain.cons (by decide) (List.Chain.cons (by decide) List.Chain.nil))
    (by decide) (by decide) (by decide)

/-- Claim C15: when a call of `edit` returns, a second call with the same key event and
pointer event returns too and leaves the text and `lastKeySym` as the first call left them;
and so does any number of further calls: a held key is applied at most once. -/
theorem C15_edit_twice (state state' : EditorState) (text text' : List Nat) (rect : Rectangle)
    (keyEvent : KeyEvent) (pointerEvent : PointerEvent)
    (h : edit state text rect keyEvent pointerEvent = some (state', text')) :
    edit state' text' rect keyEvent pointerEvent = some (state', text') ∧
    ∀ n, editAll rect pointerEvent (state', text') (List.replicate n keyEvent)
      = some (state', text') := by
  have h2 : edit state' text' rect keyEvent pointerEvent = some (state', text') := by
    unfold edit at h ⊢
    simp only at h ⊢
    split_ifs at h <;> cases h <;> simp_all
  refine ⟨h2, ?_⟩
  intro n
  induction n with
  | zero => rfl
  | succ n ih => simp only [List.replicate_succ, editAll, h2, ih]

/-- Claim C15 for the key "i" held on the text "h". -/
theorem C15_edit_twice_witness :
    edit { lastKeySym := 105 } [104, 105] (Image.Rect 8 24 184 48)
        { Pressed := true, KeySym := 105 } { ButtonMask := 0, X := 10, Y := 30 }
      = some ({ lastKeySym := 105 }, [104, 105]) :=
  (C15_edit_twice { lastKeySym := 0 } { lastKeySym := 105 } [104] [104, 105]
    (Image.Rect 8 24 184 48) { Pressed := true, KeySym := 105 }
    { ButtonMask := 0, X := 10, Y := 30 } (by decide)).1

end EditClaims

section LayoutLemmas

open Binary Image Rfb Serve Ui

/-- The only panic of `edit` is the one of a pressed 0xFF08 on an empty text. -/
theorem edit_some (state : EditorState) (text : List Nat) (rect : Rectangle)
    (keyEvent : KeyEvent) (pointerEvent : PointerEvent)
    (h : keyEvent.Pressed = true ∧ keyEvent.KeySym = 0xff08 → text ≠ []) :
    ∃ r, edit state text rect keyEvent pointerEvent = some r := by
  unfold edit
  simp only
  split_ifs with h1 h2 h3 h4 h5 h6
  all_goals first
    | exact ⟨_, rfl⟩
    | exact absurd (List.length_eq_zero.mp h6) (h ⟨h2, h5⟩)

/-- The body of the loop of `updateUI` returns unless `edit` panics. -/
theorem updateWidget_some (widget : Widget) (y : Int) (keyEvent : KeyEvent)
    (pointerEvent : PointerEvent)
    (h : keyEvent.Pressed = true ∧ keyEvent.KeySym = 0xff08 →
      widget.guiSize = { X := 0, Y := 0 } → widget.fileInfo.Perm &&& 0o111 = 0 →
      widget.content ≠ []) :
    ∃ r, updateWidget widget y keyEvent pointerEvent = some r := by
  unfold updateWidget
  split_ifs with h1 h2
  · exact ⟨_, rfl⟩
  · exact ⟨_, rfl⟩
  · simp only
    obtain ⟨r, hr⟩ := edit_some widget.editor widget.content
      (Rect 8 (iadd y (2 * 8)) (iadd 8 (22 * 8)) (iadd (iadd y (2 * 8)) (3 * 8))) keyEvent
      pointerEvent (fun hk => h hk (by simpa using h1) (by simpa using h2))
    rw [hr]
    exact ⟨_, rfl⟩

/-- The body of the loop of `updateUI` advances `y` by the height of the widget. -/
theorem updateWidget_y (widget widget' : Widget) (y y' : Int) (keyEvent : KeyEvent)
    (pointerEvent : PointerEvent) (hy0 : 0 ≤ y) (hy1 : y < 4611686018427387904)
    (hs : 0 ≤ widget.guiSize.Y ∧ widget.guiSize.Y < 65536)
    (h : updateWidget widget y keyEvent pointerEvent = some (widget', y')) :
    y' = y + specHeight widget := by
  unfold updateWidget at h
  unfold specHeight
  split_ifs at h ⊢ with h1 h2
  · simp only [Option.some.injEq, Prod.mk.injEq] at h
    rw [← h.2]
    simp only [iadd]
    rw [wrapInt_eq (y + 2 * 8) (by omega) (by omega),
      wrapInt_eq (widget.guiSize.Y + 8) (by omega) (by omega),
      wrapInt_eq _ (by omega) (by omega)]
    omega
  · simp only [Option.some.injEq, Prod.mk.injEq] at h
    rw [← h.2]
    simp only [iadd]
    rw [wrapInt_eq _ (by omega) (by omega)]
    omega
  · simp only at h
    split at h
    · cases h
    · simp only [Option.some.injEq, Prod.mk.injEq] at h
      rw [← h.2]
      simp only [iadd]
      rw [wrapInt_eq (y + 2 * 8) (by omega) (by omega), wrapInt_eq _ (by omega) (by omega)]
      omega

/-- The height of a widget of a list whose panel heights are `uint16` values. -/
theorem specHeight_bounds (widget : Widget)
    (hs : 0 ≤ widget.guiSize.Y ∧ widget.guiSize.Y < 65536) :
    24 ≤ specHeight widget ∧ specHeight widget < 65560 := by
  unfold specHeight
  split_ifs <;> omega

/-- The loop of `updateUI` over the widgets from the index `idx` on: it returns unless
`edit` panics, and `y` advances by the heights of the widgets, 8 after each widget and 8
more after each widget but the last of the list. -/
theorem updateWidgets_y (len : Nat) (keyEvent : KeyEvent) (pointerEvent : PointerEvent)
    (hlen : len < 4294967296) (widgets : List Widget) :
    ∀ (idx : Nat) (y : Int), idx + widgets.length = len → 0 ≤ y →
      y + 65576 * (widgets.length : Int) < 4611686018427387904 →
      (∀ w ∈ widgets, 0 ≤ w.guiSize.Y ∧ w.guiSize.Y < 65536) →
      (∀ r, updateWidgets len keyEvent pointerEvent idx y widgets = some r →
        r.2 = y + (widgets.map specHeight).sum + 16 * (widgets.length : Int)
          - (if widgets = [] then 0 else 8)) ∧
      ((keyEvent.Pressed = true ∧ keyEvent.KeySym = 0xff08 → ∀ w ∈ widgets,
          w.guiSize = { X := 0, Y := 0 } → w.fileInfo.Perm &&& 0o111 = 0 → w.content ≠ []) →
        ∃ r, updateWidgets len keyEvent pointerEvent idx y widgets = some r) := by
  induction widgets with
  | nil =>
    intro idx y _ _ _ _
    refine ⟨?_, fun _ => ⟨_, rfl⟩⟩
    intro r h
    simp only [updateWidgets, Option.some.injEq] at h
    subst h
    simp
  | cons w ws ih =>
    intro idx y hidx hy0 hy1 hs
    have hsw := hs w (List.mem_cons_self _ _)
    have hsws : ∀ w ∈ ws, 0 ≤ w.guiSize.Y ∧ w.guiSize.Y < 65536 :=
      fun w hw => hs w (List.mem_cons_of_mem _ hw)
    simp only [List.length_cons, Nat.cast_add, Nat.cast_one] at hidx hy1
    have hb := specHeight_bounds w hsw
    have hsub : isub (len : Int) 1 = (len : Int) - 1 := by
      simp only [isub]; exact wrapInt_eq _ (by omega) (by omega)
    -- the value of `y` after the widget and the padding
    have hpad : ∀ y1 : Int, y1 = y + specHeight w →
        (if (idx : Int) < isub (len : Int) 1 then iadd (iadd y1 8) 8 else iadd y1 8)
          = y1 + 8 + (if ws = [] then 0 else 8) := by
      intro y1 hy1e
      rw [hsub]
      have h8 : iadd y1 8 = y1 + 8 := by
        simp only [iadd]; exact wrapInt_eq _ (by omega) (by omega)
      by_cases hws : ws = []
      · subst hws
        simp only [List.length_nil] at hidx
        rw [if_neg (by omega), h8]; simp
      · have : 0 < ws.length := List.length_pos.mpr hws
        rw [if_pos (by omega), h8]
        simp only [iadd, hws, if_false]
        exact wrapInt_eq _ (by omega) (by omega)
    have hwsl : (if ws = [] then (0 : Int) else 8) ≤ 8 := by split_ifs <;> omega
    have hwsl0 : (0 : Int) ≤ (if ws = [] then (0 : Int) else 8) := by split_ifs <;> omega
    refine ⟨?_, ?_⟩
    · intro r h
      simp only [updateWidgets] at h
      split at h
      · cases h
      · rename_i w1 y1 heq
        have hy1e := updateWidget_y w w1 y y1 keyEvent pointerEvent hy0 (by omega) hsw heq
        simp only [hpad y1 hy1e] at h
        split at h
        · cases h
        · rename_i ws1 y2 heq2
          simp only [Option.some.injEq] at h
          subst h
          have := (ih (idx + 1) (y1 + 8 + (if ws = [] then 0 else 8)) (by omega) (by omega)
            (by omega) hsws).1 _ heq2
          simp only at this ⊢
          rw [this]
          simp only [List.map_cons, List.sum_cons, List.length_cons, Nat.cast_add,
            Nat.cast_one, if_false, reduceCtorEq]
          by_cases hws : ws = []
          · subst hws; simp; omega
          · simp only [hws, if_false]; omega
    · intro hsafe
      obtain ⟨⟨w1, y1⟩, heq⟩ := updateWidget_some w y keyEvent pointerEvent
        (fun hk => hsafe hk w (List.mem_cons_self _ _))
      have hy1e := updateWidget_y w w1 y y1 keyEvent pointerEvent hy0 (by omega) hsw heq
      obtain ⟨⟨ws1, y2⟩, heq2⟩ := (ih (idx + 1) (y1 + 8 + (if ws = [] then 0 else 8))
        (by omega) (by omega) (by omega) hsws).2
        (fun hk w hw => hsafe hk w (List.mem_cons_of_mem _ hw))
      refine ⟨(w1 :: ws1, y2), ?_⟩
      simp only [updateWidgets, heq, hpad y1 hy1e, heq2]

end LayoutLemmas

section WidgetLemmas

open Binary Image Rfb Serve Ui

/-- The assignment to the last element of a slice that is not empty. -/
theorem set_last (widgets : List Widget) (widget w : Widget)
    (h : widgets.getLast? = some widget) :
    widgets.set (widgets.length - 1) w = widgets.dropLast ++ [w] := by
  have hne : widgets ≠ [] := by
    intro h0; rw [h0] at h; simp at h
  obtain ⟨init, last, rfl⟩ : ∃ init last, widgets = init ++ [last] :=
    ⟨widgets.dropLast, widgets.getLast hne, (List.dropLast_append_getLast hne).symm⟩
  simp [List.dropLast_concat]

/-- The loop of `getWidgets` is the walk over the remaining entries. -/
theorem getWidgetsLoop_eq_walk (nestRfb : NestRfb) (infos : List FileInfo) :
    ∀ widgets, getWidgetsLoop nestRfb widgets infos
      = walk nestRfb widgets (remaining infos) := by
  induction infos with
  | nil => intro widgets; rfl
  | cons info infos ih =>
    intro widgets
    unfold getWidgetsLoop
    by_cases hd : info.IsDir = true
    · rw [if_pos hd, ih]
      simp [remaining, List.filter_cons, hd]
    · rw [if_neg hd]
      by_cases hp : List.isPrefixOf [46] info.Name = true
      · rw [if_pos hp, ih]
        simp [remaining, List.filter_cons, hp]
      · rw [if_neg hp]
        have hr : remaining (info :: infos) = info :: remaining infos := by
          simp only [remaining, List.filter_cons]
          simp [hd, hp]
        rw [hr]
        simp only [walk, walkStep, ← List.getLast?_eq_getElem?]
        cases hl : widgets.getLast? with
        | none => simp only [ih]
        | some widget =>
          have hpos : widgets.length > 0 := by
            cases widgets with
            | nil => simp at hl
            | cons a l => simp
          simp only [hpos, true_and]
          split_ifs with hn
          · cases hb : nestRfb info.Name widget.fileInfo.Name with
            | none => rfl
            | some bounds =>
              simp only [ih, set_last widgets widget _ hl]
          · simp only [ih]

/-- The walk appends entries in their order: the entries of the widgets after it are the
entries of the widgets before it, followed by a sublist of the entries walked over. -/
theorem walk_sublist (nestRfb : NestRfb) (infos : List FileInfo) :
    ∀ widgets widgets', walk nestRfb widgets infos = some widgets' →
      ∃ s, widgets'.map (fun w => w.fileInfo) = widgets.map (fun w => w.fileInfo) ++ s ∧
        s.Sublist infos := by
  induction infos with
  | nil =>
    intro widgets widgets' h
    simp only [walk, Option.some.injEq] at h
    subst h
    exact ⟨[], by simp, List.Sublist.refl _⟩
  | cons info infos ih =>
    intro widgets widgets' h
    simp only [walk] at h
    split at h
    · cases h
    · rename_i ws hstep
      obtain ⟨s, hs, hsub⟩ := ih ws widgets' h
      simp only [walkStep] at hstep
      split at hstep
      · simp only [Option.some.injEq] at hstep
        subst hstep
        refine ⟨info :: s, ?_, hsub.cons₂ _⟩
        rw [hs]; simp [Widget.new]
      · rename_i widget hl
        split_ifs at hstep with hn
        · split at hstep
          · cases hstep
          · simp only [Option.some.injEq] at hstep
            subst hstep
            refine ⟨s, ?_, hsub.cons _⟩
            rw [hs]
            congr 1
            have hne : widgets ≠ [] := by
              intro h0; rw [h0] at hl; simp at hl
            have hw : widget = widgets.getLast hne := by
              rw [List.getLast?_eq_getLast _ hne] at hl
              exact (Option.some.inj hl).symm
            conv_rhs => rw [← List.dropLast_append_getLast hne]
            simp [hw]
        · simp only [Option.some.injEq] at hstep
          subst hstep
          refine ⟨info :: s, ?_, hsub.cons₂ _⟩
          rw [hs]; simp [Widget.new]

/-- The walk ends the process only when `nestRfb` fails. -/
theorem walk_some (nestRfb : NestRfb) (hnest : ∀ a b, (nestRfb a b).isSome = true)
    (infos : List FileInfo) :
    ∀ widgets, (walk nestRfb widgets infos).isSome = true := by
  induction infos with
  | nil => intro _; rfl
  | cons info infos ih =>
    intro widgets
    simp only [walk, walkStep]
    split
    · rename_i hstep
      split at hstep
      · cases hstep
      · rename_i widget hl
        split_ifs at hstep with hn
        have := hnest info.Name widget.fileInfo.Name
        split at hstep
        · rename_i hb; rw [hb] at this; cases this
        · cases hstep
    · exact ih _

end WidgetLemmas

section WidgetClaims

open Binary Image Rfb Serve Ui

/-- Claim C17 as stated does not hold: for the entries "a", "a.gui" and "a.gui.gui", all
files, the name of the third is the name of the entry before it followed by ".gui", and yet
it is appended as a widget: `getWidgets` compares with the name of the last widget, "a". -/
theorem C17_previous_entry_counterexample :
    remaining [{ Name := [97], IsDir := false, Perm := 0o644 },
        { Name := [97] ++ dotGui, IsDir := false, Perm := 0o755 },
        { Name := ([97] ++ dotGui) ++ dotGui, IsDir := false, Perm := 0o755 }]
      = [{ Name := [97], IsDir := false, Perm := 0o644 },
        { Name := [97] ++ dotGui, IsDir := false, Perm := 0o755 },
        { Name := ([97] ++ dotGui) ++ dotGui, IsDir := false, Perm := 0o755 }] ∧
    (getWidgets (fun _ _ => some (Image.Rect 0 0 10 20))
      [{ Name := [97], IsDir := false, Perm := 0o644 },
        { Name := [97] ++ dotGui, IsDir := false, Perm := 0o755 },
        { Name := ([97] ++ dotGui) ++ dotGui, IsDir := false, Perm := 0o755 }]).map
      (List.map (fun w => (w.fileInfo.Name, w.guiSize)))
      = some [([97], { X := 10, Y := 20 }), (([97] ++ dotGui) ++ dotGui, { X := 0, Y := 0 })] := by
  refine ⟨by decide, by decide⟩

/-- Claim C17, amended: `getWidgets` drops the directories and the names starting with "."
and walks the remaining entries in order: an entry whose name is the name of the last widget
(not of the entry before it) followed by ".gui" is merged into that widget as its nested
GUI, and every other entry is appended as one widget. The entries of the widgets are a
sublist of the remaining entries, so the widget list preserves directory order; and
`getWidgets` returns whenever `nestRfb` does not fail. -/
theorem C17_get_widgets (nestRfb : NestRfb) (infos : List FileInfo) :
    getWidgets nestRfb infos = walk nestRfb [] (remaining infos) ∧
    (∀ widgets, getWidgets nestRfb infos = some widgets →
      (widgets.map (fun w => w.fileInfo)).Sublist (remaining infos) ∧
      (remaining infos).Sublist infos) ∧
    ((∀ a b, (nestRfb a b).isSome = true) → (getWidgets nestRfb infos).isSome = true) := by
  have heq : getWidgets nestRfb infos = walk nestRfb [] (remaining infos) :=
    getWidgetsLoop_eq_walk nestRfb infos []
  refine ⟨heq, ?_, ?_⟩
  · intro widgets h
    rw [heq] at h
    obtain ⟨s, hs, hsub⟩ := walk_sublist nestRfb _ _ _ h
    simp only [List.map_nil, List.nil_append] at hs
    rw [hs]
    exact ⟨hsub, List.filter_sublist _⟩
  · intro hnest
    rw [heq]
    exact walk_some nestRfb hnest _ _

/-- Claim C17, amended, for a directory, a dot file, the file "a" and the file "a.gui": the
one widget is "a", with the nested GUI of size (10, 20). -/
theorem C17_get_widgets_witness :
    getWidgets (fun _ _ => some (Image.Rect 0 0 10 20))
      [{ Name := [100], IsDir := true, Perm := 0o755 },
        { Name := [46, 97], IsDir := false, Perm := 0o644 },
        { Name := [97], IsDir := false, Perm := 0o644 },
        { Name := [97] ++ dotGui, IsDir := false, Perm := 0o755 }]
      = walk (fun _ _ => some (Image.Rect 0 0 10 20)) []
        [{ Name := [97], IsDir := false, Perm := 0o644 },
          { Name := [97] ++ dotGui, IsDir := false, Perm := 0o755 }] :=
  (C17_get_widgets (fun _ _ => some (Image.Rect 0 0 10 20))
    [{ Name := [100], IsDir := true, Perm := 0o755 },
      { Name := [46, 97], IsDir := false, Perm := 0o644 },
      { Name := [97], IsDir := false, Perm := 0o644 },
      { Name := [97] ++ dotGui, IsDir := false, Perm := 0o755 }]).1

end WidgetClaims

section PixelLemmas

open Binary Image Rfb Serve

/-- A byte read from a buffer depends on the element at its index only. -/
theorem byteAt_congr (b b' : List Nat) (i : Nat) (h : b'[i]? = b[i]?) :
    byteAt b' i = byteAt b i := by
  simp only [byteAt, List.getD_eq_getElem?_getD, h]

/-- The result of `At` depends on the bounds, on the pixel format, on the length of the
buffer and on the bytes of the pixel only. -/
theorem At_congr (img img' : PixelFormatImage) (x y : Int) (hrect : img'.Rect = img.Rect)
    (hpf : img'.PixelFormat = img.PixelFormat) (hlen : img'.Pix.length = img.Pix.length)
    (hbytes : ∀ k, k < img.PixelFormat.BitsPerPixel / 8 →
      img'.Pix[(img.idx x y).toNat + k]? = img.Pix[(img.idx x y).toNat + k]?) :
    img'.At x y = img.At x y := by
  obtain ⟨pix', r', pf'⟩ := img'
  simp only at hrect hpf hlen hbytes
  subst hrect hpf
  have hidx : (⟨pix', img.Rect, img.PixelFormat⟩ : PixelFormatImage).idx x y = img.idx x y :=
    rfl
  have hbo : (⟨pix', img.Rect, img.PixelFormat⟩ : PixelFormatImage).bo = img.bo := rfl
  unfold PixelFormatImage.At
  simp only [hidx, hbo, PixelFormatImage.inPix, hlen]
  by_cases h8 : img.PixelFormat.BitsPerPixel = 8
  · have e0 := byteAt_congr _ _ _ (hbytes 0 (by simp [h8]))
    simp only [Nat.add_zero] at e0
    simp only [h8, if_true, e0]
  · by_cases h16 : img.PixelFormat.BitsPerPixel = 16
    · have e0 := byteAt_congr _ _ _ (hbytes 0 (by simp [h16]))
      have e1 := byteAt_congr _ _ _ (hbytes 1 (by simp [h16]))
      simp only [Nat.add_zero] at e0
      simp only [h16, if_true, ByteOrder.Uint16, e0, e1]
    · by_cases h32 : img.PixelFormat.BitsPerPixel = 32
      · have e0 := byteAt_congr _ _ _ (hbytes 0 (by simp [h32]))
        have e1 := byteAt_congr _ _ _ (hbytes 1 (by simp [h32]))
        have e2 := byteAt_congr _ _ _ (hbytes 2 (by simp [h32]))
        have e3 := byteAt_congr _ _ _ (hbytes 3 (by simp [h32]))
        simp only [Nat.add_zero] at e0
        simp only [h32, if_true, ByteOrder.Uint32, ByteOrder.Uint16, e0, e1, e2, e3]
      · simp only [h8, h16, h32, if_false]

/-- Under a supported pixel format `At` completes at every point of the bounds of a
well-formed image. -/
theorem At_ok (img : PixelFormatImage) (x y : Int)
    (hbpp : img.PixelFormat.BitsPerPixel = 8 ∨ img.PixelFormat.BitsPerPixel = 16
      ∨ img.PixelFormat.BitsPerPixel = 32)
    (hr : img.PixelFormat.RedMax = 255) (hg : img.PixelFormat.GreenMax = 255)
    (hb : img.PixelFormat.BlueMax = 255)
    (hwf : img.WellFormed) (hin : (Point.mk x y).In img.Rect) :
    ∃ c, img.At x y = .ok c := by
  rcases hbpp with h8 | h16 | h32
  · obtain ⟨-, hpix⟩ := idx_inPix img x y hwf hin (by simp [h8])
    rw [h8] at hpix
    unfold PixelFormatImage.At
    simp [h8, hpix, hr, hg, hb]
  · obtain ⟨-, hpix⟩ := idx_inPix img x y hwf hin (by simp [h16])
    rw [h16] at hpix
    unfold PixelFormatImage.At
    simp [h16, hpix, hr, hg, hb]
  · obtain ⟨-, hpix⟩ := idx_inPix img x y hwf hin (by simp [h32])
    rw [h32] at hpix
    unfold PixelFormatImage.At
    simp [h32, hpix, hr, hg, hb]

/-- When `At` completes, the pixel format is a supported one. -/
theorem At_ok_supported (img : PixelFormatImage) (x y : Int) (c : NRGBA)
    (h : img.At x y = .ok c) :
    (img.PixelFormat.BitsPerPixel = 8 ∨ img.PixelFormat.BitsPerPixel = 16
      ∨ img.PixelFormat.BitsPerPixel = 32) ∧
    img.PixelFormat.RedMax = 255 ∧ img.PixelFormat.GreenMax = 255 ∧
    img.PixelFormat.BlueMax = 255 := by
  unfold PixelFormatImage.At at h
  simp only at h
  split at h
  · cases h
  · rename_i pixel hpixel
    split_ifs at h with hmax
    have hm : img.PixelFormat.RedMax = 255 ∧ img.PixelFormat.GreenMax = 255 ∧
        img.PixelFormat.BlueMax = 255 := by
      simp only [not_or, ne_eq, not_not] at hmax
      exact hmax
    refine ⟨?_, hm⟩
    by_contra hne
    simp only [not_or] at hne
    simp [hne.1, hne.2.1, hne.2.2] at hpixel

end PixelLemmas

section PixelClaims

open Binary Image Rfb Serve

/-- Claim C18 as stated does not hold for every image: on the image `NewPixelFormatImage`
builds with 8 bits per pixel and the maxima 255 over (0,0)-(2^32,2^32), whose buffer is empty
because the number of bytes, 2^64, wraps around to 0 in the type `int`, `At` and `Set` at the
point (0,0) of the bounds panic, with an index out of range, although `BitsPerPixel` is 8 and
every channel maximum is 255. -/
theorem C18_index_panic_counterexample :
    (Point.mk 0 0).In (NewPixelFormatImage
      { BitsPerPixel := 8, BitDepth := 8, BigEndian := false, TrueColor := true,
        RedMax := 255, GreenMax := 255, BlueMax := 255, RedShift := 0, GreenShift := 0,
        BlueShift := 0 } (Rect 0 0 4294967296 4294967296)).Rect ∧
    (NewPixelFormatImage
      { BitsPerPixel := 8, BitDepth := 8, BigEndian := false, TrueColor := true,
        RedMax := 255, GreenMax := 255, BlueMax := 255, RedShift := 0, GreenShift := 0,
        BlueShift := 0 } (Rect 0 0 4294967296 4294967296)).At 0 0
      = .error .indexOutOfRange ∧
    (NewPixelFormatImage
      { BitsPerPixel := 8, BitDepth := 8, BigEndian := false, TrueColor := true,
        RedMax := 255, GreenMax := 255, BlueMax := 255, RedShift := 0, GreenShift := 0,
        BlueShift := 0 } (Rect 0 0 4294967296 4294967296)).Set 0 0
        { R := 1, G := 2, B := 3, A := 255 } = .error .indexOutOfRange := by
  decide

/-- Claim C18, amended: for an image whose buffer holds exactly (bpp/8)*dx*dy bytes, `dx` and
`dy` being the width and the height of its bounds and the product, not wrapped around, being
less than 2^63, and a point (x, y) of its bounds, `At(x, y)` panics if and only if
`BitsPerPixel` is not 8, 16 or 32 or a channel maximum is not 255, and so does `Set(x, y, c)`
for every colour `c`; when neither holds, both complete. -/
theorem C18_at_set_panic (img : PixelFormatImage) (x y : Int) (hwf : img.WellFormed)
    (hin : (Point.mk x y).In img.Rect) :
    ((∃ p, img.At x y = .error p) ↔
      (¬ (img.PixelFormat.BitsPerPixel = 8 ∨ img.PixelFormat.BitsPerPixel = 16
          ∨ img.PixelFormat.BitsPerPixel = 32) ∨
        img.PixelFormat.RedMax ≠ 255 ∨ img.PixelFormat.GreenMax ≠ 255
          ∨ img.PixelFormat.BlueMax ≠ 255)) ∧
    (∀ c, (∃ p, img.Set x y c = .error p) ↔
      (¬ (img.PixelFormat.BitsPerPixel = 8 ∨ img.PixelFormat.BitsPerPixel = 16
          ∨ img.PixelFormat.BitsPerPixel = 32) ∨
        img.PixelFormat.RedMax ≠ 255 ∨ img.PixelFormat.GreenMax ≠ 255
          ∨ img.PixelFormat.BlueMax ≠ 255)) ∧
    ((img.PixelFormat.BitsPerPixel = 8 ∨ img.PixelFormat.BitsPerPixel = 16
          ∨ img.PixelFormat.BitsPerPixel = 32) →
      img.PixelFormat.RedMax = 255 → img.PixelFormat.GreenMax = 255 →
      img.PixelFormat.BlueMax = 255 →
      (∃ col, img.At x y = .ok col) ∧ ∀ c, ∃ img', img.Set x y c = .ok img') := by
  have hok : (img.PixelFormat.BitsPerPixel = 8 ∨ img.PixelFormat.BitsPerPixel = 16
          ∨ img.PixelFormat.BitsPerPixel = 32) →
      img.PixelFormat.RedMax = 255 → img.PixelFormat.GreenMax = 255 →
      img.PixelFormat.BlueMax = 255 →
      (∃ col, img.At x y = .ok col) ∧ ∀ c, ∃ img', img.Set x y c = .ok img' := by
    intro hbpp hr hg hb
    refine ⟨At_ok img x y hbpp hr hg hb hwf hin, ?_⟩
    intro c
    obtain ⟨pix, hset, -⟩ := Set_ok img x y c hbpp hr hg hb hwf hin
    exact ⟨_, hset⟩
  refine ⟨?_, ?_, hok⟩
  · constructor
    · rintro ⟨p, hp⟩
      by_contra hne
      obtain ⟨hn1, hn2⟩ := not_or.mp hne
      simp only [not_or, not_not, ne_eq] at hn2
      obtain ⟨col, hcol⟩ := (hok (not_not.mp hn1) hn2.1 hn2.2.1 hn2.2.2).1
      rw [hcol] at hp
      cases hp
    · intro hbad
      cases hres : img.At x y with
      | error p => exact ⟨p, rfl⟩
      | ok col =>
        obtain ⟨h1, h2, h3, h4⟩ := At_ok_supported img x y col hres
        rcases hbad with h | h | h | h <;> contradiction
  · intro c
    constructor
    · rintro ⟨p, hp⟩
      by_contra hne
      obtain ⟨hn1, hn2⟩ := not_or.mp hne
      simp only [not_or, not_not, ne_eq] at hn2
      obtain ⟨img', himg⟩ := (hok (not_not.mp hn1) hn2.1 hn2.2.1 hn2.2.2).2 c
      rw [himg] at hp
      cases hp
    · intro hbad
      cases hres : img.Set x y c with
      | error p => exact ⟨p, rfl⟩
      | ok img' =>
        obtain ⟨h1, h2, h3, h4⟩ := Set_ok_supported img img' x y c hres
        rcases hbad with h | h | h | h <;> contradiction

/-- Claim C18, amended, at the pixel (1, 0) of a new image of two pixels with 16 bits per
pixel and a red maximum of 31: `At` panics. -/
theorem C18_at_set_panic_witness :
    ∃ p, (NewPixelFormatImage
      { BitsPerPixel := 16, BitDepth := 16, BigEndian := false, TrueColor := true,
        RedMax := 31, GreenMax := 255, BlueMax := 255, RedShift := 0, GreenShift := 0,
        BlueShift := 0 } (Image.Rect 0 0 2 1)).At 1 0 = .error p :=
  ((C18_at_set_panic (NewPixelFormatImage
      { BitsPerPixel := 16, BitDepth := 16, BigEndian := false, TrueColor := true,
        RedMax := 31, GreenMax := 255, BlueMax := 255, RedShift := 0, GreenShift := 0,
        BlueShift := 0 } (Image.Rect 0 0 2 1)) 1 0 (by decide) (by decide)).1).mpr
    (Or.inr (Or.inl (by decide)))

/-- Claim C19 as stated does not hold for every image: on the image `NewPixelFormatImage`
builds with 8 bits per pixel and the maxima 255 over (-2^63,-2^63)-(2^63-1,2^63-1), the
width and the height wrap around to -1 in the type `int`, the buffer has one byte, and every
point (x, y) of the bounds with x - Min.X = y - Min.Y has the index 0: `Set` at the point
(-2^63,-2^63) changes what `At` returns at the other point (-2^63+1,-2^63+1) of the bounds,
from (0,0,0,255) to (7,7,7,255). -/
theorem C19_aliasing_counterexample :
    (NewPixelFormatImage
      { BitsPerPixel := 8, BitDepth := 8, BigEndian := false, TrueColor := true,
        RedMax := 255, GreenMax := 255, BlueMax := 255, RedShift := 0, GreenShift := 0,
        BlueShift := 0 }
      (Rect (-9223372036854775808) (-9223372036854775808) 9223372036854775807
        9223372036854775807)).Pix = [0] ∧
    (Point.mk (-9223372036854775808) (-9223372036854775808)).In
      (Rect (-9223372036854775808) (-9223372036854775808) 9223372036854775807
        9223372036854775807) ∧
    (Point.mk (-9223372036854775807) (-9223372036854775807)).In
      (Rect (-9223372036854775808) (-9223372036854775808) 9223372036854775807
        9223372036854775807) ∧
    (NewPixelFormatImage
      { BitsPerPixel := 8, BitDepth := 8, BigEndian := false, TrueColor := true,
        RedMax := 255, GreenMax := 255, BlueMax := 255, RedShift := 0, GreenShift := 0,
        BlueShift := 0 }
      (Rect (-9223372036854775808) (-9223372036854775808) 9223372036854775807
        9223372036854775807)).At (-9223372036854775807) (-9223372036854775807)
      = .ok { R := 0, G := 0, B := 0, A := 255 } ∧
    ∃ img', (NewPixelFormatImage
      { BitsPerPixel := 8, BitDepth := 8, BigEndian := false, TrueColor := true,
        RedMax := 255, GreenMax := 255, BlueMax := 255, RedShift := 0, GreenShift := 0,
        BlueShift := 0 }
      (Rect (-9223372036854775808) (-9223372036854775808) 9223372036854775807
        9223372036854775807)).Set (-9223372036854775808) (-9223372036854775808)
        { R := 7, G := 0, B := 0, A := 255 } = .ok img' ∧
      img'.At (-9223372036854775807) (-9223372036854775807)
        = .ok { R := 7, G := 7, B := 7, A := 255 } :=
  ⟨by decide, by decide, by decide, by decide, _, rfl, by decide⟩

/-- Claim C19, amended: for an image with 8, 16 or 32 bits per pixel, maxima 255 and a buffer
of exactly (bpp/8)*dx*dy bytes, `dx` and `dy` being the width and the height of its bounds
and the product, not wrapped around, being less than 2^63, `Set(x, y, c)` at a point of the
bounds completes, and it changes only the `BitsPerPixel / 8` bytes from the byte offset
`(BitsPerPixel / 8) * ((y - Min.Y) * width + (x - Min.X))` on:
every other byte of the buffer is unchanged, `At` gives the same result as before at every
other point of the bounds, and the bounds, the pixel format and the length of the buffer are
unchanged. -/
theorem C19_set_frame (img : PixelFormatImage) (x y : Int) (c : NRGBA)
    (hbpp : img.PixelFormat.BitsPerPixel = 8 ∨ img.PixelFormat.BitsPerPixel = 16
      ∨ img.PixelFormat.BitsPerPixel = 32)
    (hr : img.PixelFormat.RedMax = 255) (hg : img.PixelFormat.GreenMax = 255)
    (hb : img.PixelFormat.BlueMax = 255)
    (hwf : img.WellFormed) (hin : (Point.mk x y).In img.Rect) :
    ∃ img' : PixelFormatImage, ∃ offset : Nat,
      img.Set x y c = .ok img' ∧
      (offset : Int) = ((img.PixelFormat.BitsPerPixel / 8 : Nat) : Int)
        * ((y - img.Rect.Min.Y) * (img.Rect.Max.X - img.Rect.Min.X) + (x - img.Rect.Min.X)) ∧
      offset + img.PixelFormat.BitsPerPixel / 8 ≤ img.Pix.length ∧
      (∀ j, j < offset ∨ offset + img.PixelFormat.BitsPerPixel / 8 ≤ j →
        img'.Pix[j]? = img.Pix[j]?) ∧
      (∀ x' y', (Point.mk x' y').In img.Rect → ¬ (x' = x ∧ y' = y) →
        img'.At x' y' = img.At x' y') ∧
      img'.Rect = img.Rect ∧ img'.PixelFormat = img.PixelFormat ∧
      img'.Pix.length = img.Pix.length := by
  have hn : 1 ≤ img.PixelFormat.BitsPerPixel / 8 := by
    rcases hbpp with h | h | h <;> simp [h]
  obtain ⟨hidx, hpix⟩ := idx_inPix img x y hwf hin hn
  obtain ⟨pix, hset, hlen, -, hframe⟩ := Set_ok img x y c hbpp hr hg hb hwf hin
  obtain ⟨h0, h1⟩ := hpix
  refine ⟨{ img with Pix := pix }, (img.idx x y).toNat, hset, ?_, ?_, hframe, ?_, rfl, rfl,
    hlen⟩
  · rw [Int.toNat_of_nonneg h0, hidx]
    ring
  · have : ((img.idx x y).toNat : Int) = img.idx x y := Int.toNat_of_nonneg h0
    omega
  · intro x' y' hin' hne
    apply At_congr img { img with Pix := pix } x' y' rfl rfl hlen
    intro k hk
    apply hframe
    have hd := idx_disjoint img x' y' x y hwf hin' hin hn hne
    obtain ⟨-, h0', h1'⟩ := idx_inPix img x' y' hwf hin' hn
    have e1 : ((img.idx x y).toNat : Int) = img.idx x y := Int.toNat_of_nonneg h0
    have e2 : ((img.idx x' y').toNat : Int) = img.idx x' y' := Int.toNat_of_nonneg h0'
    omega

/-- Claim C19, amended, at the pixel (1, 0) of a new image of two pixels with 16 bits per
pixel. -/
theorem C19_set_frame_witness :
    ∃ img' : PixelFormatImage, ∃ offset : Nat,
      (NewPixelFormatImage
        { BitsPerPixel := 16, BitDepth := 16, BigEndian := false, TrueColor := true,
          RedMax := 255, GreenMax := 255, BlueMax := 255, RedShift := 0, GreenShift := 8,
          BlueShift := 0 } (Image.Rect 0 0 2 1)).Set 1 0 { R := 1, G := 2, B := 3, A := 255 }
        = .ok img' ∧ offset = 2 ∧ img'.Pix[0]? = some 0 ∧ img'.Pix[1]? = some 0 := by
  obtain ⟨img', offset, hset, hoff, -, hframe, -⟩ := C19_set_frame (NewPixelFormatImage
    { BitsPerPixel := 16, BitDepth := 16, BigEndian := false, TrueColor := true,
      RedMax := 255, GreenMax := 255, BlueMax := 255, RedShift := 0, GreenShift := 8,
      BlueShift := 0 } (Image.Rect 0 0 2 1)) 1 0 { R := 1, G := 2, B := 3, A := 255 }
    (by decide) (by decide) (by decide) (by decide) (by decide) (by decide)
  have h2 : offset = 2 := by
    have : (offset : Int) = 2 := by rw [hoff]; decide
    omega
  refine ⟨img', offset, hset, h2, ?_, ?_⟩
  · rw [hframe 0 (by omega)]; decide
  · rw [hframe 1 (by omega)]; decide

end PixelClaims

section ReversalLemmas

open Binary Image Rfb Serve

/-- The reduction to the range of `int` keeps a multiple of 4 a multiple of 4. -/
theorem wrapInt_dvd4 (n : Int) (h : 4 ∣ n) : 4 ∣ wrapInt n := by
  obtain ⟨k, rfl⟩ := h
  unfold wrapInt
  omega

/-- With 32 bits per pixel every byte offset `idx` computes is a multiple of 4, whatever the
point. -/
theorem idx_dvd4 (img : PixelFormatImage) (h32 : img.PixelFormat.BitsPerPixel = 32)
    (x y : Int) : 4 ∣ img.idx x y := by
  unfold PixelFormatImage.idx
  simp only [h32, iadd, imul]
  apply wrapInt_dvd4
  apply dvd_add
  · apply wrapInt_dvd4
    apply Dvd.dvd.mul_right
    apply wrapInt_dvd4
    exact Dvd.intro _ rfl
  · apply wrapInt_dvd4
    exact Dvd.intro _ rfl

/-- What a successful `Set` does with 32 bits per pixel. -/
theorem Set_32 (img img' : PixelFormatImage) (x y : Int) (c : NRGBA)
    (h32 : img.PixelFormat.BitsPerPixel = 32) (h : img.Set x y c = .ok img') :
    img.inPix (img.idx x y) 4 ∧
    img'.Pix = img.bo.PutUint32 img.Pix (img.idx x y).toNat (img.PixelFormat.pack c) := by
  have e8 : ¬ ((32 : Nat) = 8) := by decide
  have e16 : ¬ ((32 : Nat) = 16) := by decide
  unfold PixelFormatImage.Set at h
  simp only [h32, e8, e16, if_false, if_true] at h
  split_ifs at h with h1 h2
  simp only [Except.ok.injEq] at h
  subst h
  exact ⟨h2, rfl⟩

/-- The relation between the buffers is symmetric. -/
theorem PixelsReversed_symm (p q : List Nat) (h : PixelsReversed p q) : PixelsReversed q p := by
  intro k j hj
  have := h k (3 - j) (by omega)
  rw [show 3 - (3 - j) = j by omega] at this
  exact this.symm

/-- Writing the same `uint32` at the same pixel in the two byte orders keeps the buffers
byte-reversed pixel by pixel. -/
theorem PixelsReversed_put (p q : List Nat) (i v : Nat) (hi : 4 ∣ i) (hp : i + 4 ≤ p.length)
    (hq : i + 4 ≤ q.length) (h : PixelsReversed p q) :
    PixelsReversed (ByteOrder.BigEndian.PutUint32 p i v)
      (ByteOrder.LittleEndian.PutUint32 q i v) := by
  obtain ⟨m, rfl⟩ := hi
  intro k j hj
  have hkj := h k j hj
  simp only [ByteOrder.PutUint32, List.getElem?_set, List.length_set]
  by_cases hk : k = m
  · subst hk
    have : j = 0 ∨ j = 1 ∨ j = 2 ∨ j = 3 := by omega
    rcases this with rfl | rfl | rfl | rfl <;>
      simp (disch := omega) only [if_pos, if_neg, Nat.add_zero, Nat.sub_zero,
        show 3 - 1 = 2 from rfl, show 3 - 2 = 1 from rfl, show 3 - 3 = 0 from rfl, if_true]
  · simp (disch := omega) only [if_neg]
    exact hkj

/-- Two buffers of zero bytes hold the same pixels. -/
theorem PixelsReversed_replicate (n : Nat) :
    PixelsReversed (List.replicate (4 * n) 0) (List.replicate (4 * n) 0) := by
  intro k j hj
  simp only [List.getElem?_replicate]
  split_ifs <;> first | rfl | omega

/-- The buffers of two new images with 32 bits per pixel and the same bounds hold the same
pixels: they are all zero, and of a length that is a multiple of 4. -/
theorem PixelsReversed_new (pfa pfb : PixelFormat) (bounds : Rectangle)
    (ha : pfa.BitsPerPixel = 32) (hb : pfb.BitsPerPixel = 32) :
    PixelsReversed (NewPixelFormatImage pfa bounds).Pix (NewPixelFormatImage pfb bounds).Pix := by
  simp only [NewPixelFormatImage, ha, hb]
  have hd : (4 : Int) ∣ imul (imul ((32 / 8 : Nat) : Int) bounds.Dx) bounds.Dy := by
    simp only [imul]
    apply wrapInt_dvd4
    apply Dvd.dvd.mul_right
    apply wrapInt_dvd4
    exact Dvd.intro _ rfl
  obtain ⟨m, hm⟩ := hd
  have : (imul (imul ((32 / 8 : Nat) : Int) bounds.Dx) bounds.Dy).toNat = 4 * m.toNat := by
    omega
  rw [this]
  exact PixelsReversed_replicate _

/-- A call of `Set` that completes on two images with 32 bits per pixel, the same bounds,
maxima and shifts and opposite byte orders keeps their buffers byte-reversed pixel by
pixel. -/
theorem Set_reversed (a b a' b' : PixelFormatImage) (x y : Int) (c : NRGBA)
    (hrect : a.Rect = b.Rect) (ha : a.PixelFormat.BitsPerPixel = 32)
    (hb : b.PixelFormat.BitsPerPixel = 32)
    (hrm : a.PixelFormat.RedMax = b.PixelFormat.RedMax)
    (hgm : a.PixelFormat.GreenMax = b.PixelFormat.GreenMax)
    (hbm : a.PixelFormat.BlueMax = b.PixelFormat.BlueMax)
    (hrs : a.PixelFormat.RedShift = b.PixelFormat.RedShift)
    (hgs : a.PixelFormat.GreenShift = b.PixelFormat.GreenShift)
    (hbs : a.PixelFormat.BlueShift = b.PixelFormat.BlueShift)
    (hend : a.PixelFormat.BigEndian = !b.PixelFormat.BigEndian)
    (hrev : PixelsReversed a.Pix b.Pix)
    (hsa : a.Set x y c = .ok a') (hsb : b.Set x y c = .ok b') :
    PixelsReversed a'.Pix b'.Pix := by
  obtain ⟨⟨ha0, ha1⟩, hpa⟩ := Set_32 a a' x y c ha hsa
  obtain ⟨⟨hb0, hb1⟩, hpb⟩ := Set_32 b b' x y c hb hsb
  have hidx : b.idx x y = a.idx x y := by
    unfold PixelFormatImage.idx
    rw [hrect, ha, hb]
  have hpack : b.PixelFormat.pack c = a.PixelFormat.pack c := by
    unfold PixelFormat.pack
    rw [hrm, hgm, hbm, hrs, hgs, hbs]
  obtain ⟨m, hm⟩ := idx_dvd4 a ha x y
  have hdvd : 4 ∣ (a.idx x y).toNat := ⟨m.toNat, by omega⟩
  have e : ((a.idx x y).toNat : Int) = a.idx x y := Int.toNat_of_nonneg ha0
  rw [hidx] at hpb hb0 hb1
  rw [hpa, hpb, hpack]
  unfold PixelFormatImage.bo
  cases hbe : b.PixelFormat.BigEndian with
  | false =>
    rw [hbe] at hend
    simp only [Bool.not_false] at hend
    simp only [hend, hbe, if_true, Bool.false_eq_true, if_false]
    exact PixelsReversed_put _ _ _ _ hdvd (by omega) (by omega) hrev
  | true =>
    rw [hbe] at hend
    simp only [Bool.not_true] at hend
    simp only [hend, hbe, if_true, Bool.false_eq_true, if_false]
    exact PixelsReversed_symm _ _
      (PixelsReversed_put _ _ _ _ hdvd (by omega) (by omega) (PixelsReversed_symm _ _ hrev))

/-- The same calls of `Set` on two images with 32 bits per pixel, the same bounds, maxima
and shifts and opposite byte orders keep their buffers byte-reversed pixel by pixel. -/
theorem paint_reversed (sets : List SetCall) :
    ∀ (a b a' b' : PixelFormatImage), a.Rect = b.Rect → a.PixelFormat.BitsPerPixel = 32 →
      b.PixelFormat.BitsPerPixel = 32 →
      a.PixelFormat.RedMax = b.PixelFormat.RedMax →
      a.PixelFormat.GreenMax = b.PixelFormat.GreenMax →
      a.PixelFormat.BlueMax = b.PixelFormat.BlueMax →
      a.PixelFormat.RedShift = b.PixelFormat.RedShift →
      a.PixelFormat.GreenShift = b.PixelFormat.GreenShift →
      a.PixelFormat.BlueShift = b.PixelFormat.BlueShift →
      a.PixelFormat.BigEndian = (!b.PixelFormat.BigEndian) →
      PixelsReversed a.Pix b.Pix →
      paint a sets = .ok a' → paint b sets = .ok b' →
      PixelsReversed a'.Pix b'.Pix := by
  induction sets with
  | nil =>
    intro a b a' b' _ _ _ _ _ _ _ _ _ _ hrev hpa hpb
    simp only [paint, Except.ok.injEq] at hpa hpb
    subst hpa hpb
    exact hrev
  | cons s rest ih =>
    intro a b a' b' hrect ha hb hrm hgm hbm hrs hgs hbs hend hrev hpa hpb
    simp only [paint] at hpa hpb
    split at hpa
    · cases hpa
    · rename_i a1 hsa
      split at hpb
      · cases hpb
      · rename_i b1 hsb
        obtain ⟨-, fa2, fa3⟩ := Set_frame _ _ _ _ _ hsa
        obtain ⟨-, fb2, fb3⟩ := Set_frame _ _ _ _ _ hsb
        exact ih a1 b1 a' b' (by rw [fa2, fb2, hrect]) (by rw [fa3, ha]) (by rw [fb3, hb])
          (by rw [fa3, fb3, hrm]) (by rw [fa3, fb3, hgm]) (by rw [fa3, fb3, hbm])
          (by rw [fa3, fb3, hrs]) (by rw [fa3, fb3, hgs]) (by rw [fa3, fb3, hbs])
          (by rw [fa3, fb3, hend])
          (Set_reversed a b a1 b1 s.x s.y s.c hrect ha hb hrm hgm hbm hrs hgs hbs hend hrev
            hsa hsb) hpa hpb

/-- For two well-formed images with 32 bits per pixel, the same bounds and byte-reversed
buffers, the four bytes of a pixel of the bounds in one are the reverse of its four bytes in
the other. -/
theorem pixelBytes_reversed (a b : PixelFormatImage) (x y : Int) (hrect : a.Rect = b.Rect)
    (ha : a.PixelFormat.BitsPerPixel = 32) (hb : b.PixelFormat.BitsPerPixel = 32)
    (hwfa : a.WellFormed) (hwfb : b.WellFormed) (hrev : PixelsReversed a.Pix b.Pix)
    (hin : (Point.mk x y).In a.Rect) :
    a.pixelBytes x y = (b.pixelBytes x y).reverse ∧ (a.pixelBytes x y).length = 4 := by
  obtain ⟨-, ha0, ha1⟩ := idx_inPix a x y hwfa hin (by simp [ha])
  obtain ⟨-, hb0, hb1⟩ := idx_inPix b x y hwfb (hrect ▸ hin) (by simp [hb])
  have hidx : b.idx x y = a.idx x y := by
    unfold PixelFormatImage.idx
    rw [hrect, ha, hb]
  obtain ⟨m, hm⟩ := idx_dvd4 a ha x y
  have e : ((a.idx x y).toNat : Int) = a.idx x y := Int.toNat_of_nonneg ha0
  have hi : (a.idx x y).toNat = 4 * m.toNat := by omega
  rw [hidx] at hb0 hb1
  rw [ha] at ha1
  rw [hb] at hb1
  simp only [PixelFormatImage.pixelBytes, hidx, ha, hb, hi]
  have hla : ((a.Pix.drop (4 * m.toNat)).take (32 / 8)).length = 4 := by
    simp only [List.length_take, List.length_drop]; omega
  have hlb : ((b.Pix.drop (4 * m.toNat)).take (32 / 8)).length = 4 := by
    simp only [List.length_take, List.length_drop]; omega
  refine ⟨?_, hla⟩
  apply List.ext_getElem?
  intro j
  by_cases hj : j < 4
  · rw [List.getElem?_reverse (by omega), hlb, getElem?_drop_take, getElem?_drop_take,
      if_pos (by omega), if_pos (by omega)]
    have := hrev m.toNat j hj
    rw [this]
  · rw [List.getElem?_eq_none (by omega), List.getElem?_eq_none (by
      rw [List.length_reverse]; omega)]

end ReversalLemmas

section ReversalClaims

open Binary Image Rfb Serve

/-- Claim C20: with 32 bits per pixel and maxima 255, for two well-formed images with the
same bounds and shifts and opposite `BigEndian` whose buffers hold the same pixels at the
start (as two new images do), after the same calls of `Set` the four bytes of every pixel in
one buffer are the reverse of the four bytes of the same pixel in the other buffer. -/
theorem C20_byte_reversal (a b a' b' : PixelFormatImage) (sets : List SetCall)
    (hrect : a.Rect = b.Rect) (ha : a.PixelFormat.BitsPerPixel = 32)
    (hb : b.PixelFormat.BitsPerPixel = 32)
    (har : a.PixelFormat.RedMax = 255) (hag : a.PixelFormat.GreenMax = 255)
    (hab : a.PixelFormat.BlueMax = 255)
    (hbr : b.PixelFormat.RedMax = 255) (hbg : b.PixelFormat.GreenMax = 255)
    (hbb : b.PixelFormat.BlueMax = 255)
    (hrs : a.PixelFormat.RedShift = b.PixelFormat.RedShift)
    (hgs : a.PixelFormat.GreenShift = b.PixelFormat.GreenShift)
    (hbs : a.PixelFormat.BlueShift = b.PixelFormat.BlueShift)
    (hend : a.PixelFormat.BigEndian = !b.PixelFormat.BigEndian)
    (hwfa : a.WellFormed) (hwfb : b.WellFormed)
    (hrev : PixelsReversed a.Pix b.Pix)
    (hpa : paint a sets = .ok a') (hpb : paint b sets = .ok b') :
    PixelsReversed a'.Pix b'.Pix ∧
    ∀ x y, (Point.mk x y).In a.Rect →
      a'.pixelBytes x y = (b'.pixelBytes x y).reverse ∧ (a'.pixelBytes x y).length = 4 := by
  have hrev' := paint_reversed sets a b a' b' hrect ha hb (by rw [har, hbr]) (by rw [hag, hbg])
    (by rw [hab, hbb]) hrs hgs hbs hend hrev hpa hpb
  obtain ⟨fa1, fa2, fa3⟩ := paint_frame _ _ _ hpa
  obtain ⟨fb1, fb2, fb3⟩ := paint_frame _ _ _ hpb
  refine ⟨hrev', ?_⟩
  intro x y hin
  have hwfa' : a'.WellFormed := by
    unfold PixelFormatImage.WellFormed at hwfa ⊢
    rw [fa1, fa2, fa3]; exact hwfa
  have hwfb' : b'.WellFormed := by
    unfold PixelFormatImage.WellFormed at hwfb ⊢
    rw [fb1, fb2, fb3]; exact hwfb
  exact pixelBytes_reversed a' b' x y (by rw [fa2, fb2, hrect]) (by rw [fa3, ha])
    (by rw [fb3, hb]) hwfa' hwfb' hrev' (by rw [fa2]; exact hin)

/-- Claim C20 for two new images of two pixels, one big-endian and one little-endian, after
`Set(1, 0, (1, 2, 3))` on both: the bytes of the pixel (1, 0) are 0, 1, 2, 3 in the first and
3, 2, 1, 0 in the second. -/
theorem C20_byte_reversal_witness :
    PixelFormatImage.pixelBytes
        { Pix := [0, 0, 0, 0, 0, 1, 2, 3], Rect := Image.Rect 0 0 2 1,
          PixelFormat :=
            { BitsPerPixel := 32, BitDepth := 24, BigEndian := true, TrueColor := true,
              RedMax := 255, GreenMax := 255, BlueMax := 255, RedShift := 16, GreenShift := 8,
              BlueShift := 0 } } 1 0
      = (PixelFormatImage.pixelBytes
        { Pix := [0, 0, 0, 0, 3, 2, 1, 0], Rect := Image.Rect 0 0 2 1,
          PixelFormat :=
            { BitsPerPixel := 32, BitDepth := 24, BigEndian := false, TrueColor := true,
              RedMax := 255, GreenMax := 255, BlueMax := 255, RedShift := 16, GreenShift := 8,
              BlueShift := 0 } } 1 0).reverse :=
  ((C20_byte_reversal
    (NewPixelFormatImage
      { BitsPerPixel := 32, BitDepth := 24, BigEndian := true, TrueColor := true,
        RedMax := 255, GreenMax := 255, BlueMax := 255, RedShift := 16, GreenShift := 8,
        BlueShift := 0 } (Image.Rect 0 0 2 1))
    (NewPixelFormatImage
      { BitsPerPixel := 32, BitDepth := 24, BigEndian := false, TrueColor := true,
        RedMax := 255, GreenMax := 255, BlueMax := 255, RedShift := 16, GreenShift := 8,
        BlueShift := 0 } (Image.Rect 0 0 2 1))
    { Pix := [0, 0, 0, 0, 0, 1, 2, 3], Rect := Image.Rect 0 0 2 1,
      PixelFormat :=
        { BitsPerPixel := 32, BitDepth := 24, BigEndian := true, TrueColor := true,
          RedMax := 255, GreenMax := 255, BlueMax := 255, RedShift := 16, GreenShift := 8,
          BlueShift := 0 } }
    { Pix := [0, 0, 0, 0, 3, 2, 1, 0], Rect := Image.Rect 0 0 2 1,
      PixelFormat :=
        { BitsPerPixel := 32, BitDepth := 24, BigEndian := false, TrueColor := true,
          RedMax := 255, GreenMax := 255, BlueMax := 255, RedShift := 16, GreenShift := 8,
          BlueShift := 0 } }
    [{ x := 1, y := 0, c := { R := 1, G := 2, B := 3, A := 255 } }]
    rfl rfl rfl rfl rfl rfl rfl rfl rfl rfl rfl rfl rfl (by decide) (by decide)
    (PixelsReversed_replicate 2) (by decide) (by decide)).2 1 0 (by decide)).1

end ReversalClaims

/-! ## The client messages SetEncodings and ClientCutText, unsupported pixel formats -/

section MessageLemmas

open Binary Image Rfb Serve Dirgui

/-- The message loop ends with the panic of a turn that panics. -/
theorem loop_of_abort {σ : Type} (updateUI : UpdateUI σ) (s : Session σ) (conn w : List Nat)
    (p : Abort) (h : step updateUI s conn = .abort p w) (fuel : Nat) :
    loop updateUI (fuel + 1) s conn = some (.panic p, w) := by
  simp only [loop, h]

/-- A painting with at least one call of `Set` on an image of an unsupported pixel format
panics: the first call does. -/
theorem paint_unsupported (img : PixelFormatImage) (sets : List SetCall) (hne : sets ≠ [])
    (hun : ¬ ((img.PixelFormat.BitsPerPixel = 8 ∨ img.PixelFormat.BitsPerPixel = 16
        ∨ img.PixelFormat.BitsPerPixel = 32) ∧
      img.PixelFormat.RedMax = 255 ∧ img.PixelFormat.GreenMax = 255 ∧
      img.PixelFormat.BlueMax = 255)) :
    ∃ p, paint img sets = .error p := by
  cases sets with
  | nil => exact absurd rfl hne
  | cons s rest =>
    simp only [paint]
    cases h : img.Set s.x s.y s.c with
    | error p => exact ⟨p, rfl⟩
    | ok img1 => exact absurd (Set_ok_supported img img1 s.x s.y s.c h) hun

/-- The turn that reads a FramebufferUpdateRequest whose painting panics in `Set` ends with
that panic, with nothing written. -/
theorem step_updateRequest_abort {σ : Type} (updateUI : UpdateUI σ) (s : Session σ)
    (hs : s.Valid) (inc x y w h : Nat) (hx : x < 65536) (hy : y < 65536) (hw : w < 65536)
    (hh : h < 65536) (rest : List Nat) (painted : Painted σ) (p : Panic)
    (hui : updateUI s.ui (some (NewPixelFormatImage s.pixelFormat
      (Rect x y (iadd x w) (iadd y h)))) s.keyEvent s.pointerEvent = some painted)
    (hpaint : paint (NewPixelFormatImage s.pixelFormat (Rect x y (iadd x w) (iadd y h)))
      painted.sets = .error p) :
    step updateUI s (3 :: inc :: x / 256 :: x % 256 :: y / 256 :: y % 256 :: w / 256
        :: w % 256 :: h / 256 :: h % 256 :: rest)
      = .abort (.image p) [] := by
  obtain ⟨hbuf, hw0, hpf⟩ := hs
  have hreq : FramebufferUpdateRequest.Read
      (copyAt (copyAt s.buf 0 [3]) 0 [inc, x / 256, x % 256, y / 256, y % 256, w / 256,
        w % 256, h / 256, h % 256]) 0 bo
      = { Incremental := inc % 256 != 0, X := x, Y := y, Width := w, Height := h } := by
    rw [copyAt_zero _ _ (by simp [length_copyAt, hbuf])]
    simp only [FramebufferUpdateRequest.Read, bo, ByteOrder.Uint16]
    simp only [byteAt, List.getD_eq_getElem?_getD]
    simp
    omega
  have ht : byteAt (copyAt s.buf 0 [3]) 0 = 3 := by
    rw [copyAt_zero _ _ (by simp [hbuf])]
    simp [byteAt]
  unfold step
  have hrd : readFull (inc :: x / 256 :: x % 256 :: y / 256 :: y % 256 :: w / 256
        :: w % 256 :: h / 256 :: h % 256 :: rest) FramebufferUpdateRequestEncodingLength
      = some ([inc, x / 256, x % 256, y / 256, y % 256, w / 256, w % 256, h / 256, h % 256],
          rest) := by
    simp [readFull, FramebufferUpdateRequestEncodingLength]
  simp only [readFull_cons1, ht, hrd, hreq, hui, hpaint, ↓reduceIte,
    show ¬ ((3 : Nat) = 0) by decide, show ¬ ((3 : Nat) = 2) by decide]

end MessageLemmas

section MessageClaims

open Binary Image Rfb Serve Dirgui

/-- Claim C23 as stated does not hold: after a SetPixelFormat to 16 bits per pixel with the
maxima 31, 63, 31, the FramebufferUpdateRequest (0,0,2,1) does not make the session return an
error: painting the image panics in `Set`, and the message loop ends with that panic. -/
theorem C23_unsupported_format_counterexample :
    loop examplePainter 2 (Session.initial (List.replicate 256 0) ())
        (0 :: [0, 0, 0] ++ [16, 16, 0, 1, 0, 31, 0, 63, 0, 31, 11, 5, 0, 0, 0, 0]
          ++ [3, 0, 0, 0, 0, 0, 0, 2, 0, 1])
      = some (.panic (.image (.badMax 31 63 31)), []) := by
  obtain ⟨buf1, h1⟩ := step_SetPixelFormat examplePainter
    (Session.initial (List.replicate 256 0) ()) [0, 0, 0]
    [16, 16, 0, 1, 0, 31, 0, 63, 0, 31, 11, 5, 0, 0, 0, 0] [3, 0, 0, 0, 0, 0, 0, 2, 0, 1]
    (List.length_replicate _ _) (by decide) (by decide)
  have hv := step_valid examplePainter _ _ _ _ _
    (⟨List.length_replicate _ _, rfl, by decide⟩ :
      (Session.initial (List.replicate 256 0) ()).Valid) h1
  have h2 := step_updateRequest_abort examplePainter _ hv 0 0 0 2 1 (by decide) (by decide)
    (by decide) (by decide) []
    { state := (), windowRect := Rect 0 0 320 8,
      sets := [{ x := 0, y := 0, c := { R := 1, G := 2, B := 3, A := 255 } }] }
    (.badMax 31 63 31) rfl rfl
  simp only [loop, h1]
  rw [show (3 :: 0 :: 0 / 256 :: 0 % 256 :: 0 / 256 :: 0 % 256 :: 2 / 256 :: 2 % 256
    :: 1 / 256 :: 1 % 256 :: ([] : List Nat)) = [3, 0, 0, 0, 0, 0, 0, 2, 0, 1] from rfl] at h2
  simp only [h2, List.append_nil]

/-- Claim C23, amended: when a client has sent SetPixelFormat with an unsupported format (a
channel maximum other than 255, or `BitsPerPixel` not 8, 16 or 32), then, after any number of
turns that read no SetPixelFormat, a FramebufferUpdateRequest for which `updateUI` makes at
least one call of `Set` on the image (as it does for every rectangle that is not empty) makes
that call panic: the turn, and so `rfbServe`, ends with the panic, with no byte written, and
returns no error. -/
theorem C23_unsupported_format {σ : Type} (updateUI : UpdateUI σ) (s0 : Session σ)
    (hs0 : s0.Valid) (pad b conn1 : List Nat) (hpad : pad.length = 3) (hb : b.length = 16)
    (hun : ¬ (((PixelFormat.Read b 0 bo).BitsPerPixel = 8
        ∨ (PixelFormat.Read b 0 bo).BitsPerPixel = 16
        ∨ (PixelFormat.Read b 0 bo).BitsPerPixel = 32) ∧
      (PixelFormat.Read b 0 bo).RedMax = 255 ∧ (PixelFormat.Read b 0 bo).GreenMax = 255 ∧
      (PixelFormat.Read b 0 bo).BlueMax = 255)) :
    ∃ buf1, step updateUI s0 (0 :: pad ++ b ++ conn1)
        = .ok { s0 with buf := buf1, pixelFormat := PixelFormat.Read b 0 bo } conn1 [] ∧
      ∀ (n : Nat) (s2 : Session σ) (w2 : List Nat) (inc x y w h : Nat) (rest : List Nat)
        (painted : Painted σ),
        x < 65536 → y < 65536 → w < 65536 → h < 65536 →
        turnsKeepingFormat updateUI n
            { s0 with buf := buf1, pixelFormat := PixelFormat.Read b 0 bo } conn1
          = some (s2, 3 :: inc :: x / 256 :: x % 256 :: y / 256 :: y % 256 :: w / 256
              :: w % 256 :: h / 256 :: h % 256 :: rest, w2) →
        updateUI s2.ui (some (NewPixelFormatImage (PixelFormat.Read b 0 bo)
          (Rect x y (iadd x w) (iadd y h)))) s2.keyEvent s2.pointerEvent = some painted →
        painted.sets ≠ [] →
        ∃ p, step updateUI s2 (3 :: inc :: x / 256 :: x % 256 :: y / 256 :: y % 256
              :: w / 256 :: w % 256 :: h / 256 :: h % 256 :: rest)
            = .abort (.image p) [] ∧
          ∀ fuel, loop updateUI (fuel + 1) s2 (3 :: inc :: x / 256 :: x % 256 :: y / 256
              :: y % 256 :: w / 256 :: w % 256 :: h / 256 :: h % 256 :: rest)
            = some (.panic (.image p), []) := by
  obtain ⟨buf1, hstep1⟩ := step_SetPixelFormat updateUI s0 pad b conn1 hs0.1 hpad hb
  have hv1 : Session.Valid { s0 with buf := buf1, pixelFormat := PixelFormat.Read b 0 bo } :=
    step_valid updateUI s0 _ _ _ _ hs0 hstep1
  refine ⟨buf1, hstep1, ?_⟩
  intro n s2 w2 inc x y w h rest painted hx hy hw hh hturns hui hne
  obtain ⟨hv2, hf2⟩ := turnsKeepingFormat_keeps updateUI n _ s2 conn1 _ w2 hv1 hturns
  simp only at hf2
  rw [← hf2] at hui hun
  obtain ⟨p, hp⟩ := paint_unsupported (NewPixelFormatImage s2.pixelFormat
    (Rect x y (iadd x w) (iadd y h))) painted.sets hne hun
  have hstep := step_updateRequest_abort updateUI s2 hv2 inc x y w h hx hy hw hh rest painted p
    hui hp
  exact ⟨p, hstep, fun fuel => loop_of_abort _ _ _ _ _ hstep fuel⟩

/-- Claim C23, amended, for the SetPixelFormat to 16 bits per pixel with the maxima 31, 63,
31 followed at once by the update request (0,0,2,1), on which the example painter sets one
pixel: the turn of the request panics. -/
theorem C23_unsupported_format_witness :
    ∃ s2 p, step examplePainter s2 [3, 0, 0, 0, 0, 0, 0, 2, 0, 1] = .abort (.image p) [] ∧
      step examplePainter (Session.initial (List.replicate 256 0) ())
          (0 :: [0, 0, 0] ++ [16, 16, 0, 1, 0, 31, 0, 63, 0, 31, 11, 5, 0, 0, 0, 0]
            ++ [3, 0, 0, 0, 0, 0, 0, 2, 0, 1])
        = .ok s2 [3, 0, 0, 0, 0, 0, 0, 2, 0, 1] [] := by
  obtain ⟨buf1, h1, hall⟩ := C23_unsupported_format examplePainter
    (Session.initial (List.replicate 256 0) ()) ⟨List.length_replicate _ _, rfl, by decide⟩
    [0, 0, 0] [16, 16, 0, 1, 0, 31, 0, 63, 0, 31, 11, 5, 0, 0, 0, 0]
    [3, 0, 0, 0, 0, 0, 0, 2, 0, 1] (by decide) (by decide) (by decide)
  obtain ⟨p, hp, -⟩ := hall 0 _ [] 0 0 0 2 1 []
    { state := (), windowRect := Rect 0 0 320 8,
      sets := [{ x := 0, y := 0, c := { R := 1, G := 2, B := 3, A := 255 } }] }
    (by decide) (by decide) (by decide) (by decide) rfl rfl (by simp)
  exact ⟨_, p, hp, h1⟩

end MessageClaims

/-! ## Package image/draw and the nested-GUI client: lemmas -/

section RepackLemmas

open Binary Image Rfb Serve draw Ui

end RepackLemmas

section DrawLemmas

open Binary Image Rfb Serve draw Ui

/-- What one call of `Set` at a point of the bounds does to a well-formed image of a
supported format: the image stays well-formed, `At` at the point gives the colour decoded
from the pixel stored, and at every other point of the bounds the bytes of the pixel and the
result of `At` are as before. -/
theorem Set_effect (img : PixelFormatImage) (x y : Int) (c : NRGBA)
    (hbpp : img.PixelFormat.BitsPerPixel = 8 ∨ img.PixelFormat.BitsPerPixel = 16
      ∨ img.PixelFormat.BitsPerPixel = 32)
    (hr : img.PixelFormat.RedMax = 255) (hg : img.PixelFormat.GreenMax = 255)
    (hb : img.PixelFormat.BlueMax = 255)
    (hwf : img.WellFormed) (hin : (Point.mk x y).In img.Rect) :
    ∃ img', img.Set x y c = .ok img' ∧ img'.Rect = img.Rect ∧
      img'.PixelFormat = img.PixelFormat ∧ img'.WellFormed ∧
      img'.At x y = .ok (decode img.PixelFormat
        (img.PixelFormat.pack c % 2 ^ img.PixelFormat.BitsPerPixel)) ∧
      img'.pixelBytes x y = img.PixelFormat.encode (img.PixelFormat.pack c) ∧
      ∀ x' y', (Point.mk x' y').In img.Rect → ¬ (x' = x ∧ y' = y) →
        img'.At x' y' = img.At x' y' ∧ img'.pixelBytes x' y' = img.pixelBytes x' y' := by
  have hn : 1 ≤ img.PixelFormat.BitsPerPixel / 8 := by
    rcases hbpp with h | h | h <;> simp [h]
  obtain ⟨img', hset, hrect, hfmt, hlen, hat⟩ :=
    At_Set_same img x y c hbpp hr hg hb hwf hin
  obtain ⟨pix, hset2, -, hbytes, hframe⟩ := Set_ok img x y c hbpp hr hg hb hwf hin
  have himg : img' = { img with Pix := pix } := by
    rw [hset] at hset2
    exact Except.ok.inj hset2
  obtain ⟨-, h0, h1⟩ := idx_inPix img x y hwf hin hn
  refine ⟨img', hset, hrect, hfmt, ?_, hat, ?_, ?_⟩
  · unfold PixelFormatImage.WellFormed at hwf ⊢
    rw [hlen, hrect, hfmt]; exact hwf
  · rw [himg]
    exact hbytes
  · intro x' y' hin' hne
    have hd := idx_disjoint img x' y' x y hwf hin' hin hn hne
    obtain ⟨-, h0', h1'⟩ := idx_inPix img x' y' hwf hin' hn
    have e1 : ((img.idx x y).toNat : Int) = img.idx x y := Int.toNat_of_nonneg h0
    have e2 : ((img.idx x' y').toNat : Int) = img.idx x' y' := Int.toNat_of_nonneg h0'
    have hb' : ∀ k, k < img.PixelFormat.BitsPerPixel / 8 →
        img'.Pix[(img.idx x' y').toNat + k]? = img.Pix[(img.idx x' y').toNat + k]? := by
      intro k hk
      rw [himg]
      apply hframe
      omega
    refine ⟨At_congr img img' x' y' hrect hfmt hlen hb', ?_⟩
    have hidx : img'.idx x' y' = img.idx x' y' := by
      unfold PixelFormatImage.idx
      rw [hrect, hfmt]
    unfold PixelFormatImage.pixelBytes
    rw [hidx, hfmt]
    exact drop_take_congr _ _ _ _ hb'

/-- A point is in the intersection of two rectangles when it is in both. -/
theorem In_Intersect (p : Point) (r s : Rectangle) :
    p.In (r.Intersect s) ↔ p.In r ∧ p.In s := by
  obtain ⟨px, py⟩ := p
  obtain ⟨⟨a, b⟩, ⟨c, d⟩⟩ := r
  obtain ⟨⟨a', b'⟩, ⟨c', d'⟩⟩ := s
  simp only [Rectangle.Intersect, Rectangle.Empty, ZR, Point.In]
  split_ifs <;> simp_all <;> omega

end DrawLemmas

section DrawLoopLemmas

open Binary Image Rfb Serve draw Ui

end DrawLoopLemmas

section ClientLemmas

open Binary Image Rfb Serve draw Ui

end ClientLemmas

/-! ## The nested-GUI client: claim C24 -/

section ClientClaims

open Binary Image Rfb Serve draw Ui

end ClientClaims

/-! ## New images and the 32-bit round trip: claims C25 and C26 -/

section NewImageLemmas

open Binary Image Rfb Serve

/-- The length `NewPixelFormatImage` computes for a well-formed rectangle whose number of
bytes fits the type `int`: no product wraps around. -/
theorem newImage_length (pf : PixelFormat) (bounds : Rectangle)
    (hn : 1 ≤ pf.BitsPerPixel / 8)
    (hx : bounds.Min.X ≤ bounds.Max.X) (hy : bounds.Min.Y ≤ bounds.Max.Y)
    (hsize : ((pf.BitsPerPixel / 8 : Nat) : Int) * (bounds.Max.X - bounds.Min.X)
      * (bounds.Max.Y - bounds.Min.Y) < 9223372036854775808) :
    imul (imul ((pf.BitsPerPixel / 8 : Nat) : Int) bounds.Dx) bounds.Dy
      = ((pf.BitsPerPixel / 8 : Nat) : Int) * (bounds.Max.X - bounds.Min.X)
        * (bounds.Max.Y - bounds.Min.Y) := by
  generalize hdx : bounds.Max.X - bounds.Min.X = dx at hsize
  generalize hdy : bounds.Max.Y - bounds.Min.Y = dy at hsize
  generalize hnn : ((pf.BitsPerPixel / 8 : Nat) : Int) = n at hsize
  have hn1 : 1 ≤ n := by rw [← hnn]; exact_mod_cast hn
  have hdx0 : 0 ≤ dx := by omega
  have hdy0 : 0 ≤ dy := by omega
  simp only [Rectangle.Dx, Rectangle.Dy, isub, imul, hdx, hdy]
  by_cases hy0 : dy = 0
  · subst hy0
    have : wrapInt 0 = 0 := by decide
    simp [this]
  · by_cases hx0 : dx = 0
    · subst hx0
      have : wrapInt 0 = 0 := by decide
      simp [this]
    · have hdx1 : 1 ≤ dx := by omega
      have hdy1 : 1 ≤ dy := by omega
      have hndx : 0 ≤ n * dx := Int.mul_nonneg (by omega) hdx0
      have h1 : n * dx ≤ n * dx * dy := le_mul_of_one_le_right hndx hdy1
      have h2 : dx ≤ n * dx := le_mul_of_one_le_left hdx0 hn1
      have h3 : dy ≤ n * dx * dy := by
        have : 1 ≤ n * dx := by omega
        exact le_mul_of_one_le_left hdy0 this
      rw [wrapInt_eq dx (by omega) (by omega), wrapInt_eq dy (by omega) (by omega),
        wrapInt_eq (n * dx) (by omega) (by omega), wrapInt_eq (n * dx * dy) (by omega) hsize]

/-- A new image for a well-formed rectangle whose number of bytes fits the type `int` has a
buffer of zero bytes of the length of the data model. -/
theorem newImage_wellFormed (pf : PixelFormat) (bounds : Rectangle)
    (hn : 1 ≤ pf.BitsPerPixel / 8)
    (hx : bounds.Min.X ≤ bounds.Max.X) (hy : bounds.Min.Y ≤ bounds.Max.Y)
    (hsize : ((pf.BitsPerPixel / 8 : Nat) : Int) * (bounds.Max.X - bounds.Min.X)
      * (bounds.Max.Y - bounds.Min.Y) < 9223372036854775808) :
    (NewPixelFormatImage pf bounds).Pix
      = List.replicate (((pf.BitsPerPixel / 8 : Nat) : Int) * (bounds.Max.X - bounds.Min.X)
        * (bounds.Max.Y - bounds.Min.Y)).toNat 0 ∧
    (NewPixelFormatImage pf bounds).WellFormed := by
  have hlen := newImage_length pf bounds hn hx hy hsize
  have hpos : 0 ≤ ((pf.BitsPerPixel / 8 : Nat) : Int) * (bounds.Max.X - bounds.Min.X)
      * (bounds.Max.Y - bounds.Min.Y) :=
    Int.mul_nonneg (Int.mul_nonneg (by omega) (by omega)) (by omega)
  constructor
  · simp only [NewPixelFormatImage, hlen]
  · simp only [PixelFormatImage.WellFormed, NewPixelFormatImage, hlen, List.length_replicate,
      Int.toNat_of_nonneg hpos, true_and]
    exact hsize

end NewImageLemmas

section NewImageClaims

open Binary Image Rfb Serve

/-- Claim C25 as stated does not hold for every image of such a format: on the image
`NewPixelFormatImage` builds in the canonical format of the server over (0,0)-(2^31,2^31),
whose buffer is empty because the number of bytes, 2^64, wraps around to 0 in the type `int`,
`Set` at the point (0,0) of the bounds indexes out of range, and no colour is returned. -/
theorem C25_overflow_counterexample :
    (Point.mk 0 0).In (Rect 0 0 2147483648 2147483648) ∧
    (NewPixelFormatImage canonicalPixelFormat (Rect 0 0 2147483648 2147483648)).Pix = [] ∧
    (NewPixelFormatImage canonicalPixelFormat (Rect 0 0 2147483648 2147483648)).setThenAt 0 0
        { R := 1, G := 2, B := 3, A := 255 } = .error .indexOutOfRange := by
  decide

/-- Claim C25, amended: with 32 bits per pixel, maxima 255 and channel shifts that are each
at most 24 and pairwise at least 8 apart, in either byte order, for an image whose buffer
holds exactly 4*dx*dy bytes, `dx` and `dy` being the width and the height of its bounds and
the product, not wrapped around, being less than 2^63, a point (x, y) of its bounds and
`uint8` values R, G, B: `At(x, y)` after `Set(x, y, c)` returns (R, G, B, 255) for the colour
`c` whose non-premultiplied form is (R, G, B, A), whatever the alpha A is. -/
theorem C25_at_after_set_32 (img : PixelFormatImage) (x y : Int) (r g b a : Nat)
    (hr : r < 256) (hg : g < 256) (hb : b < 256)
    (h32 : img.PixelFormat.BitsPerPixel = 32)
    (hrm : img.PixelFormat.RedMax = 255) (hgm : img.PixelFormat.GreenMax = 255)
    (hbm : img.PixelFormat.BlueMax = 255)
    (hrs : img.PixelFormat.RedShift ≤ 24) (hgs : img.PixelFormat.GreenShift ≤ 24)
    (hbs : img.PixelFormat.BlueShift ≤ 24)
    (hrg : img.PixelFormat.RedShift + 8 ≤ img.PixelFormat.GreenShift
      ∨ img.PixelFormat.GreenShift + 8 ≤ img.PixelFormat.RedShift)
    (hrb : img.PixelFormat.RedShift + 8 ≤ img.PixelFormat.BlueShift
      ∨ img.PixelFormat.BlueShift + 8 ≤ img.PixelFormat.RedShift)
    (hgb : img.PixelFormat.GreenShift + 8 ≤ img.PixelFormat.BlueShift
      ∨ img.PixelFormat.BlueShift + 8 ≤ img.PixelFormat.GreenShift)
    (hwf : img.WellFormed) (hin : (Point.mk x y).In img.Rect) :
    img.setThenAt x y { R := r, G := g, B := b, A := a }
      = .ok { R := r, G := g, B := b, A := 255 } := by
  obtain ⟨img', hset, -, -, -, hat⟩ := At_Set_same img x y { R := r, G := g, B := b, A := a }
    (Or.inr (Or.inr h32)) hrm hgm hbm hwf hin
  obtain ⟨cr, cg, cb⟩ := pack_channels img.PixelFormat { R := r, G := g, B := b, A := a }
    img.PixelFormat.BitsPerPixel (by omega) hrm hgm hbm
  have m : ∀ v : Nat, v < 256 → v &&& 255 = v := by
    intro v hv
    have := Nat.and_pow_two_sub_one_eq_mod v 8
    norm_num at this
    rw [this, Nat.mod_eq_of_lt hv]
  rw [cr (by omega) hrg.symm hrb.symm, cg (by omega) hrg hgb.symm, cb (by omega) hrb hgb]
    at hat
  simp only [hrm, hgm, hbm, m r hr, m g hg, m b hb] at hat
  simp only [PixelFormatImage.setThenAt, hset, hat]

/-- Claim C25, amended, for the canonical format of the server (shifts 24, 16, 8,
big-endian) and a colour with alpha 7. -/
theorem C25_at_after_set_32_witness :
    (NewPixelFormatImage canonicalPixelFormat (Rect 0 0 2 2)).setThenAt 1 1
        { R := 10, G := 20, B := 30, A := 7 }
      = .ok { R := 10, G := 20, B := 30, A := 255 } :=
  C25_at_after_set_32 (NewPixelFormatImage canonicalPixelFormat (Rect 0 0 2 2)) 1 1 10 20 30 7
    (by decide) (by decide) (by decide) rfl rfl rfl rfl (by decide) (by decide) (by decide)
    (by decide) (by decide) (by decide) (by decide) (by decide)

/-- Claim C26 as stated does not hold for every well-formed rectangle: for the rectangle
(0,0)-(2^32,2^32) and 8 bits per pixel the number of bytes, 2^64, wraps around to 0 in the
type `int`, the buffer is empty, and `At(0, 0)`, on a point of the bounds, indexes out of
range. -/
theorem C26_overflow_counterexample :
    (NewPixelFormatImage
      { BitsPerPixel := 8, BitDepth := 8, BigEndian := false, TrueColor := true,
        RedMax := 255, GreenMax := 255, BlueMax := 255, RedShift := 0, GreenShift := 0,
        BlueShift := 0 } (Rect 0 0 4294967296 4294967296)).Pix = [] ∧
    (Point.mk 0 0).In (Rect 0 0 4294967296 4294967296) ∧
    (NewPixelFormatImage
      { BitsPerPixel := 8, BitDepth := 8, BigEndian := false, TrueColor := true,
        RedMax := 255, GreenMax := 255, BlueMax := 255, RedShift := 0, GreenShift := 0,
        BlueShift := 0 } (Rect 0 0 4294967296 4294967296)).At 0 0
      = .error .indexOutOfRange := by
  refine ⟨by decide, by decide, by decide⟩

/-- Claim C26, amended: for every image built by `NewPixelFormatImage(format, rect)` with 8,
16 or 32 bits per pixel and a well-formed rectangle whose number of bytes (bpp/8)*dx*dy is
less than 2^63 (it fits the type `int`), the buffer has the length (bpp/8)*dx*dy and is all
zero, and for every (x, y) of the bounds the bytes from `idx(x, y)` to `idx(x, y) + bpp/8` lie
within the buffer, so `At` and `Set` do not index out of range there. -/
theorem C26_new_image (pf : PixelFormat) (bounds : Rectangle)
    (hbpp : pf.BitsPerPixel = 8 ∨ pf.BitsPerPixel = 16 ∨ pf.BitsPerPixel = 32)
    (hx : bounds.Min.X ≤ bounds.Max.X) (hy : bounds.Min.Y ≤ bounds.Max.Y)
    (hsize : ((pf.BitsPerPixel / 8 : Nat) : Int) * (bounds.Max.X - bounds.Min.X)
      * (bounds.Max.Y - bounds.Min.Y) < 9223372036854775808) :
    (NewPixelFormatImage pf bounds).Pix
      = List.replicate (((pf.BitsPerPixel / 8 : Nat) : Int) * (bounds.Max.X - bounds.Min.X)
        * (bounds.Max.Y - bounds.Min.Y)).toNat 0 ∧
    ((NewPixelFormatImage pf bounds).Pix.length : Int)
      = ((pf.BitsPerPixel / 8 : Nat) : Int) * (bounds.Max.X - bounds.Min.X)
        * (bounds.Max.Y - bounds.Min.Y) ∧
    ∀ x y, (Point.mk x y).In bounds →
      (NewPixelFormatImage pf bounds).inPix ((NewPixelFormatImage pf bounds).idx x y)
        (pf.BitsPerPixel / 8) ∧
      (NewPixelFormatImage pf bounds).At x y ≠ .error .indexOutOfRange ∧
      ∀ c, (NewPixelFormatImage pf bounds).Set x y c ≠ .error .indexOutOfRange := by
  have hn : 1 ≤ pf.BitsPerPixel / 8 := by
    rcases hbpp with h | h | h <;> simp [h]
  obtain ⟨hpix, hwf⟩ := newImage_wellFormed pf bounds hn hx hy hsize
  refine ⟨hpix, hwf.1, ?_⟩
  intro x y hin
  have hin' : (Point.mk x y).In (NewPixelFormatImage pf bounds).Rect := hin
  obtain ⟨-, hrange⟩ := idx_inPix (NewPixelFormatImage pf bounds) x y hwf hin' hn
  have hfmt : (NewPixelFormatImage pf bounds).PixelFormat = pf := rfl
  rw [hfmt] at hrange
  refine ⟨hrange, ?_, ?_⟩
  · intro h
    unfold PixelFormatImage.At at h
    rw [hfmt] at h
    rcases hbpp with h8 | h16 | h32
    · rw [h8] at hrange
      simp only [h8, if_true, hrange] at h
      split_ifs at h
      cases h
    · rw [h16] at hrange
      simp only [h16, if_true, hrange, show ¬ ((16 : Nat) = 8) by decide, if_false] at h
      split_ifs at h
      cases h
    · rw [h32] at hrange
      simp only [h32, if_true, hrange, show ¬ ((32 : Nat) = 8) by decide,
        show ¬ ((32 : Nat) = 16) by decide, if_false] at h
      split_ifs at h
      cases h
  · intro c h
    unfold PixelFormatImage.Set at h
    rw [hfmt] at h
    rcases hbpp with h8 | h16 | h32
    · rw [h8] at hrange
      simp only [h8, if_true, hrange] at h
      split_ifs at h
      cases h
    · rw [h16] at hrange
      simp only [h16, if_true, hrange, show ¬ ((16 : Nat) = 8) by decide, if_false] at h
      split_ifs at h
      cases h
    · rw [h32] at hrange
      simp only [h32, if_true, hrange, show ¬ ((32 : Nat) = 8) by decide,
        show ¬ ((32 : Nat) = 16) by decide, if_false] at h
      split_ifs at h
      cases h

/-- Claim C26, amended, for the 3×2 image with 16 bits per pixel and the bounds
(1,1)-(4,3): the buffer has 12 zero bytes. -/
theorem C26_new_image_witness :
    (NewPixelFormatImage
      { BitsPerPixel := 16, BitDepth := 16, BigEndian := false, TrueColor := true,
        RedMax := 255, GreenMax := 255, BlueMax := 255, RedShift := 0, GreenShift := 8,
        BlueShift := 0 } (Rect 1 1 4 3)).Pix = List.replicate 12 0 :=
  (C26_new_image
    { BitsPerPixel := 16, BitDepth := 16, BigEndian := false, TrueColor := true,
      RedMax := 255, GreenMax := 255, BlueMax := 255, RedShift := 0, GreenShift := 8,
      BlueShift := 0 } (Rect 1 1 4 3) (by decide) (by decide) (by decide) (by decide)).1

end NewImageClaims

/-! ## The painter `updateUI` and its white background: lemmas -/

section BackgroundLemmas

open Binary Image Rfb Serve draw Ui

/-- A value reduced by `wrapInt` is a value of the type `int`. -/
theorem wrapInt_range (n : Int) :
    -9223372036854775808 ≤ wrapInt n ∧ wrapInt n < 9223372036854775808 := by
  unfold wrapInt
  omega

/-- The coordinates of an intersection with a rectangle of `int` coordinates are `int`
values, whatever the first rectangle is. -/
theorem Intersect_range (r s : Rectangle)
    (hs : (-9223372036854775808 ≤ s.Min.X ∧ s.Min.X < 9223372036854775808) ∧
      (-9223372036854775808 ≤ s.Min.Y ∧ s.Min.Y < 9223372036854775808) ∧
      (-9223372036854775808 ≤ s.Max.X ∧ s.Max.X < 9223372036854775808) ∧
      (-9223372036854775808 ≤ s.Max.Y ∧ s.Max.Y < 9223372036854775808)) :
    (-9223372036854775808 ≤ (r.Intersect s).Min.X
      ∧ (r.Intersect s).Min.X < 9223372036854775808) ∧
    (-9223372036854775808 ≤ (r.Intersect s).Min.Y
      ∧ (r.Intersect s).Min.Y < 9223372036854775808) ∧
    (-9223372036854775808 ≤ (r.Intersect s).Max.X
      ∧ (r.Intersect s).Max.X < 9223372036854775808) ∧
    (-9223372036854775808 ≤ (r.Intersect s).Max.Y
      ∧ (r.Intersect s).Max.Y < 9223372036854775808) := by
  obtain ⟨⟨a, b⟩, ⟨c, d⟩⟩ := r
  obtain ⟨⟨a', b'⟩, ⟨c', d'⟩⟩ := s
  simp only at hs
  simp only [Rectangle.Intersect, Rectangle.Empty, ZR]
  split_ifs <;> simp only [decide_eq_true_eq, ge_iff_le, not_or, not_le] at * <;> omega

/-- A rectangle with a point in it is not empty. -/
theorem not_Empty_of_In (p : Point) (r : Rectangle) (h : p.In r) : r.Empty = false := by
  obtain ⟨h1, h2, h3, h4⟩ := h
  simp only [Rectangle.Empty, decide_eq_false_iff_not, not_or, ge_iff_le, not_le]
  omega

/-- The calls of `Set` of a row are on the points of the row. -/
theorem uniformRow_mem (c : NRGBA) (y : Int) (n : Nat) :
    ∀ x : Int, -9223372036854775808 ≤ x → x + n < 9223372036854775808 →
      ∀ s ∈ uniformRow c y n x, s.y = y ∧ x ≤ s.x ∧ s.x < x + n := by
  induction n with
  | zero =>
    intro x _ _ s hs
    simp [uniformRow] at hs
  | succ n ih =>
    intro x hx0 hx1 s hs
    push_cast at hx1
    simp only [uniformRow, List.mem_cons] at hs
    rcases hs with h | hs
    · rw [h]
      exact ⟨rfl, le_refl _, by push_cast; omega⟩
    · rw [show iadd x 1 = x + 1 from wrapInt_eq _ (by omega) (by omega)] at hs
      have := ih (x + 1) (by omega) (by omega) s hs
      push_cast
      omega

/-- The calls of `Set` of the rows are on the points of the rows. -/
theorem uniformRows_mem (c : NRGBA) (x0 : Int) (width : Nat)
    (hx0 : -9223372036854775808 ≤ x0) (hx1 : x0 + width < 9223372036854775808) (n : Nat) :
    ∀ y : Int, -9223372036854775808 ≤ y → y + n < 9223372036854775808 →
      ∀ s ∈ uniformRows c x0 width n y,
        (y ≤ s.y ∧ s.y < y + n) ∧ x0 ≤ s.x ∧ s.x < x0 + width := by
  induction n with
  | zero =>
    intro y _ _ s hs
    simp [uniformRows] at hs
  | succ n ih =>
    intro y hy0 hy1 s hs
    push_cast at hy1
    simp only [uniformRows, List.mem_append] at hs
    rcases hs with hs | hs
    · have := uniformRow_mem c y width x0 hx0 hx1 s hs
      push_cast
      omega
    · rw [show iadd y 1 = y + 1 from wrapInt_eq _ (by omega) (by omega)] at hs
      have := ih (y + 1) (by omega) (by omega) s hs
      push_cast
      omega

/-- Rows of at least one point, at least one of them, make a call of `Set`. -/
theorem uniformRows_ne_nil (c : NRGBA) (x0 : Int) (width n : Nat) (y : Int)
    (hw : 0 < width) (hn : 0 < n) : uniformRows c x0 width n y ≠ [] := by
  obtain ⟨n', rfl⟩ : ∃ n', n = n' + 1 := ⟨n - 1, by omega⟩
  obtain ⟨w', rfl⟩ : ∃ w', width = w' + 1 := ⟨width - 1, by omega⟩
  simp [uniformRows, uniformRow]

/-- The calls of `Set` that `draw.Draw` makes for a uniform source are on points of the
bounds of the destination. -/
theorem DrawUniform_inBounds (dst : PixelFormatImage) (r : Rectangle) (c : NRGBA)
    (sp : Point) : InBounds dst (DrawUniform dst r c sp) := by
  intro s hs
  have hU := Intersect_range (r.Intersect dst.Bounds) (uniformBounds.Add (r.Min.Sub sp))
    ⟨wrapInt_range _, wrapInt_range _, wrapInt_range _, wrapInt_range _⟩
  have hin2 : ∀ p : Point,
      p.In ((r.Intersect dst.Bounds).Intersect (uniformBounds.Add (r.Min.Sub sp)))
        → p.In dst.Rect := by
    intro p hp
    rw [In_Intersect, In_Intersect] at hp
    exact hp.1.2
  simp only [DrawUniform] at hs
  generalize (r.Intersect dst.Bounds).Intersect (uniformBounds.Add (r.Min.Sub sp)) = r2
    at hU hin2 hs
  obtain ⟨⟨a, b⟩, ⟨c1, d⟩⟩ := r2
  simp only at hU hs
  by_cases hE : (Rectangle.mk ⟨a, b⟩ ⟨c1, d⟩).Empty = true
  · rw [if_pos hE] at hs
    simp at hs
  · rw [if_neg hE] at hs
    simp only [Rectangle.Empty, decide_eq_true_eq, not_or, ge_iff_le, not_le] at hE
    have hw : (((c1 - a).toNat : Nat) : Int) = c1 - a := Int.toNat_of_nonneg (by omega)
    have hh : (((d - b).toNat : Nat) : Int) = d - b := Int.toNat_of_nonneg (by omega)
    have := uniformRows_mem c a (c1 - a).toNat (by omega) (by rw [hw]; omega) (d - b).toNat b
      (by omega) (by rw [hh]; omega) s hs
    rw [hw, hh] at this
    apply hin2 ⟨s.x, s.y⟩
    simp only [Point.In]
    omega

/-- The calls of `Set` for a uniform source on a destination whose bounds are not empty and
start within 2^62 of the origin, over those bounds: there is one. -/
theorem DrawUniform_ne_nil (dst : PixelFormatImage) (c : NRGBA)
    (hne : dst.Rect.Min.X < dst.Rect.Max.X ∧ dst.Rect.Min.Y < dst.Rect.Max.Y)
    (hx : -4611686018427387904 ≤ dst.Rect.Min.X ∧ dst.Rect.Min.X ≤ 4611686018427387904)
    (hy : -4611686018427387904 ≤ dst.Rect.Min.Y ∧ dst.Rect.Min.Y ≤ 4611686018427387904) :
    DrawUniform dst dst.Bounds c { X := 0, Y := 0 } ≠ [] := by
  have hmin : (Point.mk dst.Rect.Min.X dst.Rect.Min.Y).In
      ((dst.Bounds.Intersect dst.Bounds).Intersect
        (uniformBounds.Add (dst.Bounds.Min.Sub { X := 0, Y := 0 }))) := by
    rw [In_Intersect, In_Intersect]
    have hB : (Point.mk dst.Rect.Min.X dst.Rect.Min.Y).In dst.Bounds := by
      simp only [PixelFormatImage.Bounds, Point.In]
      omega
    refine ⟨⟨hB, hB⟩, ?_⟩
    simp only [PixelFormatImage.Bounds, Rectangle.Add, Point.Sub, uniformBounds, isub, iadd,
      sub_zero, Point.In]
    rw [wrapInt_eq dst.Rect.Min.X (by omega) (by omega),
      wrapInt_eq dst.Rect.Min.Y (by omega) (by omega),
      wrapInt_eq (-1000000000 + dst.Rect.Min.X) (by omega) (by omega),
      wrapInt_eq (-1000000000 + dst.Rect.Min.Y) (by omega) (by omega),
      wrapInt_eq (1000000000 + dst.Rect.Min.X) (by omega) (by omega),
      wrapInt_eq (1000000000 + dst.Rect.Min.Y) (by omega) (by omega)]
    omega
  have hE := not_Empty_of_In _ _ hmin
  simp only [DrawUniform]
  generalize (dst.Bounds.Intersect dst.Bounds).Intersect
    (uniformBounds.Add (dst.Bounds.Min.Sub { X := 0, Y := 0 })) = r2 at hE hmin ⊢
  rw [hE]
  simp only [Bool.false_eq_true, if_false]
  obtain ⟨h1, h2, h3, h4⟩ := hmin
  simp only at h1 h2 h3 h4
  apply uniformRows_ne_nil
  · have : 0 < r2.Max.X - r2.Min.X := by omega
    omega
  · have : 0 < r2.Max.Y - r2.Min.Y := by omega
    omega

end BackgroundLemmas

section UpdateUILemmas

open Binary Image Rfb Serve draw Ui

/-- The calls of `Set` of a painting on a well-formed image of a supported pixel format, all
on points of its bounds, complete. -/
theorem paint_ok (sets : List SetCall) :
    ∀ img : PixelFormatImage,
      (img.PixelFormat.BitsPerPixel = 8 ∨ img.PixelFormat.BitsPerPixel = 16
        ∨ img.PixelFormat.BitsPerPixel = 32) →
      img.PixelFormat.RedMax = 255 → img.PixelFormat.GreenMax = 255 →
      img.PixelFormat.BlueMax = 255 → img.WellFormed → InBounds img sets →
      ∃ img', paint img sets = .ok img' := by
  induction sets with
  | nil => intro img _ _ _ _ _ _; exact ⟨img, rfl⟩
  | cons s rest ih =>
    intro img hbpp hr hg hb hwf hin
    obtain ⟨img1, hset, hrect, hfmt, hwf1, -⟩ :=
      Set_effect img s.x s.y s.c hbpp hr hg hb hwf (hin s (List.mem_cons_self _ _))
    obtain ⟨img', h'⟩ := ih img1 (by rw [hfmt]; exact hbpp) (by rw [hfmt]; exact hr)
      (by rw [hfmt]; exact hg) (by rw [hfmt]; exact hb) hwf1
      (by
        intro t ht
        rw [hrect]
        exact hin t (List.mem_cons_of_mem _ ht))
    refine ⟨img', ?_⟩
    simp only [paint, hset]
    exact h'

/-- On an image without a pixel, calls of `Set` that are all on points of its bounds are no
calls at all. -/
theorem sets_nil_of_empty (img : PixelFormatImage) (sets : List SetCall)
    (hempty : img.Rect.Max.X ≤ img.Rect.Min.X ∨ img.Rect.Max.Y ≤ img.Rect.Min.Y)
    (hin : InBounds img sets) : sets = [] := by
  cases sets with
  | nil => rfl
  | cons s rest =>
    obtain ⟨h1, h2, h3, h4⟩ := hin s (List.mem_cons_self _ _)
    simp only at h1 h2 h3 h4
    omega

/-- Method `Except.toOption` on a value that is no error. -/
theorem Except_toOption_ok {ε α : Type} (a : α) :
    (Except.ok a : Except ε α).toOption = some a := rfl

/-- Method `Except.toOption` on an error. -/
theorem Except_toOption_error {ε α : Type} (e : ε) :
    (Except.error e : Except ε α).toOption = none := rfl

/-- What `updateUI` gives when it gives something: the rectangle (0,0)-(320,y) of the
specification, and the calls of `Set` of the background followed by those of the drawing. It
does give something when `edit` does not panic and the drawing gives its calls. -/
theorem updateUI_spec (drawing : Drawing) (widgets : List Widget)
    (img : Option PixelFormatImage) (keyEvent : KeyEvent) (pointerEvent : PointerEvent)
    (hlen : widgets.length < 4294967296)
    (hsize : ∀ w ∈ widgets, 0 ≤ w.guiSize.Y ∧ w.guiSize.Y < 65536) :
    (∀ painted, updateUI drawing widgets img keyEvent pointerEvent = some painted →
      painted.windowRect
        = { Min := { X := 0, Y := 0 }, Max := { X := 320, Y := specWindowY widgets } } ∧
      ∃ sets, drawing widgets img keyEvent pointerEvent = some sets ∧
        painted.sets = background img ++ sets) ∧
    ((keyEvent.Pressed = true ∧ keyEvent.KeySym = 0xff08 → ∀ w ∈ widgets,
        w.guiSize = { X := 0, Y := 0 } → w.fileInfo.Perm &&& 0o111 = 0 → w.content ≠ []) →
      ∀ sets, drawing widgets img keyEvent pointerEvent = some sets →
      ∃ painted, updateUI drawing widgets img keyEvent pointerEvent = some painted) := by
  have hsum : ∀ ws : List Widget, (∀ w ∈ ws, 0 ≤ w.guiSize.Y ∧ w.guiSize.Y < 65536) →
      0 ≤ (ws.map specHeight).sum := by
    intro ws
    induction ws with
    | nil => intro _; simp
    | cons w ws ih =>
      intro h
      have := specHeight_bounds w (h w (List.mem_cons_self _ _))
      have := ih (fun w hw => h w (List.mem_cons_of_mem _ hw))
      simp only [List.map_cons, List.sum_cons]
      omega
  have hmain := updateWidgets_y widgets.length keyEvent pointerEvent hlen widgets 0 8
    (by omega) (by omega) (by omega) hsize
  refine ⟨?_, ?_⟩
  · intro painted h
    simp only [updateUI] at h
    split at h
    · cases h
    · rename_i ws1 y1 heq
      split at h
      · cases h
      · rename_i sets hsets
        simp only [Option.some.injEq] at h
        subst h
        refine ⟨?_, sets, hsets, rfl⟩
        have hy := hmain.1 _ heq
        simp only at hy ⊢
        have hy1 : y1 = specWindowY widgets := by
          rw [hy]
          unfold specWindowY
          split_ifs with hws
          · subst hws; simp
          · omega
        have hpos : 0 ≤ specWindowY widgets := by
          unfold specWindowY
          have := hsum widgets hsize
          split_ifs <;> omega
        rw [hy1]
        simp only [Rect, windowWidth]
        rw [if_neg (by omega), if_neg (by omega), if_neg (by omega), if_neg (by omega)]
        rfl
  · intro hsafe sets hsets
    obtain ⟨⟨ws1, y1⟩, heq⟩ := hmain.2 hsafe
    refine ⟨{ state := ws1, windowRect := Rect 0 0 windowWidth y1,
              sets := background img ++ sets }, ?_⟩
    simp only [updateUI, heq, hsets]

end UpdateUILemmas

section ResultLemmas

open Binary Image Rfb Serve draw Ui

/-- The background of a target image that is a `*rfb.PixelFormatImage`. -/
theorem background_some (i : PixelFormatImage) :
    background (some i) = DrawUniform i i.Bounds white { X := 0, Y := 0 } := rfl

/-- A call of `updateUI` in which `edit` or the drawing panics does not return. -/
theorem updateUIResult_of_none (drawing : Drawing) (widgets : List Widget)
    (img : Option PixelFormatImage) (keyEvent : KeyEvent) (pointerEvent : PointerEvent)
    (hui : updateUI drawing widgets img keyEvent pointerEvent = none) :
    updateUIResult drawing widgets img keyEvent pointerEvent = none := by
  cases img with
  | none => rw [updateUIResult, hui, Option.map_none']
  | some i => rw [updateUIResult, hui, Option.none_bind]

/-- A call of `updateUI` on the throwaway image returns what `updateUI` gives. -/
theorem updateUIResult_none (drawing : Drawing) (widgets : List Widget)
    (keyEvent : KeyEvent) (pointerEvent : PointerEvent) (painted : Painted (List Widget))
    (hui : updateUI drawing widgets none keyEvent pointerEvent = some painted) :
    updateUIResult drawing widgets none keyEvent pointerEvent
      = some (painted.state, painted.windowRect) := by
  rw [updateUIResult, hui, Option.map_some']

/-- A call of `updateUI` on an image returns what `updateUI` gives when its calls of `Set`
complete. -/
theorem updateUIResult_ok (drawing : Drawing) (widgets : List Widget)
    (i : PixelFormatImage) (keyEvent : KeyEvent) (pointerEvent : PointerEvent)
    (painted : Painted (List Widget)) (img' : PixelFormatImage)
    (hui : updateUI drawing widgets (some i) keyEvent pointerEvent = some painted)
    (hpaint : paint i painted.sets = .ok img') :
    updateUIResult drawing widgets (some i) keyEvent pointerEvent
      = some (painted.state, painted.windowRect) := by
  rw [updateUIResult, hui, Option.some_bind, hpaint, Except_toOption_ok, Option.map_some']

/-- A call of `updateUI` on an image does not return when one of its calls of `Set`
panics. -/
theorem updateUIResult_error (drawing : Drawing) (widgets : List Widget)
    (i : PixelFormatImage) (keyEvent : KeyEvent) (pointerEvent : PointerEvent)
    (painted : Painted (List Widget)) (p : Panic)
    (hui : updateUI drawing widgets (some i) keyEvent pointerEvent = some painted)
    (hpaint : paint i painted.sets = .error p) :
    updateUIResult drawing widgets (some i) keyEvent pointerEvent = none := by
  rw [updateUIResult, hui, Option.some_bind, hpaint, Except_toOption_error, Option.map_none']

/-- A call of `updateUI` that returns gives the widgets and the rectangle of `updateUI`. -/
theorem updateUIResult_some (drawing : Drawing) (widgets : List Widget)
    (img : Option PixelFormatImage) (keyEvent : KeyEvent) (pointerEvent : PointerEvent)
    (ws : List Widget) (rect : Rectangle)
    (h : updateUIResult drawing widgets img keyEvent pointerEvent = some (ws, rect)) :
    ∃ painted, updateUI drawing widgets img keyEvent pointerEvent = some painted ∧
      painted.windowRect = rect := by
  cases hui : updateUI drawing widgets img keyEvent pointerEvent with
  | none =>
    rw [updateUIResult_of_none drawing widgets img keyEvent pointerEvent hui] at h
    cases h
  | some painted =>
    refine ⟨painted, rfl, ?_⟩
    cases img with
    | none =>
      rw [updateUIResult_none drawing widgets keyEvent pointerEvent painted hui] at h
      simp only [Option.some.injEq, Prod.mk.injEq] at h
      exact h.2
    | some i =>
      cases hp : paint i painted.sets with
      | error p =>
        rw [updateUIResult_error drawing widgets i keyEvent pointerEvent painted p hui hp] at h
        cases h
      | ok img' =>
        rw [updateUIResult_ok drawing widgets i keyEvent pointerEvent painted img' hui hp] at h
        simp only [Option.some.injEq, Prod.mk.injEq] at h
        exact h.2

end ResultLemmas

/-! ## The rectangle of the window: claim C16 -/

section LayoutClaims

open Binary Image Rfb Serve draw Ui

/-- Claim C16 as stated does not hold for every key and pointer input and every target
image. For one plain file with an empty text, a pressed 0xFF08 with the pointer on its editor
makes `edit` panic, and `updateUI` returns no rectangle. On the image of the request
(0,0,2,1) with 16 bits per pixel and the maxima 31, 63, 31, the first call of `Set` of the
white background panics, with no widget and no key pressed. On an image in the canonical
format over (0,0)-(2^31,2^31), whose buffer is empty because the number of bytes wraps
around to 0, that call of `Set` indexes out of range. -/
theorem C16_backspace_counterexample :
    (updateUI (fun _ _ _ _ => some [])
      [Widget.new { Name := [97], IsDir := false, Perm := 0o644 }] none
      { Pressed := true, KeySym := 0xff08 } { ButtonMask := 0, X := 10, Y := 30 }).isNone
      = true ∧
    updateUIResult (fun _ _ _ _ => some [])
      [Widget.new { Name := [97], IsDir := false, Perm := 0o644 }] none
      { Pressed := true, KeySym := 0xff08 } { ButtonMask := 0, X := 10, Y := 30 } = none ∧
    updateUIResult (fun _ _ _ _ => some []) []
      (some (NewPixelFormatImage
        { BitsPerPixel := 16, BitDepth := 16, BigEndian := false, TrueColor := true,
          RedMax := 31, GreenMax := 63, BlueMax := 31, RedShift := 11, GreenShift := 5,
          BlueShift := 0 } (Rect 0 0 2 1)))
      { Pressed := false, KeySym := 0 } { ButtonMask := 0, X := 0, Y := 0 } = none ∧
    updateUIResult (fun _ _ _ _ => some []) []
      (some (NewPixelFormatImage canonicalPixelFormat (Rect 0 0 2147483648 2147483648)))
      { Pressed := false, KeySym := 0 } { ButtonMask := 0, X := 0, Y := 0 } = none := by
  refine ⟨rfl, rfl, rfl, ?_⟩
  rfl

/-- Claim C16, amended: for every list of less than 2^32 widgets whose panel heights are
`uint16` values and every key and pointer input, a call of `updateUI` that returns gives the
rectangle (0,0)-(320,y), where `y` is 8 for the empty list and otherwise 16 for each widget
plus the heights of the widgets (24 for an executable, 40 for a plain file, the height of the
panel plus 24 for a nested GUI): it depends neither on the input events nor on the target
image. The call does return when the key event is not a pressed 0xFF08 or no plain file has
an empty text, the drawing of the widgets does not panic outside the target image and makes
its calls of `Set` on points of the bounds of the target image, and the target image is the
throwaway image, or has no pixel, or has 8, 16 or 32 bits per pixel, the maxima 255 and a
buffer of (bpp/8)*dx*dy bytes. It does not return on a target image with a pixel (whose
bounds start within 2^62 of the origin) and an unsupported pixel format. -/
theorem C16_window_rect (drawing : Drawing) (widgets : List Widget)
    (img : Option PixelFormatImage) (keyEvent : KeyEvent) (pointerEvent : PointerEvent)
    (hlen : widgets.length < 4294967296)
    (hsize : ∀ w ∈ widgets, 0 ≤ w.guiSize.Y ∧ w.guiSize.Y < 65536) :
    (∀ ws rect, updateUIResult drawing widgets img keyEvent pointerEvent = some (ws, rect) →
      rect = { Min := { X := 0, Y := 0 }, Max := { X := 320, Y := specWindowY widgets } }) ∧
    ((keyEvent.Pressed = true ∧ keyEvent.KeySym = 0xff08 → ∀ w ∈ widgets,
        w.guiSize = { X := 0, Y := 0 } → w.fileInfo.Perm &&& 0o111 = 0 → w.content ≠ []) →
      ∀ sets, drawing widgets img keyEvent pointerEvent = some sets →
      (∀ i, img = some i → InBounds i sets ∧
        (i.Rect.Max.X ≤ i.Rect.Min.X ∨ i.Rect.Max.Y ≤ i.Rect.Min.Y ∨
          ((i.PixelFormat.BitsPerPixel = 8 ∨ i.PixelFormat.BitsPerPixel = 16
              ∨ i.PixelFormat.BitsPerPixel = 32) ∧
            i.PixelFormat.RedMax = 255 ∧ i.PixelFormat.GreenMax = 255 ∧
            i.PixelFormat.BlueMax = 255 ∧ i.WellFormed))) →
      ∃ ws, updateUIResult drawing widgets img keyEvent pointerEvent
        = some (ws, { Min := { X := 0, Y := 0 },
                      Max := { X := 320, Y := specWindowY widgets } })) ∧
    (∀ i, img = some i →
      i.Rect.Min.X < i.Rect.Max.X → i.Rect.Min.Y < i.Rect.Max.Y →
      -4611686018427387904 ≤ i.Rect.Min.X → i.Rect.Min.X ≤ 4611686018427387904 →
      -4611686018427387904 ≤ i.Rect.Min.Y → i.Rect.Min.Y ≤ 4611686018427387904 →
      ¬ ((i.PixelFormat.BitsPerPixel = 8 ∨ i.PixelFormat.BitsPerPixel = 16
          ∨ i.PixelFormat.BitsPerPixel = 32) ∧
        i.PixelFormat.RedMax = 255 ∧ i.PixelFormat.GreenMax = 255 ∧
        i.PixelFormat.BlueMax = 255) →
      updateUIResult drawing widgets img keyEvent pointerEvent = none) := by
  have hspec := updateUI_spec drawing widgets img keyEvent pointerEvent hlen hsize
  refine ⟨?_, ?_, ?_⟩
  · intro ws rect h
    obtain ⟨painted, hui, hrect⟩ :=
      updateUIResult_some drawing widgets img keyEvent pointerEvent ws rect h
    rw [← hrect]
    exact (hspec.1 painted hui).1
  · intro hsafe sets hsets htarget
    obtain ⟨painted, hui⟩ := hspec.2 hsafe sets hsets
    obtain ⟨hrect, sets', hsets', hps⟩ := hspec.1 painted hui
    rw [hsets] at hsets'
    cases hsets'
    refine ⟨painted.state, ?_⟩
    rw [← hrect]
    cases img with
    | none => exact updateUIResult_none drawing widgets keyEvent pointerEvent painted hui
    | some i =>
      obtain ⟨hin, hcase⟩ := htarget i rfl
      have hall : InBounds i painted.sets := by
        rw [hps, background_some]
        intro s hs
        rcases List.mem_append.mp hs with hs | hs
        · exact DrawUniform_inBounds i i.Bounds white { X := 0, Y := 0 } s hs
        · exact hin s hs
      have hpaint : ∃ img', paint i painted.sets = .ok img' := by
        rcases hcase with he | he | ⟨hbpp, hr, hg, hb, hwf⟩
        · rw [sets_nil_of_empty i painted.sets (Or.inl he) hall]
          exact ⟨i, rfl⟩
        · rw [sets_nil_of_empty i painted.sets (Or.inr he) hall]
          exact ⟨i, rfl⟩
        · exact paint_ok painted.sets i hbpp hr hg hb hwf hall
      obtain ⟨img', himg'⟩ := hpaint
      exact updateUIResult_ok drawing widgets i keyEvent pointerEvent painted img' hui himg'
  · intro i hi hx hy hx0 hx1 hy0 hy1 hun
    subst hi
    cases hui : updateUI drawing widgets (some i) keyEvent pointerEvent with
    | none => exact updateUIResult_of_none drawing widgets (some i) keyEvent pointerEvent hui
    | some painted =>
      obtain ⟨-, sets, -, hps⟩ := hspec.1 painted hui
      have hne : painted.sets ≠ [] := by
        rw [hps, background_some]
        intro h
        exact DrawUniform_ne_nil i white ⟨hx, hy⟩ ⟨hx0, hx1⟩ ⟨hy0, hy1⟩
          (List.append_eq_nil.mp h).1
      obtain ⟨p, hp⟩ := paint_unsupported i painted.sets hne hun
      exact updateUIResult_error drawing widgets i keyEvent pointerEvent painted p hui hp

/-- Claim C16, amended, for a plain file, an executable and a file with a nested GUI of
height 20, with the key "a" pressed, on a 4×2 image in the canonical format: the call
returns the rectangle (0,0)-(320,156). -/
theorem C16_window_rect_witness :
    ∃ ws, updateUIResult (fun _ _ _ _ => some [])
        [Widget.new { Name := [97], IsDir := false, Perm := 0o644 },
          Widget.new { Name := [98], IsDir := false, Perm := 0o755 },
          { Widget.new { Name := [99], IsDir := false, Perm := 0o644 } with
            guiSize := { X := 10, Y := 20 } }]
        (some (NewPixelFormatImage canonicalPixelFormat (Rect 0 0 4 2)))
        { Pressed := true, KeySym := 97 } { ButtonMask := 0, X := 10, Y := 30 }
      = some (ws, { Min := { X := 0, Y := 0 }, Max := { X := 320, Y := 156 } }) :=
  (C16_window_rect (fun _ _ _ _ => some [])
    [Widget.new { Name := [97], IsDir := false, Perm := 0o644 },
      Widget.new { Name := [98], IsDir := false, Perm := 0o755 },
      { Widget.new { Name := [99], IsDir := false, Perm := 0o644 } with
        guiSize := { X := 10, Y := 20 } }]
    (some (NewPixelFormatImage canonicalPixelFormat (Rect 0 0 4 2)))
    { Pressed := true, KeySym := 97 } { ButtonMask := 0, X := 10, Y := 30 } (by decide)
    (by decide)).2.1 (fun hk => absurd hk.2 (by decide)) [] rfl
    (fun i hi => by
      cases hi
      exact ⟨fun s hs => absurd hs (List.not_mem_nil s),
        Or.inr (Or.inr ⟨by decide, by decide, by decide, by decide, by decide⟩)⟩)

end LayoutClaims
